import Mathlib

/-!
# Ten-band equalizer engine: embedding and verification

Shallow embedding of `native/src/biquad_filter.cpp`, `native/src/equalizer.cpp`,
`native/src/audio_processor.cpp` and of `SystemAudioHook::processAudioBuffer` in
`native/src/system_audio_hook.cpp`.

Modelling conventions.

* `double` and `float` values are elements of a linearly ordered field `α`
  (exact arithmetic: rounding, infinities and NaN are not represented).
* `std::pow`, `std::sin`, `std::cos`, `std::sqrt` come from the C library and
  are passed in as a record `CMath α`.
* A `float*` argument is an address into a flat sample memory `Mem α`;
  `p[i]` is the cell at address `p + i`.
* The `std::vector` members of `Equalizer` hold exactly `NUM_BANDS` elements from
  construction on (no member function resizes them) and are embedded as tables
  indexed by `Fin NUM_BANDS`.
* `int` arguments are mathematical integers; a counted `for` loop whose bound is
  an `int n` runs `n.toNat` times.
-/

namespace EQ

/-! ## C library and standard-library primitives -/

/-- The `<cmath>` functions used by `BiquadFilter::calculateCoefficients`. -/
structure CMath (α : Type) where
  pow : α → α → α
  sin : α → α
  cos : α → α
  sqrt : α → α

/-- Sample memory: the cell at every address. -/
abbrev Mem (α : Type) := Nat → α

section Defs

variable {α : Type} [LinearOrderedField α]

/-- The function `std::max(a, b)`: `(a < b) ? b : a`. -/
def stdMax (a b : α) : α := if a < b then b else a

/-- The function `std::min(a, b)`: `(b < a) ? b : a`. -/
def stdMin (a b : α) : α := if b < a then b else a

/-- The constant `M_PI` of `biquad_filter.cpp`. -/
def M_PI : α := 3.14159265358979323846

/-! ## biquad_filter.h / biquad_filter.cpp -/

/-- The enumeration `BiquadFilter::FilterType`. -/
inductive FilterType where
  | LOWSHELF
  | HIGHSHELF
  | PEAKING
  deriving DecidableEq, Repr

/-- The data members of `class BiquadFilter`. -/
structure BiquadFilter (α : Type) where
  a0 : α
  a1 : α
  a2 : α
  b0 : α
  b1 : α
  b2 : α
  x1 : α
  x2 : α
  y1 : α
  y2 : α
  type : FilterType
  frequency : α
  sampleRate : α
  gainDB : α
  Q : α
  deriving DecidableEq

/-- The method `BiquadFilter::calculateCoefficients`. -/
def BiquadFilter.calculateCoefficients (M : CMath α) (f : BiquadFilter α) : BiquadFilter α :=
  let A := M.pow 10 (f.gainDB / 40)
  let omega := 2 * M_PI * f.frequency / f.sampleRate
  let sn := M.sin omega
  let cs := M.cos omega
  let alpha := sn / (2 * f.Q)
  let raw : BiquadFilter α :=
    match f.type with
    | FilterType.LOWSHELF =>
      let beta := M.sqrt A / f.Q
      { f with
        b0 := A * ((A + 1) - (A - 1) * cs + beta * sn)
        b1 := 2 * A * ((A - 1) - (A + 1) * cs)
        b2 := A * ((A + 1) - (A - 1) * cs - beta * sn)
        a0 := (A + 1) + (A - 1) * cs + beta * sn
        a1 := -2 * ((A - 1) + (A + 1) * cs)
        a2 := (A + 1) + (A - 1) * cs - beta * sn }
    | FilterType.HIGHSHELF =>
      let beta := M.sqrt A / f.Q
      { f with
        b0 := A * ((A + 1) + (A - 1) * cs + beta * sn)
        b1 := -2 * A * ((A - 1) + (A + 1) * cs)
        b2 := A * ((A + 1) + (A - 1) * cs - beta * sn)
        a0 := (A + 1) - (A - 1) * cs + beta * sn
        a1 := 2 * ((A - 1) - (A + 1) * cs)
        a2 := (A + 1) - (A - 1) * cs - beta * sn }
    | FilterType.PEAKING =>
      { f with
        b0 := 1 + alpha * A
        b1 := -2 * cs
        b2 := 1 - alpha * A
        a0 := 1 + alpha / A
        a1 := -2 * cs
        a2 := 1 - alpha / A }
  { raw with
    b0 := raw.b0 / raw.a0
    b1 := raw.b1 / raw.a0
    b2 := raw.b2 / raw.a0
    a1 := raw.a1 / raw.a0
    a2 := raw.a2 / raw.a0
    a0 := 1 }

/-- The constructor `BiquadFilter::BiquadFilter()`. -/
def BiquadFilter.new (M : CMath α) : BiquadFilter α :=
  BiquadFilter.calculateCoefficients M
    { a0 := 1, a1 := 0, a2 := 0, b0 := 1, b1 := 0, b2 := 0
      x1 := 0, x2 := 0, y1 := 0, y2 := 0
      type := FilterType.PEAKING, frequency := 1000, sampleRate := 44100
      gainDB := 0, Q := 1 }

/-- The method `BiquadFilter::setType`. -/
def BiquadFilter.setType (M : CMath α) (f : BiquadFilter α) (t : FilterType) : BiquadFilter α :=
  BiquadFilter.calculateCoefficients M { f with type := t }

/-- The method `BiquadFilter::setFrequency`. -/
def BiquadFilter.setFrequency (M : CMath α) (f : BiquadFilter α) (freq sr : α) :
    BiquadFilter α :=
  BiquadFilter.calculateCoefficients M { f with frequency := freq, sampleRate := sr }

/-- The method `BiquadFilter::setGain`. -/
def BiquadFilter.setGain (M : CMath α) (f : BiquadFilter α) (gain : α) : BiquadFilter α :=
  BiquadFilter.calculateCoefficients M { f with gainDB := gain }

/-- The method `BiquadFilter::setQ`. -/
def BiquadFilter.setQ (M : CMath α) (f : BiquadFilter α) (q : α) : BiquadFilter α :=
  BiquadFilter.calculateCoefficients M { f with Q := q }

/-- The method `BiquadFilter::process`: the updated filter and the returned sample. -/
def BiquadFilter.process (f : BiquadFilter α) (input : α) : BiquadFilter α × α :=
  let output := f.b0 * input + f.b1 * f.x1 + f.b2 * f.x2 - f.a1 * f.y1 - f.a2 * f.y2
  ({ f with x2 := f.x1, x1 := input, y2 := f.y1, y1 := output }, output)

/-- The method `BiquadFilter::reset`. -/
def BiquadFilter.reset (f : BiquadFilter α) : BiquadFilter α :=
  { f with x1 := 0, x2 := 0, y1 := 0, y2 := 0 }

/-! ## equalizer.h / equalizer.cpp -/

/-- The constant `Equalizer::NUM_BANDS`. -/
abbrev NUM_BANDS : Nat := 10

/-- The table `BAND_FREQUENCIES`. -/
def BAND_FREQUENCIES (α : Type) [LinearOrderedField α] : List α :=
  [31, 62, 125, 250, 500, 1000, 2000, 4000, 8000, 16000]

/-- The table `PRESETS`, keyed by preset name. -/
def PRESETS (α : Type) [LinearOrderedField α] : List (String × List α) :=
  [ ("flat",         [0, 0, 0, 0, 0, 0, 0, 0, 0, 0]),
    ("rock",         [5, 3, -2, -3, -1, 1, 3, 4, 5, 5]),
    ("pop",          [-1, 2, 4, 4, 2, 0, -1, -1, -1, -1]),
    ("jazz",         [4, 3, 1, 2, -1, -1, 0, 1, 3, 4]),
    ("classical",    [5, 4, 3, 2, -1, -1, 0, 2, 3, 4]),
    ("electronic",   [5, 4, 2, 0, -2, 2, 1, 2, 4, 5]),
    ("hiphop",       [5, 4, 1, 3, -1, -1, 1, -1, 2, 3]),
    ("acoustic",     [4, 3, 2, 1, 2, 1, 2, 3, 4, 3]),
    ("bass_boost",   [8, 6, 4, 2, 0, 0, 0, 0, 0, 0]),
    ("treble_boost", [0, 0, 0, 0, 0, 0, 2, 4, 6, 8]),
    ("vocal_boost",  [-2, -1, 0, 1, 4, 4, 3, 1, 0, -1]),
    ("dance",        [4, 3, 2, 0, 0, -1, 2, 3, 4, 4]) ]

/-- The data members of `class Equalizer`. -/
@[ext]
structure Equalizer (α : Type) where
  leftFilters : Fin NUM_BANDS → BiquadFilter α
  rightFilters : Fin NUM_BANDS → BiquadFilter α
  currentGains : Fin NUM_BANDS → α
  sampleRate : α
  enabled : Bool

/-- The filter type chosen for band `i` in `Equalizer::initializeFilters`. -/
def bandType (i : Fin NUM_BANDS) : FilterType :=
  if i.val = 0 then FilterType.LOWSHELF
  else if i.val = NUM_BANDS - 1 then FilterType.HIGHSHELF
  else FilterType.PEAKING

/-- The filter built for band `i` by one iteration of `Equalizer::initializeFilters`:
default construction, then `setType`, `setFrequency`, `setQ(1.0)`, `setGain(0.0)`. -/
def initialFilter (M : CMath α) (sr : α) (i : Fin NUM_BANDS) : BiquadFilter α :=
  BiquadFilter.setGain M
    (BiquadFilter.setQ M
      (BiquadFilter.setFrequency M
        (BiquadFilter.setType M (BiquadFilter.new M) (bandType i))
        ((BAND_FREQUENCIES α).getD i.val 0) sr)
      1)
    0

/-- The method `Equalizer::initializeFilters`. -/
def Equalizer.initializeFilters (M : CMath α) (e : Equalizer α) : Equalizer α :=
  { e with
    leftFilters := fun i => initialFilter M e.sampleRate i
    rightFilters := fun i => initialFilter M e.sampleRate i }

/-- The constructor `Equalizer::Equalizer(double sr)`. -/
def Equalizer.new (M : CMath α) (sr : α) : Equalizer α :=
  Equalizer.initializeFilters M
    { leftFilters := fun _ => BiquadFilter.new M
      rightFilters := fun _ => BiquadFilter.new M
      currentGains := fun _ => 0
      sampleRate := sr
      enabled := true }

/-- The band index denoted by an in-range `int`. -/
def bandOfInt (bandIndex : Int) (h : ¬ (bandIndex < 0 ∨ bandIndex ≥ NUM_BANDS)) : Fin NUM_BANDS :=
  ⟨bandIndex.toNat, by omega⟩

/-- One iteration of the band loop of `Equalizer::processStereo`: the state is the two
cascades with the current left and right sample. -/
def bandStep
    (st : (Fin NUM_BANDS → BiquadFilter α) × (Fin NUM_BANDS → BiquadFilter α) × α × α)
    (band : Fin NUM_BANDS) :
    (Fin NUM_BANDS → BiquadFilter α) × (Fin NUM_BANDS → BiquadFilter α) × α × α :=
  let l := BiquadFilter.process (st.1 band) st.2.2.1
  let r := BiquadFilter.process (st.2.1 band) st.2.2.2
  (Function.update st.1 band l.1, Function.update st.2.1 band r.1, l.2, r.2)

/-- One iteration of the frame loop of `Equalizer::processStereo`, at frame `i`. -/
def processFrame (leftChannel rightChannel : Nat) (st : Equalizer α × Mem α) (i : Nat) :
    Equalizer α × Mem α :=
  let leftSample := st.2 (leftChannel + i)
  let rightSample := st.2 (rightChannel + i)
  let r := (List.finRange NUM_BANDS).foldl bandStep
    (st.1.leftFilters, st.1.rightFilters, leftSample, rightSample)
  let mem1 := Function.update st.2 (leftChannel + i) (stdMax (-1) (stdMin 1 r.2.2.1))
  let mem2 := Function.update mem1 (rightChannel + i) (stdMax (-1) (stdMin 1 r.2.2.2))
  ({ st.1 with leftFilters := r.1, rightFilters := r.2.1 }, mem2)

/-- The method `Equalizer::processStereo`. -/
def Equalizer.processStereo (e : Equalizer α) (mem : Mem α) (leftChannel rightChannel : Nat)
    (numSamples : Int) : Equalizer α × Mem α :=
  if !e.enabled then (e, mem)
  else (List.range numSamples.toNat).foldl (processFrame leftChannel rightChannel) (e, mem)

/-- The method `Equalizer::updateFilter`. -/
def Equalizer.updateFilter (M : CMath α) (e : Equalizer α) (bandIndex : Fin NUM_BANDS) :
    Equalizer α :=
  let e1 := { e with
    leftFilters := Function.update e.leftFilters bandIndex
      (BiquadFilter.setGain M (e.leftFilters bandIndex) (e.currentGains bandIndex)) }
  { e1 with
    rightFilters := Function.update e1.rightFilters bandIndex
      (BiquadFilter.setGain M (e1.rightFilters bandIndex) (e1.currentGains bandIndex)) }

/-- The method `Equalizer::setBandGain`. -/
def Equalizer.setBandGain (M : CMath α) (e : Equalizer α) (bandIndex : Int) (gainDB : α) :
    Equalizer α :=
  if h : bandIndex < 0 ∨ bandIndex ≥ NUM_BANDS then e
  else
    let gainDB := stdMax (-12) (stdMin 12 gainDB)
    Equalizer.updateFilter M
      { e with currentGains := Function.update e.currentGains (bandOfInt bandIndex h) gainDB }
      (bandOfInt bandIndex h)

/-- The method `Equalizer::getBandGain`. -/
def Equalizer.getBandGain (e : Equalizer α) (bandIndex : Int) : α :=
  if h : bandIndex < 0 ∨ bandIndex ≥ NUM_BANDS then 0
  else e.currentGains (bandOfInt bandIndex h)

/-- The method `Equalizer::applyPreset`. -/
def Equalizer.applyPreset (M : CMath α) (e : Equalizer α) (presetName : String) : Equalizer α :=
  match (PRESETS α).lookup presetName with
  | none => e
  | some gains =>
    (List.range (min NUM_BANDS gains.length)).foldl
      (fun (e : Equalizer α) (i : Nat) => Equalizer.setBandGain M e (i : Int) (gains.getD i 0)) e

/-- The two statements `leftFilters[i].reset(); rightFilters[i].reset();` shared by the
loops of `Equalizer::reset` and `Equalizer::setEnabled`. -/
def resetFilters (e : Equalizer α) (i : Fin NUM_BANDS) : Equalizer α :=
  let e1 := { e with
    leftFilters := Function.update e.leftFilters i (BiquadFilter.reset (e.leftFilters i)) }
  { e1 with
    rightFilters := Function.update e1.rightFilters i (BiquadFilter.reset (e1.rightFilters i)) }

/-- One iteration of the loop of `Equalizer::reset`. -/
def resetBand (M : CMath α) (e : Equalizer α) (i : Fin NUM_BANDS) : Equalizer α :=
  resetFilters (Equalizer.setBandGain M e (i.val : Int) 0) i

/-- The method `Equalizer::reset`. -/
def Equalizer.reset (M : CMath α) (e : Equalizer α) : Equalizer α :=
  (List.finRange NUM_BANDS).foldl (resetBand M) e

/-- The method `Equalizer::setEnabled`. -/
def Equalizer.setEnabled (e : Equalizer α) (en : Bool) : Equalizer α :=
  let e1 := { e with enabled := en }
  if !e1.enabled then (List.finRange NUM_BANDS).foldl resetFilters e1
  else e1

/-- The method `Equalizer::isEnabled`. -/
def Equalizer.isEnabled (e : Equalizer α) : Bool := e.enabled

/-- The method `Equalizer::getBandFrequencies`. -/
def Equalizer.getBandFrequencies : List α := BAND_FREQUENCIES α

/-! ## audio_processor.h / audio_processor.cpp -/

/-- The data members of `class AudioProcessor`. -/
structure AudioProcessor (α : Type) where
  equalizer : Equalizer α
  sampleRate : α
  initialized : Bool
  leftBuffer : List α
  rightBuffer : List α

/-- The constructor `AudioProcessor::AudioProcessor()`. -/
def AudioProcessor.new (M : CMath α) : AudioProcessor α :=
  { equalizer := Equalizer.new M 44100
    sampleRate := 44100
    initialized := false
    leftBuffer := []
    rightBuffer := [] }

/-- The method `AudioProcessor::initialize`. -/
def AudioProcessor.initialize (M : CMath α) (p : AudioProcessor α) (sr : α) :
    AudioProcessor α :=
  { p with sampleRate := sr, equalizer := Equalizer.new M sr, initialized := true }

/-- The method `std::vector<float>::resize(n)`: truncate, or pad with `0.0f`. -/
def vectorResize (v : List α) (n : Nat) : List α := List.takeD n v 0

/-- The storage of the two scratch vectors seen as sample memory: `leftBuffer.data()`
is address `0`, `rightBuffer.data()` is address `leftBuffer.size()`. -/
def scratchMem (leftBuffer rightBuffer : List α) : Mem α :=
  fun a =>
    if a < leftBuffer.length then leftBuffer.getD a 0
    else rightBuffer.getD (a - leftBuffer.length) 0

/-- The method `AudioProcessor::processInterleavedStereo`; `none` when
`vector::resize` is handed a negative frame count and throws. -/
def AudioProcessor.processInterleavedStereo (p : AudioProcessor α) (mem : Mem α)
    (buffer : Nat) (numSamples : Int) : Option (AudioProcessor α × Mem α) :=
  if !p.initialized || !p.equalizer.isEnabled then some (p, mem)
  else
    let numFrames := Int.tdiv numSamples 2
    if numFrames < 0 then none
    else
      let n := numFrames.toNat
      let sized : List α × List α := (vectorResize p.leftBuffer n, vectorResize p.rightBuffer n)
      let split := (List.range n).foldl
        (fun (s : List α × List α) i =>
          (s.1.set i (mem (buffer + i * 2)), s.2.set i (mem (buffer + (i * 2 + 1)))))
        sized
      let r := Equalizer.processStereo p.equalizer (scratchMem split.1 split.2)
        0 split.1.length numFrames
      let leftBuffer := (List.range split.1.length).map r.2
      let rightBuffer := (List.range split.2.length).map (fun i => r.2 (split.1.length + i))
      let mem1 := (List.range n).foldl
        (fun (m : Mem α) i =>
          Function.update (Function.update m (buffer + i * 2) (leftBuffer.getD i 0))
            (buffer + (i * 2 + 1)) (rightBuffer.getD i 0))
        mem
      some ({ p with equalizer := r.1, leftBuffer := leftBuffer, rightBuffer := rightBuffer },
        mem1)

/-- The method `AudioProcessor::processSeparateChannels`. -/
def AudioProcessor.processSeparateChannels (p : AudioProcessor α) (mem : Mem α)
    (leftChannel rightChannel : Nat) (numSamples : Int) : AudioProcessor α × Mem α :=
  if !p.initialized || !p.equalizer.isEnabled then (p, mem)
  else
    let r := Equalizer.processStereo p.equalizer mem leftChannel rightChannel numSamples
    ({ p with equalizer := r.1 }, r.2)

/-- The method `AudioProcessor::setEQBandGain`. -/
def AudioProcessor.setEQBandGain (M : CMath α) (p : AudioProcessor α) (bandIndex : Int)
    (gainDB : α) : AudioProcessor α :=
  { p with equalizer := Equalizer.setBandGain M p.equalizer bandIndex gainDB }

/-- The method `AudioProcessor::getEQBandGain`. -/
def AudioProcessor.getEQBandGain (p : AudioProcessor α) (bandIndex : Int) : α :=
  Equalizer.getBandGain p.equalizer bandIndex

/-- The method `AudioProcessor::applyEQPreset`. -/
def AudioProcessor.applyEQPreset (M : CMath α) (p : AudioProcessor α) (presetName : String) :
    AudioProcessor α :=
  { p with equalizer := Equalizer.applyPreset M p.equalizer presetName }

/-- The method `AudioProcessor::resetEQ`. -/
def AudioProcessor.resetEQ (M : CMath α) (p : AudioProcessor α) : AudioProcessor α :=
  { p with equalizer := Equalizer.reset M p.equalizer }

/-- The method `AudioProcessor::setEQEnabled`. -/
def AudioProcessor.setEQEnabled (p : AudioProcessor α) (enabled : Bool) : AudioProcessor α :=
  { p with equalizer := Equalizer.setEnabled p.equalizer enabled }

/-- The method `AudioProcessor::isEQEnabled`. -/
def AudioProcessor.isEQEnabled (p : AudioProcessor α) : Bool :=
  Equalizer.isEnabled p.equalizer

/-! ## Reachable states and state predicates -/

/-- The four state scalars of a filter are zero. -/
def ZeroState (f : BiquadFilter α) : Prop :=
  f.x1 = 0 ∧ f.x2 = 0 ∧ f.y1 = 0 ∧ f.y2 = 0

/-- The design parameters that `Equalizer::initializeFilters` gives the filters of band
`i` at sample rate `sr`, apart from the gain. -/
def BandDesign (sr : α) (i : Fin NUM_BANDS) (f : BiquadFilter α) : Prop :=
  f.type = bandType i ∧ f.frequency = (BAND_FREQUENCIES α).getD i.val 0 ∧
    f.sampleRate = sr ∧ f.Q = 1

/-- Both cascades of the Equalizer carry the band design at sample rate `sr`. -/
def Designed (sr : α) (e : Equalizer α) : Prop :=
  e.sampleRate = sr ∧
    ∀ i : Fin NUM_BANDS, BandDesign sr i (e.leftFilters i) ∧ BandDesign sr i (e.rightFilters i)

/-- A filter whose recursion returns its input: unit `b0`, feedback coefficients equal to
the feed-forward ones, and equal input and output histories. -/
def PassThrough (f : BiquadFilter α) : Prop :=
  f.b0 = 1 ∧ f.b1 = f.a1 ∧ f.b2 = f.a2 ∧ f.x1 = f.y1 ∧ f.x2 = f.y2

/-- The names of the defined presets, in table order. -/
def presetNames : List String :=
  ["flat", "rock", "pop", "jazz", "classical", "electronic", "hiphop", "acoustic",
   "bass_boost", "treble_boost", "vocal_boost", "dance"]

/-- The Equalizer states obtained from `Equalizer(sr)` by calls of the public
member functions. -/
inductive Reachable (M : CMath α) (sr : α) : Equalizer α → Prop
  | init : Reachable M sr (Equalizer.new M sr)
  | setBandGain (e : Equalizer α) (bandIndex : Int) (gainDB : α) :
      Reachable M sr e → Reachable M sr (Equalizer.setBandGain M e bandIndex gainDB)
  | applyPreset (e : Equalizer α) (presetName : String) :
      Reachable M sr e → Reachable M sr (Equalizer.applyPreset M e presetName)
  | setEnabled (e : Equalizer α) (en : Bool) :
      Reachable M sr e → Reachable M sr (Equalizer.setEnabled e en)
  | reset (e : Equalizer α) :
      Reachable M sr e → Reachable M sr (Equalizer.reset M e)
  | processStereo (e : Equalizer α) (mem : Mem α) (leftChannel rightChannel : Nat)
      (numSamples : Int) :
      Reachable M sr e →
      Reachable M sr (Equalizer.processStereo e mem leftChannel rightChannel numSamples).1

/-- The method `AudioProcessor::getBandFrequencies`: the loop pushes `freqs[i]` for
`i = 0 .. NUM_BANDS - 1`. -/
def AudioProcessor.getBandFrequencies : List α :=
  (List.range NUM_BANDS).foldl
    (fun (frequencies : List α) (i : Nat) =>
      frequencies ++ [(Equalizer.getBandFrequencies : List α).getD i 0])
    []

/-- The AudioProcessor states obtained from `AudioProcessor()` by calls of its public
member functions other than `initialize`. -/
inductive NeverInitialized (M : CMath α) : AudioProcessor α → Prop
  | init : NeverInitialized M (AudioProcessor.new M)
  | setEQBandGain (p : AudioProcessor α) (bandIndex : Int) (gainDB : α) :
      NeverInitialized M p → NeverInitialized M (AudioProcessor.setEQBandGain M p bandIndex gainDB)
  | applyEQPreset (p : AudioProcessor α) (presetName : String) :
      NeverInitialized M p → NeverInitialized M (AudioProcessor.applyEQPreset M p presetName)
  | resetEQ (p : AudioProcessor α) :
      NeverInitialized M p → NeverInitialized M (AudioProcessor.resetEQ M p)
  | setEQEnabled (p : AudioProcessor α) (enabled : Bool) :
      NeverInitialized M p → NeverInitialized M (AudioProcessor.setEQEnabled p enabled)
  | processSeparateChannels (p : AudioProcessor α) (mem : Mem α)
      (leftChannel rightChannel : Nat) (numSamples : Int) :
      NeverInitialized M p →
      NeverInitialized M
        (AudioProcessor.processSeparateChannels p mem leftChannel rightChannel numSamples).1
  | processInterleavedStereo (p q : AudioProcessor α) (mem out : Mem α) (buffer : Nat)
      (numSamples : Int) :
      NeverInitialized M p →
      AudioProcessor.processInterleavedStereo p mem buffer numSamples = some (q, out) →
      NeverInitialized M q

/-! ## system_audio_hook.h / system_audio_hook.cpp (the processing members) -/

/-- The data members of `class SystemAudioHook` that `processAudioBuffer` reads: the
shared Equalizer pointer (`none` when null) and the atomic `enabled` flag. -/
structure SystemAudioHook (α : Type) where
  equalizer : Option (Equalizer α)
  enabled : Bool

/-- One iteration of the stereo loop of `SystemAudioHook::processAudioBuffer`: the
locals `left` and `right` are the cells 0 and 1 of the frame's own storage. -/
def stereoHookFrame (buffer : Nat) (st : Equalizer α × Mem α) (i : Nat) :
    Equalizer α × Mem α :=
  let left := st.2 (buffer + i * 2)
  let right := st.2 (buffer + (i * 2 + 1))
  let r := Equalizer.processStereo st.1 (fun a => if a = 0 then left else right) 0 1 1
  (r.1, Function.update (Function.update st.2 (buffer + i * 2) (r.2 0))
    (buffer + (i * 2 + 1)) (r.2 1))

/-- One iteration of the mono loop of `SystemAudioHook::processAudioBuffer`: the local
`sample` is cell 0 of the frame's own storage and both channel pointers are `&sample`. -/
def monoHookFrame (buffer : Nat) (st : Equalizer α × Mem α) (i : Nat) :
    Equalizer α × Mem α :=
  let sample := st.2 (buffer + i)
  let r := Equalizer.processStereo st.1 (fun _ => sample) 0 0 1
  (r.1, Function.update st.2 (buffer + i) (r.2 0))

/-- The method `SystemAudioHook::processAudioBuffer`. -/
def SystemAudioHook.processAudioBuffer (h : SystemAudioHook α) (mem : Mem α) (buffer : Nat)
    (numFrames : Nat) (channels : Int) : SystemAudioHook α × Mem α :=
  match h.equalizer with
  | none => (h, mem)
  | some eq =>
    if !h.enabled then (h, mem)
    else if channels = 2 then
      let r := (List.range numFrames).foldl (stereoHookFrame buffer) (eq, mem)
      ({ h with equalizer := some r.1 }, r.2)
    else if channels = 1 then
      let r := (List.range numFrames).foldl (monoHookFrame buffer) (eq, mem)
      ({ h with equalizer := some r.1 }, r.2)
    else (h, mem)

/-! ## Reference semantics, written from the specification text

These definitions do not come from the source: they restate the specification, and the
theorems below compare them with the embedded code. -/

/-- Reference cascade: the input of band `b`, that is `F(b-1)(... F1(F0(x)) ...)`, where
`Fj` is `BiquadFilter::process` of filter `j` in the state `fs j` left by the previous
frame. -/
def refBandInput (fs : Fin NUM_BANDS → BiquadFilter α) (x : α) : Nat → α
  | 0 => x
  | b + 1 =>
    if h : b < NUM_BANDS then (BiquadFilter.process (fs ⟨b, h⟩) (refBandInput fs x b)).2
    else refBandInput fs x b

/-- Reference cascade: the unclamped output `F9(F8(... F0(x) ...))` of one frame. -/
def refCascadeOutput (fs : Fin NUM_BANDS → BiquadFilter α) (x : α) : α :=
  refBandInput fs x NUM_BANDS

/-- Reference cascade: the filters after one frame; filter `b` has processed its input. -/
def refCascadeState (fs : Fin NUM_BANDS → BiquadFilter α) (x : α) :
    Fin NUM_BANDS → BiquadFilter α :=
  fun b => (BiquadFilter.process (fs b) (refBandInput fs x b.val)).1

/-- Reference channel: the filters of one channel after the first `t` frames of `input`. -/
def refChannelState (fs : Fin NUM_BANDS → BiquadFilter α) (input : Nat → α) :
    Nat → (Fin NUM_BANDS → BiquadFilter α)
  | 0 => fs
  | t + 1 => refCascadeState (refChannelState fs input t) (input t)

/-- Reference channel: the sample written for frame `t`, the cascade output clamped to
`[-1, 1]`. -/
def refWritten (fs : Fin NUM_BANDS → BiquadFilter α) (input : Nat → α) (t : Nat) : α :=
  max (-1) (min 1 (refCascadeOutput (refChannelState fs input t) (input t)))

/-- The six raw coefficients of a filter design, before normalization. -/
structure RawCoefficients (α : Type) where
  b0 : α
  b1 : α
  b2 : α
  a0 : α
  a1 : α
  a2 : α

/-- Reference coefficients: the Audio-EQ-Cookbook formulas of the specification, with
`A = 10^(gainDB/40)`, `w = 2*pi*f/sampleRate`, `s = sin w`, `c = cos w`,
`alpha = s/(2Q)` and `beta = sqrt(A)/Q`. -/
def cookbook (M : CMath α) (pi : α) (kind : FilterType) (f sampleRate gainDB Q : α) :
    RawCoefficients α :=
  let A := M.pow 10 (gainDB / 40)
  let w := 2 * pi * f / sampleRate
  let s := M.sin w
  let c := M.cos w
  let alpha := s / (2 * Q)
  let beta := M.sqrt A / Q
  match kind with
  | FilterType.PEAKING =>
    { b0 := 1 + alpha * A, b1 := -2 * c, b2 := 1 - alpha * A
      a0 := 1 + alpha / A, a1 := -2 * c, a2 := 1 - alpha / A }
  | FilterType.LOWSHELF =>
    { b0 := A * ((A + 1) - (A - 1) * c + beta * s)
      b1 := 2 * A * ((A - 1) - (A + 1) * c)
      b2 := A * ((A + 1) - (A - 1) * c - beta * s)
      a0 := (A + 1) + (A - 1) * c + beta * s
      a1 := -2 * ((A - 1) + (A + 1) * c)
      a2 := (A + 1) + (A - 1) * c - beta * s }
  | FilterType.HIGHSHELF =>
    { b0 := A * ((A + 1) + (A - 1) * c + beta * s)
      b1 := -2 * A * ((A - 1) + (A + 1) * c)
      b2 := A * ((A + 1) + (A - 1) * c - beta * s)
      a0 := (A + 1) - (A - 1) * c + beta * s
      a1 := 2 * ((A - 1) - (A + 1) * c)
      a2 := (A + 1) - (A - 1) * c - beta * s }

/-- A filter holds the normalized reference coefficients of its own design parameters:
`a0 = 1` and every other coefficient is the cookbook value divided by the raw `a0`. -/
def NormalizedCookbook (M : CMath α) (f : BiquadFilter α) : Prop :=
  f.a0 = 1 ∧
    f.b0 = (cookbook M M_PI f.type f.frequency f.sampleRate f.gainDB f.Q).b0 /
      (cookbook M M_PI f.type f.frequency f.sampleRate f.gainDB f.Q).a0 ∧
    f.b1 = (cookbook M M_PI f.type f.frequency f.sampleRate f.gainDB f.Q).b1 /
      (cookbook M M_PI f.type f.frequency f.sampleRate f.gainDB f.Q).a0 ∧
    f.b2 = (cookbook M M_PI f.type f.frequency f.sampleRate f.gainDB f.Q).b2 /
      (cookbook M M_PI f.type f.frequency f.sampleRate f.gainDB f.Q).a0 ∧
    f.a1 = (cookbook M M_PI f.type f.frequency f.sampleRate f.gainDB f.Q).a1 /
      (cookbook M M_PI f.type f.frequency f.sampleRate f.gainDB f.Q).a0 ∧
    f.a2 = (cookbook M M_PI f.type f.frequency f.sampleRate f.gainDB f.Q).a2 /
      (cookbook M M_PI f.type f.frequency f.sampleRate f.gainDB f.Q).a0

/-! ## The design invariant of the Equalizer -/

/-- A filter of band `i` carries the band design at sample rate `sr`, the gain `g`, and
the normalized coefficients of these parameters. -/
def FilterInvariant (M : CMath α) (sr : α) (i : Fin NUM_BANDS) (g : α)
    (f : BiquadFilter α) : Prop :=
  BandDesign sr i f ∧ f.gainDB = g ∧ NormalizedCookbook M f

/-- The stored gains lie in `[-12, 12]` and both filters of every band carry the band
design with the stored gain. -/
def EqualizerInvariant (M : CMath α) (sr : α) (e : Equalizer α) : Prop :=
  e.sampleRate = sr ∧
    ∀ i : Fin NUM_BANDS,
      (-12 ≤ e.currentGains i ∧ e.currentGains i ≤ 12) ∧
        FilterInvariant M sr i (e.currentGains i) (e.leftFilters i) ∧
        FilterInvariant M sr i (e.currentGains i) (e.rightFilters i)

end Defs

/-! ## Basic facts -/

section Lemmas

variable {α : Type} [LinearOrderedField α]

theorem stdMax_eq_max (a b : α) : stdMax a b = max a b := by
  unfold stdMax
  split_ifs with h
  · exact (max_eq_right h.le).symm
  · exact (max_eq_left (not_lt.mp h)).symm

theorem stdMin_eq_min (a b : α) : stdMin a b = min a b := by
  unfold stdMin
  split_ifs with h
  · exact (min_eq_right h.le).symm
  · exact (min_eq_left (not_lt.mp h)).symm

theorem clamp_of_mem (c x : α) (h1 : -c ≤ x) (h2 : x ≤ c) :
    stdMax (-c) (stdMin c x) = x := by
  rw [stdMax_eq_max, stdMin_eq_min, min_eq_right h2, max_eq_right h1]

theorem clamp_bounds (c x : α) (hc : 0 ≤ c) :
    -c ≤ stdMax (-c) (stdMin c x) ∧ stdMax (-c) (stdMin c x) ≤ c := by
  rw [stdMax_eq_max, stdMin_eq_min]
  refine ⟨le_max_left _ _, max_le ?_ (min_le_left _ _)⟩
  linarith

theorem updateFilter_currentGains (M : CMath α) (e : Equalizer α) (i : Fin NUM_BANDS) :
    (Equalizer.updateFilter M e i).currentGains = e.currentGains := rfl

theorem updateFilter_enabled (M : CMath α) (e : Equalizer α) (i : Fin NUM_BANDS) :
    (Equalizer.updateFilter M e i).enabled = e.enabled := rfl

theorem setBandGain_inRange (M : CMath α) (e : Equalizer α) (i : Int) (g : α)
    (h : ¬ (i < 0 ∨ i ≥ NUM_BANDS)) :
    Equalizer.setBandGain M e i g =
      Equalizer.updateFilter M
        { e with currentGains :=
            Function.update e.currentGains (bandOfInt i h) (stdMax (-12) (stdMin 12 g)) }
        (bandOfInt i h) := by
  unfold Equalizer.setBandGain
  rw [dif_neg h]

theorem setBandGain_outOfRange (M : CMath α) (e : Equalizer α) (i : Int) (g : α)
    (h : i < 0 ∨ i ≥ NUM_BANDS) : Equalizer.setBandGain M e i g = e := by
  unfold Equalizer.setBandGain
  rw [dif_pos h]

theorem getBandGain_inRange (e : Equalizer α) (i : Int) (h : ¬ (i < 0 ∨ i ≥ NUM_BANDS)) :
    Equalizer.getBandGain e i = e.currentGains (bandOfInt i h) := by
  unfold Equalizer.getBandGain
  rw [dif_neg h]

theorem natBand_inRange (i : Fin NUM_BANDS) : ¬ (((i.val : Nat) : Int) < 0 ∨ ((i.val : Nat) : Int) ≥ NUM_BANDS) := by
  have := i.isLt
  omega

theorem bandOfInt_val (i : Fin NUM_BANDS) (h : ¬ (((i.val : Nat) : Int) < 0 ∨ ((i.val : Nat) : Int) ≥ NUM_BANDS)) :
    bandOfInt ((i.val : Nat) : Int) h = i := by
  apply Fin.ext
  simp [bandOfInt]

/-- C1. Gain clamping: for a band index `0 ≤ i ≤ 9` and any gain `g`,
`setBandGain(i, g)` followed by `getBandGain(i)` returns `max(-12, min(12, g))`. -/
theorem setBandGain_getBandGain (M : CMath α) (e : Equalizer α) (i : Int) (g : α)
    (h0 : 0 ≤ i) (h9 : i ≤ 9) :
    Equalizer.getBandGain (Equalizer.setBandGain M e i g) i = max (-12) (min 12 g) := by
  have h : ¬ (i < 0 ∨ i ≥ NUM_BANDS) := by
    simp only [NUM_BANDS]
    omega
  rw [getBandGain_inRange _ i h, setBandGain_inRange M e i g h, updateFilter_currentGains]
  simp only [Function.update_same]
  rw [stdMax_eq_max, stdMin_eq_min]

/-- C9. Out-of-range setter: for a band index `i < 0` or `i ≥ 10`, `setBandGain(i, g)`
returns the Equalizer unchanged, so every `getBandGain(j)` is unchanged. -/
theorem setBandGain_out_of_range_noop (M : CMath α) (e : Equalizer α) (i : Int) (g : α)
    (h : i < 0 ∨ i ≥ 10) :
    Equalizer.setBandGain M e i g = e ∧
      ∀ j : Int, Equalizer.getBandGain (Equalizer.setBandGain M e i g) j =
        Equalizer.getBandGain e j := by
  have he : Equalizer.setBandGain M e i g = e := setBandGain_outOfRange M e i g h
  exact ⟨he, fun j => by rw [he]⟩

theorem lookup_none_of_not_mem {β : Type} (name : String) (l : List (String × β))
    (h : name ∉ l.map Prod.fst) : l.lookup name = none := by
  induction l with
  | nil => rfl
  | cons p rest ih =>
    obtain ⟨k, v⟩ := p
    simp only [List.map_cons, List.mem_cons, not_or] at h
    have hk : (name == k) = false := beq_eq_false_iff_ne.mpr h.1
    simp only [List.lookup, hk]
    exact ih h.2

theorem presets_keys : (PRESETS α).map Prod.fst = presetNames := rfl

theorem lookup_unknown (name : String) (h : name ∉ presetNames) :
    (PRESETS α).lookup name = none :=
  lookup_none_of_not_mem name (PRESETS α) (by rw [presets_keys]; exact h)

/-- C10. Unknown preset: for a name that is not one of the twelve keys of the preset
table, `applyPreset(name)` returns the Equalizer unchanged. -/
theorem applyPreset_unknown_noop (M : CMath α) (e : Equalizer α) (name : String)
    (h : name ∉ presetNames) : Equalizer.applyPreset M e name = e := by
  unfold Equalizer.applyPreset
  rw [lookup_unknown name h]

/-- C4. Bypass transparency: when `isEQEnabled()` is false, `processInterleavedStereo`
and `processSeparateChannels` return with the sample memory and the processor
unchanged. -/
theorem bypass_transparent (p : AudioProcessor α) (mem : Mem α)
    (h : AudioProcessor.isEQEnabled p = false) :
    (∀ (buffer : Nat) (n : Int),
        AudioProcessor.processInterleavedStereo p mem buffer n = some (p, mem)) ∧
      (∀ (leftChannel rightChannel : Nat) (n : Int),
        AudioProcessor.processSeparateChannels p mem leftChannel rightChannel n = (p, mem)) := by
  have h1 : p.equalizer.isEnabled = false := h
  constructor
  · intro buffer n
    unfold AudioProcessor.processInterleavedStereo
    simp [h1]
  · intro l r n
    unfold AudioProcessor.processSeparateChannels
    simp [h1]

theorem setBandGain_nat_currentGains (M : CMath α) (e : Equalizer α) (i : Nat)
    (hi : i < NUM_BANDS) (g : α) :
    (Equalizer.setBandGain M e (i : Int) g).currentGains =
      Function.update e.currentGains ⟨i, hi⟩ (stdMax (-12) (stdMin 12 g)) := by
  have h : ¬ ((i : Int) < 0 ∨ (i : Int) ≥ NUM_BANDS) := natBand_inRange ⟨i, hi⟩
  rw [setBandGain_inRange M e i g h, updateFilter_currentGains]
  have hb : bandOfInt (i : Int) h = ⟨i, hi⟩ := bandOfInt_val ⟨i, hi⟩ h
  rw [hb]

theorem applyGains_currentGains (M : CMath α) (gains : List α) (n : Nat)
    (hn : n ≤ NUM_BANDS) (e : Equalizer α) (j : Fin NUM_BANDS) :
    ((List.range n).foldl
        (fun (e : Equalizer α) (i : Nat) =>
          Equalizer.setBandGain M e (i : Int) (gains.getD i 0)) e).currentGains j =
      if j.val < n then stdMax (-12) (stdMin 12 (gains.getD j.val 0)) else e.currentGains j := by
  induction n with
  | zero => simp
  | succ k ih =>
    have hk : k < NUM_BANDS := hn
    rw [List.range_succ, List.foldl_append]
    simp only [List.foldl_cons, List.foldl_nil]
    rw [setBandGain_nat_currentGains M _ k hk]
    by_cases hjk : j = ⟨k, hk⟩
    · subst hjk
      simp
    · have hne : j.val ≠ k := fun hv => hjk (Fin.ext hv)
      rw [Function.update_noteq hjk, ih (Nat.le_of_lt hk)]
      by_cases hlt : j.val < k
      · have : j.val < k + 1 := Nat.lt_succ_of_lt hlt
        simp [hlt, this]
      · have : ¬ j.val < k + 1 := by omega
        simp [hlt, this]

theorem applyPreset_of_lookup (M : CMath α) (e : Equalizer α) (name : String)
    (gains : List α) (hl : (PRESETS α).lookup name = some gains)
    (hlen : gains.length = NUM_BANDS) (hb : ∀ g ∈ gains, -12 ≤ g ∧ g ≤ 12) :
    (List.range NUM_BANDS).map
        (fun i : Nat => Equalizer.getBandGain (Equalizer.applyPreset M e name) (i : Int)) =
      gains := by
  apply List.ext_getElem
  · simp [hlen]
  · intro i h1 h2
    have hi : i < NUM_BANDS := by simpa using h1
    simp only [List.getElem_map, List.getElem_range]
    rw [getBandGain_inRange _ _ (natBand_inRange ⟨i, hi⟩),
      bandOfInt_val ⟨i, hi⟩ (natBand_inRange ⟨i, hi⟩)]
    unfold Equalizer.applyPreset
    rw [hl]
    simp only [hlen, min_self]
    rw [applyGains_currentGains M gains NUM_BANDS le_rfl e ⟨i, hi⟩]
    have hget : gains.getD i 0 = gains[i] := by
      rw [List.getD_eq_getElem?_getD, List.getElem?_eq_getElem h2]
      rfl
    simp only [hi, if_true, hget]
    have hm := hb gains[i] (List.getElem_mem h2)
    exact clamp_of_mem 12 _ hm.1 hm.2

/-- C2. Preset application: for each of the twelve defined preset names and every
prior Equalizer state, the vector of `getBandGain(0..9)` after `applyPreset(name)`
is the table vector of that name, entry for entry. -/
theorem applyPreset_gains (M : CMath α) (e : Equalizer α) (name : String)
    (h : name ∈ presetNames) :
    (PRESETS α).lookup name =
      some ((List.range NUM_BANDS).map
        (fun i : Nat => Equalizer.getBandGain (Equalizer.applyPreset M e name) (i : Int))) := by
  have key : ∀ gains : List α, (PRESETS α).lookup name = some gains →
      gains.length = NUM_BANDS → (∀ g ∈ gains, -12 ≤ g ∧ g ≤ 12) →
      (PRESETS α).lookup name =
        some ((List.range NUM_BANDS).map
          (fun i : Nat =>
            Equalizer.getBandGain (Equalizer.applyPreset M e name) (i : Int))) := by
    intro gains hl hlen hb
    rw [applyPreset_of_lookup M e name gains hl hlen hb]
    exact hl
  simp only [presetNames, List.mem_cons, List.mem_singleton, List.not_mem_nil, or_false] at h
  rcases h with h | h | h | h | h | h | h | h | h | h | h | h <;> subst h
  all_goals
    refine key _ rfl rfl ?_
    intro g hg
    simp only [List.mem_cons, List.mem_singleton, List.not_mem_nil, or_false] at hg
    rcases hg with h | h | h | h | h | h | h | h | h | h <;> subst h <;> norm_num

/-! ## The frame loop of `processStereo` -/

theorem foldl_invariant {σ ι : Type} (f : σ → ι → σ) (I : σ → Prop)
    (hstep : ∀ s i, I s → I (f s i)) (l : List ι) (s : σ) (h : I s) : I (l.foldl f s) := by
  induction l generalizing s with
  | nil => exact h
  | cons i rest ih => exact ih (f s i) (hstep s i h)

theorem processStereo_enabled (e : Equalizer α) (mem : Mem α) (l r : Nat) (n : Int)
    (he : e.enabled = true) :
    Equalizer.processStereo e mem l r n =
      (List.range n.toNat).foldl (processFrame l r) (e, mem) := by
  unfold Equalizer.processStereo
  simp [he]

theorem processStereo_disabled (e : Equalizer α) (mem : Mem α) (l r : Nat) (n : Int)
    (he : e.enabled = false) : Equalizer.processStereo e mem l r n = (e, mem) := by
  unfold Equalizer.processStereo
  simp [he]

theorem processFrame_enabled (l r : Nat) (st : Equalizer α × Mem α) (i : Nat) :
    (processFrame l r st i).1.enabled = st.1.enabled := rfl

theorem frames_enabled (l r : Nat) (k : Nat) (st : Equalizer α × Mem α) :
    ((List.range k).foldl (processFrame l r) st).1.enabled = st.1.enabled :=
  foldl_invariant (processFrame l r) (fun s => s.1.enabled = st.1.enabled)
    (fun s i hs => (processFrame_enabled l r s i).trans hs) _ st rfl

theorem processStereo_keeps_enabled (e : Equalizer α) (mem : Mem α) (l r : Nat) (n : Int) :
    (Equalizer.processStereo e mem l r n).1.enabled = e.enabled := by
  cases he : e.enabled with
  | false => rw [processStereo_disabled e mem l r n he]; exact he
  | true =>
    rw [processStereo_enabled e mem l r n he, frames_enabled]
    exact he

theorem processFrame_mem (l r : Nat) (st : Equalizer α × Mem α) (i : Nat) :
    ∃ x y : α, (processFrame l r st i).2 =
      Function.update (Function.update st.2 (l + i) (stdMax (-1) (stdMin 1 x))) (r + i)
        (stdMax (-1) (stdMin 1 y)) :=
  ⟨_, _, rfl⟩

theorem frames_bounded (l r : Nat) (k : Nat) (st : Equalizer α × Mem α) (a : Nat)
    (ha : ∃ i, i < k ∧ (a = l + i ∨ a = r + i)) :
    -1 ≤ ((List.range k).foldl (processFrame l r) st).2 a ∧
      ((List.range k).foldl (processFrame l r) st).2 a ≤ 1 := by
  induction k with
  | zero =>
    obtain ⟨i, hi, _⟩ := ha
    exact absurd hi (Nat.not_lt_zero i)
  | succ k ih =>
    rw [List.range_succ, List.foldl_append]
    simp only [List.foldl_cons, List.foldl_nil]
    obtain ⟨x, y, hxy⟩ := processFrame_mem l r ((List.range k).foldl (processFrame l r) st) k
    rw [hxy]
    by_cases h1 : a = r + k
    · rw [h1, Function.update_same]
      exact clamp_bounds 1 y zero_le_one
    · rw [Function.update_noteq h1]
      by_cases h2 : a = l + k
      · rw [h2, Function.update_same]
        exact clamp_bounds 1 x zero_le_one
      · rw [Function.update_noteq h2]
        apply ih
        obtain ⟨i, hi, hor⟩ := ha
        refine ⟨i, ?_, hor⟩
        have hne : i ≠ k := by
          rintro rfl
          rcases hor with h | h
          · exact h2 h
          · exact h1 h
        omega

/-- C3. Output bound: for an enabled Equalizer in any state, any sample count `n` and
any sample memory, after `processStereo(left, right, n)` each of the `n` written
samples of both channels lies in `[-1, 1]`. -/
theorem processStereo_output_bound (e : Equalizer α) (mem : Mem α) (l r : Nat) (n : Int)
    (he : e.enabled = true) (i : Nat) (hi : (i : Int) < n) :
    (-1 ≤ (Equalizer.processStereo e mem l r n).2 (l + i) ∧
        (Equalizer.processStereo e mem l r n).2 (l + i) ≤ 1) ∧
      (-1 ≤ (Equalizer.processStereo e mem l r n).2 (r + i) ∧
        (Equalizer.processStereo e mem l r n).2 (r + i) ≤ 1) := by
  rw [processStereo_enabled e mem l r n he]
  have hk : i < n.toNat := by omega
  exact ⟨frames_bounded l r _ _ _ ⟨i, hk, Or.inl rfl⟩,
    frames_bounded l r _ _ _ ⟨i, hk, Or.inr rfl⟩⟩

theorem processFrame_shift (l r k : Nat) (st : Equalizer α × Mem α) (i : Nat) :
    processFrame l r st (k + i) = processFrame (l + k) (r + k) st i := by
  unfold processFrame
  simp only [Nat.add_assoc]

theorem frames_split (l r k m : Nat) (st : Equalizer α × Mem α) :
    (List.range (k + m)).foldl (processFrame l r) st =
      (List.range m).foldl (processFrame (l + k) (r + k))
        ((List.range k).foldl (processFrame l r) st) := by
  have hf : (fun (s : Equalizer α × Mem α) (i : Nat) => processFrame l r s (k + i)) =
      processFrame (l + k) (r + k) := by
    funext s i
    exact processFrame_shift l r k s i
  rw [List.range_add, List.foldl_append, List.foldl_map, hf]

/-- C5. State continuity: for an enabled Equalizer and `1 ≤ k ≤ N - 1`, one
`processStereo` call over `N` frames gives the same sample memory and the same final
Equalizer state as a call over the first `k` frames followed by a call over the
remaining `N - k` frames (at `left + k`, `right + k`). -/
theorem processStereo_continuity (e : Equalizer α) (mem : Mem α) (l r : Nat) (N k : Int)
    (he : e.enabled = true) (hk1 : 1 ≤ k) (hk2 : k ≤ N - 1) :
    Equalizer.processStereo e mem l r N =
      Equalizer.processStereo (Equalizer.processStereo e mem l r k).1
        (Equalizer.processStereo e mem l r k).2 (l + k.toNat) (r + k.toNat) (N - k) := by
  have he1 : (Equalizer.processStereo e mem l r k).1.enabled = true := by
    rw [processStereo_keeps_enabled]
    exact he
  rw [processStereo_enabled _ _ _ _ _ he1, processStereo_enabled e mem l r N he,
    processStereo_enabled e mem l r k he]
  have hN : N.toNat = k.toNat + (N - k).toNat := by omega
  rw [hN, frames_split]

/-! ## Processing silence with flushed filters -/

theorem clamp_zero (c : α) (hc : 0 ≤ c) : stdMax (-c) (stdMin c 0) = 0 :=
  clamp_of_mem c 0 (by linarith) hc

theorem process_zero (f : BiquadFilter α) (h : ZeroState f) :
    BiquadFilter.process f 0 = (f, 0) := by
  obtain ⟨h1, h2, h3, h4⟩ := h
  cases f
  simp only at h1 h2 h3 h4
  subst h1 h2 h3 h4
  simp [BiquadFilter.process]

theorem bandStep_zero
    (st : (Fin NUM_BANDS → BiquadFilter α) × (Fin NUM_BANDS → BiquadFilter α) × α × α)
    (hl : ∀ b, ZeroState (st.1 b)) (hr : ∀ b, ZeroState (st.2.1 b))
    (h1 : st.2.2.1 = 0) (h2 : st.2.2.2 = 0) (band : Fin NUM_BANDS) :
    bandStep st band = st := by
  obtain ⟨lf, rf, ls, rs⟩ := st
  simp only at hl hr h1 h2
  subst h1 h2
  simp only [bandStep, process_zero _ (hl band), process_zero _ (hr band),
    Function.update_eq_self]

theorem bands_zero (bs : List (Fin NUM_BANDS))
    (st : (Fin NUM_BANDS → BiquadFilter α) × (Fin NUM_BANDS → BiquadFilter α) × α × α)
    (hl : ∀ b, ZeroState (st.1 b)) (hr : ∀ b, ZeroState (st.2.1 b))
    (h1 : st.2.2.1 = 0) (h2 : st.2.2.2 = 0) :
    bs.foldl bandStep st = st := by
  induction bs with
  | nil => rfl
  | cons b rest ih =>
    rw [List.foldl_cons, bandStep_zero st hl hr h1 h2 b]
    exact ih

theorem processFrame_zero (l r : Nat) (st : Equalizer α × Mem α) (i : Nat)
    (hl : ∀ b, ZeroState (st.1.leftFilters b)) (hr : ∀ b, ZeroState (st.1.rightFilters b))
    (h1 : st.2 (l + i) = 0) (h2 : st.2 (r + i) = 0) :
    processFrame l r st i = st := by
  obtain ⟨e, mem⟩ := st
  simp only at hl hr h1 h2
  unfold processFrame
  simp only [h1, h2]
  rw [bands_zero _ (e.leftFilters, e.rightFilters, (0 : α), (0 : α)) hl hr rfl rfl]
  simp only [clamp_zero (1 : α) zero_le_one]
  have e1 : Function.update mem (l + i) 0 = mem := by
    rw [← h1]; exact Function.update_eq_self _ _
  rw [e1]
  have e2 : Function.update mem (r + i) 0 = mem := by
    rw [← h2]; exact Function.update_eq_self _ _
  rw [e2]

theorem frames_zero (l r : Nat) (k : Nat) (st : Equalizer α × Mem α)
    (hl : ∀ b, ZeroState (st.1.leftFilters b)) (hr : ∀ b, ZeroState (st.1.rightFilters b))
    (hz : ∀ i, i < k → st.2 (l + i) = 0 ∧ st.2 (r + i) = 0) :
    (List.range k).foldl (processFrame l r) st = st := by
  induction k with
  | zero => rfl
  | succ k ih =>
    rw [List.range_succ, List.foldl_append, ih (fun i hi => hz i (Nat.lt_succ_of_lt hi))]
    simp only [List.foldl_cons, List.foldl_nil]
    exact processFrame_zero l r st k hl hr (hz k (Nat.lt_succ_self k)).1
      (hz k (Nat.lt_succ_self k)).2

theorem processStereo_zero (e : Equalizer α) (mem : Mem α) (l r : Nat) (n : Int)
    (hl : ∀ b, ZeroState (e.leftFilters b)) (hr : ∀ b, ZeroState (e.rightFilters b))
    (hz : ∀ i : Nat, (i : Int) < n → mem (l + i) = 0 ∧ mem (r + i) = 0) :
    Equalizer.processStereo e mem l r n = (e, mem) := by
  cases he : e.enabled with
  | false => exact processStereo_disabled e mem l r n he
  | true =>
    rw [processStereo_enabled e mem l r n he]
    exact frames_zero l r _ (e, mem) hl hr (fun i hi => hz i (by omega))

/-! ## Parameters and state under the filter operations -/

theorem calc_fields (M : CMath α) (f : BiquadFilter α) :
    (BiquadFilter.calculateCoefficients M f).type = f.type ∧
      (BiquadFilter.calculateCoefficients M f).frequency = f.frequency ∧
      (BiquadFilter.calculateCoefficients M f).sampleRate = f.sampleRate ∧
      (BiquadFilter.calculateCoefficients M f).gainDB = f.gainDB ∧
      (BiquadFilter.calculateCoefficients M f).Q = f.Q ∧
      (BiquadFilter.calculateCoefficients M f).x1 = f.x1 ∧
      (BiquadFilter.calculateCoefficients M f).x2 = f.x2 ∧
      (BiquadFilter.calculateCoefficients M f).y1 = f.y1 ∧
      (BiquadFilter.calculateCoefficients M f).y2 = f.y2 := by
  obtain ⟨a0, a1, a2, b0, b1, b2, x1, x2, y1, y2, t, fr, sr, g, q⟩ := f
  cases t <;> exact ⟨rfl, rfl, rfl, rfl, rfl, rfl, rfl, rfl, rfl⟩

@[simp] theorem calc_type (M : CMath α) (f : BiquadFilter α) :
    (BiquadFilter.calculateCoefficients M f).type = f.type := (calc_fields M f).1

@[simp] theorem calc_frequency (M : CMath α) (f : BiquadFilter α) :
    (BiquadFilter.calculateCoefficients M f).frequency = f.frequency := (calc_fields M f).2.1

@[simp] theorem calc_sampleRate (M : CMath α) (f : BiquadFilter α) :
    (BiquadFilter.calculateCoefficients M f).sampleRate = f.sampleRate :=
  (calc_fields M f).2.2.1

@[simp] theorem calc_gainDB (M : CMath α) (f : BiquadFilter α) :
    (BiquadFilter.calculateCoefficients M f).gainDB = f.gainDB := (calc_fields M f).2.2.2.1

@[simp] theorem calc_Q (M : CMath α) (f : BiquadFilter α) :
    (BiquadFilter.calculateCoefficients M f).Q = f.Q := (calc_fields M f).2.2.2.2.1

@[simp] theorem calc_x1 (M : CMath α) (f : BiquadFilter α) :
    (BiquadFilter.calculateCoefficients M f).x1 = f.x1 := (calc_fields M f).2.2.2.2.2.1

@[simp] theorem calc_x2 (M : CMath α) (f : BiquadFilter α) :
    (BiquadFilter.calculateCoefficients M f).x2 = f.x2 := (calc_fields M f).2.2.2.2.2.2.1

@[simp] theorem calc_y1 (M : CMath α) (f : BiquadFilter α) :
    (BiquadFilter.calculateCoefficients M f).y1 = f.y1 := (calc_fields M f).2.2.2.2.2.2.2.1

@[simp] theorem calc_y2 (M : CMath α) (f : BiquadFilter α) :
    (BiquadFilter.calculateCoefficients M f).y2 = f.y2 := (calc_fields M f).2.2.2.2.2.2.2.2

theorem reset_calc_congr (M : CMath α) (f g : BiquadFilter α) (ht : f.type = g.type)
    (hf : f.frequency = g.frequency) (hs : f.sampleRate = g.sampleRate)
    (hg : f.gainDB = g.gainDB) (hq : f.Q = g.Q) :
    BiquadFilter.reset (BiquadFilter.calculateCoefficients M f) =
      BiquadFilter.reset (BiquadFilter.calculateCoefficients M g) := by
  obtain ⟨a0, a1, a2, b0, b1, b2, x1, x2, y1, y2, t, fr, sr, gn, q⟩ := f
  obtain ⟨a0', a1', a2', b0', b1', b2', x1', x2', y1', y2', t', fr', sr', gn', q'⟩ := g
  simp only at ht hf hs hg hq
  subst ht hf hs hg hq
  cases t <;> rfl

theorem reset_of_zeroState (f : BiquadFilter α) (h : ZeroState f) :
    BiquadFilter.reset f = f := by
  obtain ⟨h1, h2, h3, h4⟩ := h
  cases f
  simp only at h1 h2 h3 h4
  subst h1 h2 h3 h4
  rfl

theorem reset_zeroState (f : BiquadFilter α) : ZeroState (BiquadFilter.reset f) :=
  ⟨rfl, rfl, rfl, rfl⟩

theorem initialFilter_zeroState (M : CMath α) (sr : α) (i : Fin NUM_BANDS) :
    ZeroState (initialFilter M sr i) := by
  simp [ZeroState, initialFilter, BiquadFilter.setGain, BiquadFilter.setQ,
    BiquadFilter.setFrequency, BiquadFilter.setType, BiquadFilter.new]

theorem initialFilter_design (M : CMath α) (sr : α) (i : Fin NUM_BANDS) :
    BandDesign sr i (initialFilter M sr i) := by
  simp [BandDesign, initialFilter, BiquadFilter.setGain, BiquadFilter.setQ,
    BiquadFilter.setFrequency, BiquadFilter.setType, BiquadFilter.new]

theorem initialFilter_gainDB (M : CMath α) (sr : α) (i : Fin NUM_BANDS) :
    (initialFilter M sr i).gainDB = 0 := by
  simp [initialFilter, BiquadFilter.setGain]

theorem setGain_design (M : CMath α) (sr : α) (i : Fin NUM_BANDS) (f : BiquadFilter α)
    (g : α) (h : BandDesign sr i f) : BandDesign sr i (BiquadFilter.setGain M f g) := by
  obtain ⟨h1, h2, h3, h4⟩ := h
  simp [BandDesign, BiquadFilter.setGain, h1, h2, h3, h4]

theorem reset_design (sr : α) (i : Fin NUM_BANDS) (f : BiquadFilter α)
    (h : BandDesign sr i f) : BandDesign sr i (BiquadFilter.reset f) := h

theorem process_design (sr : α) (i : Fin NUM_BANDS) (f : BiquadFilter α) (x : α)
    (h : BandDesign sr i f) : BandDesign sr i (BiquadFilter.process f x).1 := h

theorem reset_setGain_of_design (M : CMath α) (sr : α) (i : Fin NUM_BANDS)
    (f : BiquadFilter α) (h : BandDesign sr i f) :
    BiquadFilter.reset (BiquadFilter.setGain M f 0) = initialFilter M sr i := by
  obtain ⟨h1, h2, h3, h4⟩ := h
  obtain ⟨d1, d2, d3, d4⟩ := initialFilter_design M sr i
  rw [← reset_of_zeroState _ (initialFilter_zeroState M sr i)]
  have hi : initialFilter M sr i =
      BiquadFilter.calculateCoefficients M
        { (BiquadFilter.setQ M
            (BiquadFilter.setFrequency M
              (BiquadFilter.setType M (BiquadFilter.new M) (bandType i))
              ((BAND_FREQUENCIES α).getD i.val 0) sr) 1) with gainDB := 0 } := rfl
  rw [hi]
  unfold BiquadFilter.setGain
  apply reset_calc_congr
  · simp [h1, BiquadFilter.setQ, BiquadFilter.setFrequency, BiquadFilter.setType]
  · simp [h2, BiquadFilter.setQ, BiquadFilter.setFrequency]
  · simp [h3, BiquadFilter.setQ, BiquadFilter.setFrequency]
  · rfl
  · simp [h4, BiquadFilter.setQ]

theorem design_update (sr : α) (lf : Fin NUM_BANDS → BiquadFilter α) (b : Fin NUM_BANDS)
    (f : BiquadFilter α) (h : ∀ i, BandDesign sr i (lf i)) (hf : BandDesign sr b f)
    (i : Fin NUM_BANDS) : BandDesign sr i (Function.update lf b f i) := by
  by_cases hib : i = b
  · subst hib
    rw [Function.update_same]
    exact hf
  · rw [Function.update_noteq hib]
    exact h i

/-! ## The band loops of `reset` and `setEnabled` -/

theorem foldl_pointwise {σ β : Type} (F : σ → Fin NUM_BANDS → σ)
    (proj : σ → Fin NUM_BANDS → β) (R : β → β)
    (hF : ∀ s b, proj (F s b) = Function.update (proj s) b (R (proj s b)))
    (bs : List (Fin NUM_BANDS)) (hnd : bs.Nodup) (s : σ) (i : Fin NUM_BANDS) :
    proj (bs.foldl F s) i = if i ∈ bs then R (proj s i) else proj s i := by
  induction bs generalizing s with
  | nil => simp
  | cons b rest ih =>
    rw [List.foldl_cons, ih (List.nodup_cons.mp hnd).2, hF]
    have hb : b ∉ rest := (List.nodup_cons.mp hnd).1
    by_cases hib : i = b
    · subst hib
      simp [hb]
    · by_cases hir : i ∈ rest
      · simp [hir, hib, Function.update_noteq hib]
      · simp [hir, hib, Function.update_noteq hib]

theorem foldl_pointwise_all {σ β : Type} (F : σ → Fin NUM_BANDS → σ)
    (proj : σ → Fin NUM_BANDS → β) (R : β → β)
    (hF : ∀ s b, proj (F s b) = Function.update (proj s) b (R (proj s b))) (s : σ) :
    proj ((List.finRange NUM_BANDS).foldl F s) = fun i => R (proj s i) := by
  funext i
  rw [foldl_pointwise F proj R hF _ (List.nodup_finRange NUM_BANDS) s i]
  simp

theorem resetFilters_left (e : Equalizer α) (b : Fin NUM_BANDS) :
    (resetFilters e b).leftFilters =
      Function.update e.leftFilters b (BiquadFilter.reset (e.leftFilters b)) := rfl

theorem resetFilters_right (e : Equalizer α) (b : Fin NUM_BANDS) :
    (resetFilters e b).rightFilters =
      Function.update e.rightFilters b (BiquadFilter.reset (e.rightFilters b)) := rfl

theorem setBandGain_sampleRate (M : CMath α) (e : Equalizer α) (i : Int) (g : α) :
    (Equalizer.setBandGain M e i g).sampleRate = e.sampleRate := by
  unfold Equalizer.setBandGain
  split <;> rfl

theorem setBandGain_enabled (M : CMath α) (e : Equalizer α) (i : Int) (g : α) :
    (Equalizer.setBandGain M e i g).enabled = e.enabled := by
  unfold Equalizer.setBandGain
  split <;> rfl

theorem setBandGain_band (M : CMath α) (e : Equalizer α) (b : Fin NUM_BANDS) (g : α) :
    Equalizer.setBandGain M e (b.val : Int) g =
      { leftFilters := Function.update e.leftFilters b
          (BiquadFilter.setGain M (e.leftFilters b) (stdMax (-12) (stdMin 12 g)))
        rightFilters := Function.update e.rightFilters b
          (BiquadFilter.setGain M (e.rightFilters b) (stdMax (-12) (stdMin 12 g)))
        currentGains := Function.update e.currentGains b (stdMax (-12) (stdMin 12 g))
        sampleRate := e.sampleRate
        enabled := e.enabled } := by
  rw [setBandGain_inRange M e _ g (natBand_inRange b), bandOfInt_val b (natBand_inRange b)]
  simp [Equalizer.updateFilter]

theorem resetBand_left (M : CMath α) (e : Equalizer α) (b : Fin NUM_BANDS) :
    (resetBand M e b).leftFilters =
      Function.update e.leftFilters b
        (BiquadFilter.reset (BiquadFilter.setGain M (e.leftFilters b) 0)) := by
  unfold resetBand
  rw [resetFilters_left, setBandGain_band]
  simp [clamp_zero (12 : α) (by norm_num)]

theorem resetBand_right (M : CMath α) (e : Equalizer α) (b : Fin NUM_BANDS) :
    (resetBand M e b).rightFilters =
      Function.update e.rightFilters b
        (BiquadFilter.reset (BiquadFilter.setGain M (e.rightFilters b) 0)) := by
  unfold resetBand
  rw [resetFilters_right, setBandGain_band]
  simp [clamp_zero (12 : α) (by norm_num)]

theorem resetBand_gains (M : CMath α) (e : Equalizer α) (b : Fin NUM_BANDS) :
    (resetBand M e b).currentGains = Function.update e.currentGains b 0 := by
  unfold resetBand
  rw [setBandGain_band]
  simp [resetFilters, clamp_zero (12 : α) (by norm_num)]

theorem resetBand_sampleRate (M : CMath α) (e : Equalizer α) (b : Fin NUM_BANDS) :
    (resetBand M e b).sampleRate = e.sampleRate := by
  unfold resetBand
  exact setBandGain_sampleRate M e _ 0

theorem resetBand_enabled (M : CMath α) (e : Equalizer α) (b : Fin NUM_BANDS) :
    (resetBand M e b).enabled = e.enabled := by
  unfold resetBand
  exact setBandGain_enabled M e _ 0

theorem reset_eq (M : CMath α) (e : Equalizer α) :
    Equalizer.reset M e =
      { leftFilters := fun i => BiquadFilter.reset (BiquadFilter.setGain M (e.leftFilters i) 0)
        rightFilters := fun i =>
          BiquadFilter.reset (BiquadFilter.setGain M (e.rightFilters i) 0)
        currentGains := fun _ => 0
        sampleRate := e.sampleRate
        enabled := e.enabled } := by
  unfold Equalizer.reset
  apply Equalizer.ext
  · exact foldl_pointwise_all (resetBand M) Equalizer.leftFilters
      (fun f => BiquadFilter.reset (BiquadFilter.setGain M f 0)) (resetBand_left M) e
  · exact foldl_pointwise_all (resetBand M) Equalizer.rightFilters
      (fun f => BiquadFilter.reset (BiquadFilter.setGain M f 0)) (resetBand_right M) e
  · exact foldl_pointwise_all (resetBand M) Equalizer.currentGains (fun _ => (0 : α))
      (resetBand_gains M) e
  · exact foldl_invariant (resetBand M) (fun s => s.sampleRate = e.sampleRate)
      (fun s b hs => (resetBand_sampleRate M s b).trans hs) _ e rfl
  · exact foldl_invariant (resetBand M) (fun s => s.enabled = e.enabled)
      (fun s b hs => (resetBand_enabled M s b).trans hs) _ e rfl

theorem setEnabled_false_eq (e : Equalizer α) :
    Equalizer.setEnabled e false =
      { leftFilters := fun i => BiquadFilter.reset (e.leftFilters i)
        rightFilters := fun i => BiquadFilter.reset (e.rightFilters i)
        currentGains := e.currentGains
        sampleRate := e.sampleRate
        enabled := false } := by
  unfold Equalizer.setEnabled
  simp only [Bool.not_false, if_true]
  apply Equalizer.ext
  · exact foldl_pointwise_all resetFilters Equalizer.leftFilters BiquadFilter.reset
      resetFilters_left _
  · exact foldl_pointwise_all resetFilters Equalizer.rightFilters BiquadFilter.reset
      resetFilters_right _
  · exact foldl_invariant resetFilters (fun s => s.currentGains = e.currentGains)
      (fun _ _ hs => hs) _ _ rfl
  · exact foldl_invariant resetFilters (fun s => s.sampleRate = e.sampleRate)
      (fun _ _ hs => hs) _ _ rfl
  · exact foldl_invariant resetFilters (fun s => s.enabled = false)
      (fun _ _ hs => hs) _ _ rfl

theorem setEnabled_true_eq (e : Equalizer α) :
    Equalizer.setEnabled e true = { e with enabled := true } := by
  unfold Equalizer.setEnabled
  simp

/-! ## The band design is kept by every operation -/

theorem int_eq_band (i : Int) (h : ¬ (i < 0 ∨ i ≥ NUM_BANDS)) :
    i = (((bandOfInt i h).val : Nat) : Int) := by
  simp only [bandOfInt]
  omega

theorem new_designed (M : CMath α) (sr : α) : Designed sr (Equalizer.new M sr) :=
  ⟨rfl, fun i => ⟨initialFilter_design M sr i, initialFilter_design M sr i⟩⟩

theorem setBandGain_designed (M : CMath α) (sr : α) (e : Equalizer α) (i : Int) (g : α)
    (h : Designed sr e) : Designed sr (Equalizer.setBandGain M e i g) := by
  by_cases hi : i < 0 ∨ i ≥ NUM_BANDS
  · rw [setBandGain_outOfRange M e i g hi]
    exact h
  · rw [int_eq_band i hi, setBandGain_band]
    refine ⟨h.1, fun j => ⟨?_, ?_⟩⟩
    · exact design_update sr _ _ _ (fun k => (h.2 k).1) (setGain_design M sr _ _ _ (h.2 _).1) j
    · exact design_update sr _ _ _ (fun k => (h.2 k).2) (setGain_design M sr _ _ _ (h.2 _).2) j

theorem applyPreset_designed (M : CMath α) (sr : α) (e : Equalizer α) (name : String)
    (h : Designed sr e) : Designed sr (Equalizer.applyPreset M e name) := by
  unfold Equalizer.applyPreset
  cases (PRESETS α).lookup name with
  | none => exact h
  | some gains =>
    exact foldl_invariant _ (Designed sr)
      (fun s i hs => setBandGain_designed M sr s _ _ hs) _ e h

theorem setEnabled_designed (sr : α) (e : Equalizer α) (en : Bool) (h : Designed sr e) :
    Designed sr (Equalizer.setEnabled e en) := by
  cases en with
  | true =>
    rw [setEnabled_true_eq]
    exact h
  | false =>
    rw [setEnabled_false_eq]
    exact ⟨h.1, fun i => ⟨reset_design sr i _ (h.2 i).1, reset_design sr i _ (h.2 i).2⟩⟩

theorem reset_designed (M : CMath α) (sr : α) (e : Equalizer α) (h : Designed sr e) :
    Designed sr (Equalizer.reset M e) := by
  rw [reset_eq]
  exact ⟨h.1, fun i =>
    ⟨reset_design sr i _ (setGain_design M sr i _ 0 (h.2 i).1),
      reset_design sr i _ (setGain_design M sr i _ 0 (h.2 i).2)⟩⟩

theorem bands_designed (sr : α) (bs : List (Fin NUM_BANDS))
    (st : (Fin NUM_BANDS → BiquadFilter α) × (Fin NUM_BANDS → BiquadFilter α) × α × α)
    (hl : ∀ i, BandDesign sr i (st.1 i)) (hr : ∀ i, BandDesign sr i (st.2.1 i)) :
    (∀ i, BandDesign sr i ((bs.foldl bandStep st).1 i)) ∧
      (∀ i, BandDesign sr i ((bs.foldl bandStep st).2.1 i)) :=
  foldl_invariant bandStep
    (fun s => (∀ i, BandDesign sr i (s.1 i)) ∧ (∀ i, BandDesign sr i (s.2.1 i)))
    (fun _ b hs =>
      ⟨design_update sr _ b _ hs.1 (process_design sr b _ _ (hs.1 b)),
        design_update sr _ b _ hs.2 (process_design sr b _ _ (hs.2 b))⟩)
    bs st ⟨hl, hr⟩

theorem processFrame_designed (sr : α) (l r : Nat) (st : Equalizer α × Mem α) (i : Nat)
    (h : Designed sr st.1) : Designed sr (processFrame l r st i).1 := by
  have hb := bands_designed sr (List.finRange NUM_BANDS)
    (st.1.leftFilters, st.1.rightFilters, st.2 (l + i), st.2 (r + i))
    (fun k => (h.2 k).1) (fun k => (h.2 k).2)
  exact ⟨h.1, fun k => ⟨hb.1 k, hb.2 k⟩⟩

theorem processStereo_designed (sr : α) (e : Equalizer α) (mem : Mem α) (l r : Nat)
    (n : Int) (h : Designed sr e) :
    Designed sr (Equalizer.processStereo e mem l r n).1 := by
  cases he : e.enabled with
  | false =>
    rw [processStereo_disabled e mem l r n he]
    exact h
  | true =>
    rw [processStereo_enabled e mem l r n he]
    exact foldl_invariant (processFrame l r) (fun s => Designed sr s.1)
      (fun s i hs => processFrame_designed sr l r s i hs) _ (e, mem) h

theorem reachable_designed (M : CMath α) (sr : α) (e : Equalizer α)
    (h : Reachable M sr e) : Designed sr e := by
  induction h with
  | init => exact new_designed M sr
  | setBandGain e i g _ ih => exact setBandGain_designed M sr e i g ih
  | applyPreset e name _ ih => exact applyPreset_designed M sr e name ih
  | setEnabled e en _ ih => exact setEnabled_designed sr e en ih
  | reset e _ ih => exact reset_designed M sr e ih
  | processStereo e mem l r n _ ih => exact processStereo_designed sr e mem l r n ih

theorem new_eq (M : CMath α) (sr : α) :
    Equalizer.new M sr =
      { leftFilters := fun i => initialFilter M sr i
        rightFilters := fun i => initialFilter M sr i
        currentGains := fun _ => 0
        sampleRate := sr
        enabled := true } := rfl

/-- C7 (as amended). For every Equalizer state reachable from `Equalizer(sr)`, the state
after `reset()` has the ten gains, both cascades (coefficients, design parameters and
state scalars) and the sample rate of a freshly constructed `Equalizer(sr)`; the
enabled flag is the one the Equalizer had before the call. -/
theorem reset_eq_fresh_keeping_enabled (M : CMath α) (sr : α) (e : Equalizer α)
    (h : Reachable M sr e) :
    Equalizer.reset M e = { Equalizer.new M sr with enabled := e.enabled } := by
  have hd := reachable_designed M sr e h
  rw [reset_eq, new_eq]
  apply Equalizer.ext
  · funext i
    exact reset_setGain_of_design M sr i _ (hd.2 i).1
  · funext i
    exact reset_setGain_of_design M sr i _ (hd.2 i).2
  · rfl
  · exact hd.1
  · rfl

/-- C7 (counterexample). At 48000 Hz, `setEnabled(false)` followed by `reset()` gives a
reachable state whose enabled flag is false, while a freshly constructed Equalizer is
enabled: the state after `reset()` is not the fresh state. -/
theorem reset_ne_fresh :
    Reachable (CMath.mk (fun a b : ℝ => a ^ b) Real.sin Real.cos Real.sqrt) 48000
        (Equalizer.setEnabled
          (Equalizer.new (CMath.mk (fun a b : ℝ => a ^ b) Real.sin Real.cos Real.sqrt) 48000)
          false) ∧
      (Equalizer.reset (CMath.mk (fun a b : ℝ => a ^ b) Real.sin Real.cos Real.sqrt)
          (Equalizer.setEnabled
            (Equalizer.new (CMath.mk (fun a b : ℝ => a ^ b) Real.sin Real.cos Real.sqrt) 48000)
            false)).enabled = false ∧
      (Equalizer.new (CMath.mk (fun a b : ℝ => a ^ b) Real.sin Real.cos Real.sqrt)
          48000).enabled = true ∧
      Equalizer.reset (CMath.mk (fun a b : ℝ => a ^ b) Real.sin Real.cos Real.sqrt)
          (Equalizer.setEnabled
            (Equalizer.new (CMath.mk (fun a b : ℝ => a ^ b) Real.sin Real.cos Real.sqrt) 48000)
            false) ≠
        Equalizer.new (CMath.mk (fun a b : ℝ => a ^ b) Real.sin Real.cos Real.sqrt) 48000 := by
  have h1 : ∀ (M : CMath ℝ) (e : Equalizer ℝ),
      (Equalizer.reset M (Equalizer.setEnabled e false)).enabled = false := by
    intro M e
    rw [reset_eq, setEnabled_false_eq]
  refine ⟨Reachable.setEnabled _ false Reachable.init, h1 _ _, rfl, ?_⟩
  intro hEq
  have h2 := congrArg Equalizer.enabled hEq
  rw [h1] at h2
  exact Bool.false_ne_true h2

/-! ## The interleaved path on silence -/

theorem foldl_invariant_mem {σ ι : Type} (f : σ → ι → σ) (I : σ → Prop) (l : List ι)
    (hstep : ∀ s i, i ∈ l → I s → I (f s i)) (s : σ) (h : I s) : I (l.foldl f s) := by
  induction l generalizing s with
  | nil => exact h
  | cons i rest ih =>
    exact ih (fun s j hj hs => hstep s j (List.mem_cons_of_mem i hj) hs) (f s i)
      (hstep s i (List.mem_cons_self i rest) h)

theorem getD_set_zero (v : List α) (k j : Nat) (x : α) (hx : x = 0)
    (hj : v.getD j 0 = 0) : (v.set k x).getD j 0 = 0 := by
  rw [List.getD_eq_getElem?_getD] at hj ⊢
  rw [List.getElem?_set]
  subst hx
  split_ifs <;> simp [hj]

theorem getD_set_same_zero (v : List α) (k : Nat) : (v.set k 0).getD k 0 = 0 := by
  rw [List.getD_eq_getElem?_getD, List.getElem?_set, if_pos rfl]
  split_ifs <;> rfl

theorem deinterleave_zero (mem : Mem α) (buffer n : Nat)
    (hz : ∀ j, j < 2 * n → mem (buffer + j) = 0) (sized : List α × List α)
    (h1 : sized.1.length = n) (h2 : sized.2.length = n) :
    ∀ j, ((List.range n).foldl
        (fun (s : List α × List α) i =>
          (s.1.set i (mem (buffer + i * 2)), s.2.set i (mem (buffer + (i * 2 + 1)))))
        sized).1.getD j 0 = 0 ∧
      ((List.range n).foldl
        (fun (s : List α × List α) i =>
          (s.1.set i (mem (buffer + i * 2)), s.2.set i (mem (buffer + (i * 2 + 1)))))
        sized).2.getD j 0 = 0 := by
  have key : ∀ k, k ≤ n → ∀ j, (j < k ∨ n ≤ j) →
      ((List.range k).foldl
        (fun (s : List α × List α) i =>
          (s.1.set i (mem (buffer + i * 2)), s.2.set i (mem (buffer + (i * 2 + 1)))))
        sized).1.getD j 0 = 0 ∧
      ((List.range k).foldl
        (fun (s : List α × List α) i =>
          (s.1.set i (mem (buffer + i * 2)), s.2.set i (mem (buffer + (i * 2 + 1)))))
        sized).2.getD j 0 = 0 := by
    intro k
    induction k with
    | zero =>
      intro _ j hj
      have hnj : n ≤ j := by omega
      rw [List.range_zero, List.foldl_nil]
      exact ⟨List.getD_eq_default _ _ (by rw [h1]; exact hnj),
        List.getD_eq_default _ _ (by rw [h2]; exact hnj)⟩
    | succ k ih =>
      intro hk j hj
      rw [List.range_succ, List.foldl_append]
      simp only [List.foldl_cons, List.foldl_nil]
      have m1 : mem (buffer + k * 2) = 0 := hz _ (by omega)
      have m2 : mem (buffer + (k * 2 + 1)) = 0 := hz _ (by omega)
      rw [m1, m2]
      by_cases hjk : j = k
      · subst hjk
        exact ⟨getD_set_same_zero _ _, getD_set_same_zero _ _⟩
      · have hj2 : j < k ∨ n ≤ j := by omega
        have := ih (by omega) j hj2
        exact ⟨getD_set_zero _ _ _ 0 rfl this.1, getD_set_zero _ _ _ 0 rfl this.2⟩
  intro j
  exact key n le_rfl j (by omega)

theorem scratchMem_zero (L R : List α) (hL : ∀ j, L.getD j 0 = 0) (hR : ∀ j, R.getD j 0 = 0) :
    scratchMem L R = fun _ => 0 := by
  funext a
  unfold scratchMem
  split_ifs
  · exact hL a
  · exact hR _

theorem getD_map_const_zero (idx : List Nat) (g : Nat → α) (hg : ∀ a, g a = 0) (i : Nat) :
    (idx.map g).getD i 0 = 0 := by
  rw [List.getD_eq_getElem?_getD, List.getElem?_map]
  cases idx[i]? with
  | none => rfl
  | some a => exact hg a

theorem reinterleave_zero (mem : Mem α) (buffer n : Nat) (L R : List α)
    (hz : ∀ j, j < 2 * n → mem (buffer + j) = 0)
    (hL : ∀ j, L.getD j 0 = 0) (hR : ∀ j, R.getD j 0 = 0) :
    (List.range n).foldl
        (fun (m : Mem α) i =>
          Function.update (Function.update m (buffer + i * 2) (L.getD i 0))
            (buffer + (i * 2 + 1)) (R.getD i 0))
        mem = mem := by
  apply foldl_invariant_mem _ (fun m => m = mem) (List.range n) _ mem rfl
  intro m i hi hm
  have hin : i < n := List.mem_range.mp hi
  subst hm
  rw [hL i, hR i]
  have e1 : Function.update m (buffer + i * 2) 0 = m := by
    rw [← hz (i * 2) (by omega)]
    exact Function.update_eq_self _ _
  rw [e1]
  rw [← hz (i * 2 + 1) (by omega)]
  exact Function.update_eq_self _ _

theorem processInterleavedStereo_zero (p : AudioProcessor α) (mem : Mem α) (buffer : Nat)
    (n : Int) (hn : 0 ≤ n)
    (hl : ∀ b, ZeroState (p.equalizer.leftFilters b))
    (hr : ∀ b, ZeroState (p.equalizer.rightFilters b))
    (hz : ∀ j : Nat, (j : Int) < n → mem (buffer + j) = 0) :
    ∃ q, AudioProcessor.processInterleavedStereo p mem buffer n = some (q, mem) := by
  unfold AudioProcessor.processInterleavedStereo
  by_cases hc : (!p.initialized || !p.equalizer.isEnabled) = true
  · exact ⟨p, by rw [if_pos hc]⟩
  · rw [if_neg hc]
    have hnf : ¬ Int.tdiv n 2 < 0 := by
      have := Int.tdiv_nonneg hn (by norm_num : (0 : Int) ≤ 2)
      omega
    simp only [hnf, if_false]
    have h2n : 2 * (Int.tdiv n 2).toNat ≤ n.toNat := by
      have h1 : Int.tdiv n 2 = n / 2 := Int.tdiv_eq_ediv hn (by norm_num)
      rw [h1]
      omega
    have hz2 : ∀ j, j < 2 * (Int.tdiv n 2).toNat → mem (buffer + j) = 0 :=
      fun j hj => hz j (by omega)
    have hd := deinterleave_zero mem buffer (Int.tdiv n 2).toNat hz2
      (vectorResize p.leftBuffer (Int.tdiv n 2).toNat,
        vectorResize p.rightBuffer (Int.tdiv n 2).toNat)
      (List.takeD_length _ _ _) (List.takeD_length _ _ _)
    have hs := scratchMem_zero _ _ (fun j => (hd j).1) (fun j => (hd j).2)
    rw [hs]
    rw [processStereo_zero p.equalizer (fun _ => (0 : α)) 0 _ _ hl hr (fun _ _ => ⟨rfl, rfl⟩)]
    rw [reinterleave_zero mem buffer _ _ _ hz2
      (fun j => getD_map_const_zero _ _ (fun _ => rfl) j)
      (fun j => getD_map_const_zero _ _ (fun _ => rfl) j)]
    exact ⟨_, rfl⟩

theorem reset_left_zeroState (M : CMath α) (e : Equalizer α) (b : Fin NUM_BANDS) :
    ZeroState ((Equalizer.reset M e).leftFilters b) := by
  rw [reset_eq]
  exact reset_zeroState _

theorem reset_right_zeroState (M : CMath α) (e : Equalizer α) (b : Fin NUM_BANDS) :
    ZeroState ((Equalizer.reset M e).rightFilters b) := by
  rw [reset_eq]
  exact reset_zeroState _

theorem reset_getBandGain (M : CMath α) (e : Equalizer α) (i : Int) :
    Equalizer.getBandGain (Equalizer.reset M e) i = 0 := by
  unfold Equalizer.getBandGain
  split
  · rfl
  · rw [reset_eq]

/-- C6. Reset flushes gains and state: after `resetEQ`, whatever the gains and filter
history were, every `getEQBandGain(i)` returns 0, and processing a buffer of `n ≥ 0`
zero samples - through `processSeparateChannels`, through `processInterleavedStereo`
or directly through `Equalizer::processStereo` - returns, with every sample of the
buffer equal to 0. -/
theorem resetEQ_flushes (M : CMath α) (p : AudioProcessor α) (mem : Mem α)
    (l r buffer : Nat) (n : Int) (hn : 0 ≤ n)
    (hsep : ∀ j : Nat, (j : Int) < n → mem (l + j) = 0 ∧ mem (r + j) = 0)
    (hbuf : ∀ j : Nat, (j : Int) < n → mem (buffer + j) = 0) :
    (∀ i : Int, AudioProcessor.getEQBandGain (AudioProcessor.resetEQ M p) i = 0) ∧
      (∀ j : Nat, (j : Int) < n →
        (AudioProcessor.processSeparateChannels (AudioProcessor.resetEQ M p) mem l r n).2
            (l + j) = 0 ∧
          (AudioProcessor.processSeparateChannels (AudioProcessor.resetEQ M p) mem l r n).2
            (r + j) = 0) ∧
      (∃ q out, AudioProcessor.processInterleavedStereo (AudioProcessor.resetEQ M p) mem
          buffer n = some (q, out) ∧ ∀ j : Nat, (j : Int) < n → out (buffer + j) = 0) ∧
      (∀ j : Nat, (j : Int) < n →
        (Equalizer.processStereo (Equalizer.reset M p.equalizer) mem l r n).2 (l + j) = 0 ∧
          (Equalizer.processStereo (Equalizer.reset M p.equalizer) mem l r n).2 (r + j) = 0) := by
  have hz := processStereo_zero (Equalizer.reset M p.equalizer) mem l r n
    (reset_left_zeroState M p.equalizer) (reset_right_zeroState M p.equalizer) hsep
  refine ⟨fun i => reset_getBandGain M p.equalizer i, ?_, ?_, ?_⟩
  · intro j hj
    have hsame : (AudioProcessor.processSeparateChannels (AudioProcessor.resetEQ M p) mem
        l r n).2 = mem := by
      unfold AudioProcessor.processSeparateChannels
      split
      · rfl
      · exact congrArg Prod.snd hz
    rw [hsame]
    exact hsep j hj
  · obtain ⟨q, hq⟩ := processInterleavedStereo_zero (AudioProcessor.resetEQ M p) mem buffer n
      hn (reset_left_zeroState M p.equalizer) (reset_right_zeroState M p.equalizer) hbuf
    exact ⟨q, mem, hq, hbuf⟩
  · intro j hj
    rw [hz]
    exact hsep j hj

/-! ## The flat cascade -/

theorem calc_passThrough (M : CMath α) (hpow : M.pow 10 0 = 1) (hsqrt : M.sqrt 1 = 1)
    (hsin : ∀ x, -1 ≤ M.sin x) (f : BiquadFilter α) (hg : f.gainDB = 0) (hq : f.Q = 1)
    (hx1 : f.x1 = f.y1) (hx2 : f.x2 = f.y2) :
    PassThrough (BiquadFilter.calculateCoefficients M f) := by
  obtain ⟨a0, a1, a2, b0, b1, b2, x1, x2, y1, y2, t, fr, sr, g, q⟩ := f
  simp only at hg hq hx1 hx2
  subst hg hq hx1 hx2
  have hs := hsin (2 * M_PI * fr / sr)
  have h1 : (1 : α) + M.sin (2 * M_PI * fr / sr) / 2 ≠ 0 := by
    have : (0 : α) < 1 + M.sin (2 * M_PI * fr / sr) / 2 := by linarith
    exact ne_of_gt this
  have h2 : (2 : α) + M.sin (2 * M_PI * fr / sr) ≠ 0 := by
    have : (0 : α) < 2 + M.sin (2 * M_PI * fr / sr) := by linarith
    exact ne_of_gt this
  cases t
  · refine ⟨?_, ?_, ?_, rfl, rfl⟩
    · simp only [BiquadFilter.calculateCoefficients, zero_div, hpow, hsqrt]
      norm_num
      exact div_self h2
    · simp only [BiquadFilter.calculateCoefficients, zero_div, hpow, hsqrt]
      norm_num
    · simp only [BiquadFilter.calculateCoefficients, zero_div, hpow, hsqrt]
      norm_num
  · refine ⟨?_, ?_, ?_, rfl, rfl⟩
    · simp only [BiquadFilter.calculateCoefficients, zero_div, hpow, hsqrt]
      norm_num
      exact div_self h2
    · simp only [BiquadFilter.calculateCoefficients, zero_div, hpow, hsqrt]
      norm_num
    · simp only [BiquadFilter.calculateCoefficients, zero_div, hpow, hsqrt]
      norm_num
  · refine ⟨?_, ?_, ?_, rfl, rfl⟩
    · simp only [BiquadFilter.calculateCoefficients, zero_div, hpow, hsqrt]
      norm_num
      exact div_self h1
    · simp only [BiquadFilter.calculateCoefficients, zero_div, hpow, hsqrt]
    · simp only [BiquadFilter.calculateCoefficients, zero_div, hpow, hsqrt]
      norm_num

theorem initialFilter_passThrough (M : CMath α) (hpow : M.pow 10 0 = 1)
    (hsqrt : M.sqrt 1 = 1) (hsin : ∀ x, -1 ≤ M.sin x) (sr : α) (i : Fin NUM_BANDS) :
    PassThrough (initialFilter M sr i) := by
  unfold initialFilter BiquadFilter.setGain
  apply calc_passThrough M hpow hsqrt hsin
  · rfl
  · simp [BiquadFilter.setQ]
  · simp [BiquadFilter.setQ, BiquadFilter.setFrequency, BiquadFilter.setType, BiquadFilter.new]
  · simp [BiquadFilter.setQ, BiquadFilter.setFrequency, BiquadFilter.setType, BiquadFilter.new]

theorem process_passThrough (f : BiquadFilter α) (x : α) (h : PassThrough f) :
    (BiquadFilter.process f x).2 = x ∧ PassThrough (BiquadFilter.process f x).1 := by
  obtain ⟨h0, h1, h2, h3, h4⟩ := h
  have hout : f.b0 * x + f.b1 * f.x1 + f.b2 * f.x2 - f.a1 * f.y1 - f.a2 * f.y2 = x := by
    rw [h0, h1, h2, h3, h4]
    ring
  refine ⟨hout, h0, h1, h2, ?_, h3⟩
  exact hout.symm

theorem bandStep_pass
    (st : (Fin NUM_BANDS → BiquadFilter α) × (Fin NUM_BANDS → BiquadFilter α) × α × α)
    (b : Fin NUM_BANDS) (hl : ∀ i, PassThrough (st.1 i)) (hr : ∀ i, PassThrough (st.2.1 i)) :
    (∀ i, PassThrough ((bandStep st b).1 i)) ∧ (∀ i, PassThrough ((bandStep st b).2.1 i)) ∧
      (bandStep st b).2.2 = st.2.2 := by
  refine ⟨fun i => ?_, fun i => ?_, ?_⟩
  · show PassThrough (Function.update st.1 b (BiquadFilter.process (st.1 b) st.2.2.1).1 i)
    by_cases hib : i = b
    · subst hib
      rw [Function.update_same]
      exact (process_passThrough _ _ (hl i)).2
    · rw [Function.update_noteq hib]
      exact hl i
  · show PassThrough (Function.update st.2.1 b (BiquadFilter.process (st.2.1 b) st.2.2.2).1 i)
    by_cases hib : i = b
    · subst hib
      rw [Function.update_same]
      exact (process_passThrough _ _ (hr i)).2
    · rw [Function.update_noteq hib]
      exact hr i
  · show ((BiquadFilter.process (st.1 b) st.2.2.1).2, (BiquadFilter.process (st.2.1 b) st.2.2.2).2)
      = st.2.2
    rw [(process_passThrough _ _ (hl b)).1, (process_passThrough _ _ (hr b)).1]

theorem bands_pass (bs : List (Fin NUM_BANDS))
    (st : (Fin NUM_BANDS → BiquadFilter α) × (Fin NUM_BANDS → BiquadFilter α) × α × α)
    (hl : ∀ i, PassThrough (st.1 i)) (hr : ∀ i, PassThrough (st.2.1 i)) :
    (∀ i, PassThrough ((bs.foldl bandStep st).1 i)) ∧
      (∀ i, PassThrough ((bs.foldl bandStep st).2.1 i)) ∧
      (bs.foldl bandStep st).2.2 = st.2.2 :=
  foldl_invariant bandStep
    (fun s => (∀ i, PassThrough (s.1 i)) ∧ (∀ i, PassThrough (s.2.1 i)) ∧ s.2.2 = st.2.2)
    (fun s b hs =>
      ⟨(bandStep_pass s b hs.1 hs.2.1).1, (bandStep_pass s b hs.1 hs.2.1).2.1,
        (bandStep_pass s b hs.1 hs.2.1).2.2.trans hs.2.2⟩)
    bs st ⟨hl, hr, rfl⟩

theorem processFrame_pass (l r : Nat) (st : Equalizer α × Mem α) (i : Nat)
    (hl : ∀ b, PassThrough (st.1.leftFilters b)) (hr : ∀ b, PassThrough (st.1.rightFilters b)) :
    (∀ b, PassThrough ((processFrame l r st i).1.leftFilters b)) ∧
      (∀ b, PassThrough ((processFrame l r st i).1.rightFilters b)) ∧
      (processFrame l r st i).2 =
        Function.update
          (Function.update st.2 (l + i) (stdMax (-1) (stdMin 1 (st.2 (l + i)))))
          (r + i) (stdMax (-1) (stdMin 1 (st.2 (r + i)))) := by
  have hb := bands_pass (List.finRange NUM_BANDS)
    (st.1.leftFilters, st.1.rightFilters, st.2 (l + i), st.2 (r + i)) hl hr
  refine ⟨hb.1, hb.2.1, ?_⟩
  have h1 := congrArg Prod.fst hb.2.2
  have h2 := congrArg Prod.snd hb.2.2
  simp only at h1 h2
  unfold processFrame
  simp only [h1, h2]

theorem clamp_idem (c x : α) (hc : 0 ≤ c) :
    stdMax (-c) (stdMin c (stdMax (-c) (stdMin c x))) = stdMax (-c) (stdMin c x) :=
  clamp_of_mem c _ (clamp_bounds c x hc).1 (clamp_bounds c x hc).2

theorem frames_pass (l r : Nat) (mem0 : Mem α) (e : Equalizer α)
    (hl : ∀ b, PassThrough (e.leftFilters b)) (hr : ∀ b, PassThrough (e.rightFilters b))
    (k : Nat) :
    (∀ b, PassThrough (((List.range k).foldl (processFrame l r) (e, mem0)).1.leftFilters b)) ∧
      (∀ b,
        PassThrough (((List.range k).foldl (processFrame l r) (e, mem0)).1.rightFilters b)) ∧
      ∀ a,
        ((∃ i, i < k ∧ (a = l + i ∨ a = r + i)) →
          ((List.range k).foldl (processFrame l r) (e, mem0)).2 a =
            stdMax (-1) (stdMin 1 (mem0 a))) ∧
        ((¬ ∃ i, i < k ∧ (a = l + i ∨ a = r + i)) →
          ((List.range k).foldl (processFrame l r) (e, mem0)).2 a = mem0 a) := by
  induction k with
  | zero =>
    refine ⟨hl, hr, fun a => ⟨?_, fun _ => rfl⟩⟩
    rintro ⟨i, hi, _⟩
    exact absurd hi (Nat.not_lt_zero i)
  | succ k ih =>
    rw [List.range_succ, List.foldl_append]
    simp only [List.foldl_cons, List.foldl_nil]
    obtain ⟨ihl, ihr, ihm⟩ := ih
    obtain ⟨pl, pr, pm⟩ :=
      processFrame_pass l r ((List.range k).foldl (processFrame l r) (e, mem0)) k ihl ihr
    refine ⟨pl, pr, fun a => ?_⟩
    have hval : ∀ c, stdMax (-1) (stdMin 1 (((List.range k).foldl (processFrame l r)
        (e, mem0)).2 c)) = stdMax (-1) (stdMin 1 (mem0 c)) := by
      intro c
      by_cases hw : ∃ i, i < k ∧ (c = l + i ∨ c = r + i)
      · rw [(ihm c).1 hw]
        exact clamp_idem 1 _ zero_le_one
      · rw [(ihm c).2 hw]
    rw [pm]
    by_cases h1 : a = r + k
    · rw [h1, Function.update_same, hval]
      exact ⟨fun _ => rfl, fun hno => absurd ⟨k, Nat.lt_succ_self k, Or.inr rfl⟩ hno⟩
    · rw [Function.update_noteq h1]
      by_cases h2 : a = l + k
      · rw [h2, Function.update_same, hval]
        exact ⟨fun _ => rfl, fun hno => absurd ⟨k, Nat.lt_succ_self k, Or.inl rfl⟩ hno⟩
      · rw [Function.update_noteq h2]
        constructor
        · rintro ⟨i, hi, hor⟩
          apply (ihm a).1
          refine ⟨i, ?_, hor⟩
          have hne : i ≠ k := by
            rintro rfl
            rcases hor with h | h
            · exact h2 h
            · exact h1 h
          omega
        · intro hno
          apply (ihm a).2
          rintro ⟨i, hi, hor⟩
          exact hno ⟨i, Nat.lt_succ_of_lt hi, hor⟩

theorem calc_calc_gain (M : CMath α) (f : BiquadFilter α) (hg : f.gainDB = 0) :
    BiquadFilter.calculateCoefficients M
        { BiquadFilter.calculateCoefficients M f with gainDB := 0 } =
      BiquadFilter.calculateCoefficients M f := by
  obtain ⟨a0, a1, a2, b0, b1, b2, x1, x2, y1, y2, t, fr, sr, g, q⟩ := f
  simp only at hg
  subst hg
  cases t <;> rfl

theorem setGain_initialFilter (M : CMath α) (sr : α) (i : Fin NUM_BANDS) :
    BiquadFilter.setGain M (initialFilter M sr i) 0 = initialFilter M sr i := by
  unfold initialFilter
  exact calc_calc_gain M _ rfl

theorem setBandGain_new_zero (M : CMath α) (sr : α) (b : Fin NUM_BANDS) :
    Equalizer.setBandGain M (Equalizer.new M sr) (b.val : Int) 0 = Equalizer.new M sr := by
  rw [setBandGain_band, clamp_zero (12 : α) (by norm_num), new_eq]
  apply Equalizer.ext
  · simp only [setGain_initialFilter]
    exact Function.update_eq_self b _
  · simp only [setGain_initialFilter]
    exact Function.update_eq_self b _
  · exact Function.update_eq_self b _
  · rfl
  · rfl

theorem applyPreset_flat_new (M : CMath α) (sr : α) :
    Equalizer.applyPreset M (Equalizer.new M sr) "flat" = Equalizer.new M sr := by
  unfold Equalizer.applyPreset
  have hl : (PRESETS α).lookup "flat" = some [0, 0, 0, 0, 0, 0, 0, 0, 0, 0] := rfl
  rw [hl]
  apply foldl_invariant_mem _ (fun s => s = Equalizer.new M sr) _ _ _ rfl
  intro s i hi hs
  subst hs
  have hi10 : i < NUM_BANDS := by
    have := List.mem_range.mp hi
    simpa using this
  have hg : ([0, 0, 0, 0, 0, 0, 0, 0, 0, 0] : List α).getD i 0 = 0 := by
    rw [List.getD_eq_getElem?_getD]
    have : i < 10 := hi10
    interval_cases i <;> rfl
  rw [hg]
  exact setBandGain_new_zero M sr ⟨i, hi10⟩

/-- C8. Flat is identity in gain: for an Equalizer freshly constructed at a positive
sample rate, optionally followed by `applyPreset("flat")` (which leaves it unchanged),
`processStereo` writes back `clamp(x, -1, 1)` for every input sample `x` of either
channel; when all `n` input samples lie in `[-1, 1]` the sample memory is returned
unchanged, so every function of it (such as the RMS) has the same value on the output
as on the input. The C library is assumed to satisfy `pow(10, 0) = 1`, `sqrt(1) = 1`
and `sin(x) ≥ -1`. -/
theorem flat_is_identity (M : CMath α) (hpow : M.pow 10 0 = 1) (hsqrt : M.sqrt 1 = 1)
    (hsin : ∀ x, -1 ≤ M.sin x) (sr : α) (hsr : 0 < sr) (e : Equalizer α)
    (he : e = Equalizer.new M sr ∨
      e = Equalizer.applyPreset M (Equalizer.new M sr) "flat")
    (mem : Mem α) (l r : Nat) (n : Int) :
    Equalizer.applyPreset M (Equalizer.new M sr) "flat" = Equalizer.new M sr ∧
      (∀ i : Nat, (i : Int) < n →
        (Equalizer.processStereo e mem l r n).2 (l + i) =
            stdMax (-1) (stdMin 1 (mem (l + i))) ∧
          (Equalizer.processStereo e mem l r n).2 (r + i) =
            stdMax (-1) (stdMin 1 (mem (r + i)))) ∧
      ((∀ i : Nat, (i : Int) < n →
          (-1 ≤ mem (l + i) ∧ mem (l + i) ≤ 1) ∧ (-1 ≤ mem (r + i) ∧ mem (r + i) ≤ 1)) →
        (Equalizer.processStereo e mem l r n).2 = mem ∧
          ∀ rms : Mem α → α, rms (Equalizer.processStereo e mem l r n).2 = rms mem) := by
  have _ := hsr
  have hflat := applyPreset_flat_new M sr
  have hnew : e = Equalizer.new M sr := by
    rcases he with h | h
    · exact h
    · rw [h, hflat]
  subst hnew
  have hen : (Equalizer.new M sr).enabled = true := rfl
  have hp := frames_pass l r mem (Equalizer.new M sr)
    (fun b => initialFilter_passThrough M hpow hsqrt hsin sr b)
    (fun b => initialFilter_passThrough M hpow hsqrt hsin sr b) n.toNat
  rw [processStereo_enabled _ mem l r n hen]
  refine ⟨hflat, fun i hi => ?_, fun hin => ?_⟩
  · have hk : i < n.toNat := by omega
    exact ⟨(hp.2.2 (l + i)).1 ⟨i, hk, Or.inl rfl⟩, (hp.2.2 (r + i)).1 ⟨i, hk, Or.inr rfl⟩⟩
  · have hsame : ((List.range n.toNat).foldl (processFrame l r) (Equalizer.new M sr, mem)).2 =
        mem := by
      funext a
      by_cases hw : ∃ i, i < n.toNat ∧ (a = l + i ∨ a = r + i)
      · rw [(hp.2.2 a).1 hw]
        obtain ⟨i, hi, hor⟩ := hw
        have hb := hin i (by omega)
        rcases hor with h | h
        · rw [h]
          exact clamp_of_mem 1 _ hb.1.1 hb.1.2
        · rw [h]
          exact clamp_of_mem 1 _ hb.2.1 hb.2.2
      · exact (hp.2.2 a).2 hw
    exact ⟨hsame, fun rms => by rw [hsame]⟩

/-! ## Instances at concrete inputs -/

/-- C1 (instance). On a fresh Equalizer at 48000 Hz, `setBandGain(3, 25.0)` then
`getBandGain(3)` gives 12, and a following `setBandGain(3, -50.0)` gives -12. -/
theorem setBandGain_getBandGain_witness :
    Equalizer.getBandGain (Equalizer.setBandGain (CMath.mk (fun a b : ℝ => a ^ b) Real.sin Real.cos Real.sqrt) (Equalizer.new (CMath.mk (fun a b : ℝ => a ^ b) Real.sin Real.cos Real.sqrt) 48000) 3 25) 3 = 12 ∧
      Equalizer.getBandGain
        (Equalizer.setBandGain (CMath.mk (fun a b : ℝ => a ^ b) Real.sin Real.cos Real.sqrt) (Equalizer.setBandGain (CMath.mk (fun a b : ℝ => a ^ b) Real.sin Real.cos Real.sqrt) (Equalizer.new (CMath.mk (fun a b : ℝ => a ^ b) Real.sin Real.cos Real.sqrt) 48000) 3 25) 3 (-50)) 3 = -12 :=
  ⟨(setBandGain_getBandGain (CMath.mk (fun a b : ℝ => a ^ b) Real.sin Real.cos Real.sqrt) (Equalizer.new (CMath.mk (fun a b : ℝ => a ^ b) Real.sin Real.cos Real.sqrt) 48000) 3 25 (by norm_num) (by norm_num)).trans (by norm_num),
    (setBandGain_getBandGain (CMath.mk (fun a b : ℝ => a ^ b) Real.sin Real.cos Real.sqrt) (Equalizer.setBandGain (CMath.mk (fun a b : ℝ => a ^ b) Real.sin Real.cos Real.sqrt) (Equalizer.new (CMath.mk (fun a b : ℝ => a ^ b) Real.sin Real.cos Real.sqrt) 48000) 3 25) 3 (-50)
      (by norm_num) (by norm_num)).trans (by norm_num)⟩

/-- C2 (instance). On a fresh Equalizer at 48000 Hz, `applyPreset("bass_boost")` leaves
the band gains `[8, 6, 4, 2, 0, 0, 0, 0, 0, 0]`. -/
theorem applyPreset_gains_witness :
    "bass_boost" ∈ presetNames ∧
      (List.range NUM_BANDS).map
          (fun i : Nat =>
            Equalizer.getBandGain (Equalizer.applyPreset (CMath.mk (fun a b : ℝ => a ^ b) Real.sin Real.cos Real.sqrt) (Equalizer.new (CMath.mk (fun a b : ℝ => a ^ b) Real.sin Real.cos Real.sqrt) 48000) "bass_boost") (i : Int)) =
        [8, 6, 4, 2, 0, 0, 0, 0, 0, 0] :=
  ⟨by decide,
    Option.some.inj ((applyPreset_gains (CMath.mk (fun a b : ℝ => a ^ b) Real.sin Real.cos Real.sqrt) (Equalizer.new (CMath.mk (fun a b : ℝ => a ^ b) Real.sin Real.cos Real.sqrt) 48000) "bass_boost" (by decide)).symm.trans rfl)⟩

/-- C3 (instance). Four frames of the constant sample 5 on a fresh Equalizer: frame 2 of
either channel ends in `[-1, 1]`. -/
theorem processStereo_output_bound_witness :
    (-1 ≤ (Equalizer.processStereo (Equalizer.new (CMath.mk (fun a b : ℝ => a ^ b) Real.sin Real.cos Real.sqrt) 48000) (fun _ => 5) 0 4 4).2 (0 + 2) ∧
        (Equalizer.processStereo (Equalizer.new (CMath.mk (fun a b : ℝ => a ^ b) Real.sin Real.cos Real.sqrt) 48000) (fun _ => 5) 0 4 4).2 (0 + 2) ≤ 1) ∧
      (-1 ≤ (Equalizer.processStereo (Equalizer.new (CMath.mk (fun a b : ℝ => a ^ b) Real.sin Real.cos Real.sqrt) 48000) (fun _ => 5) 0 4 4).2 (4 + 2) ∧
        (Equalizer.processStereo (Equalizer.new (CMath.mk (fun a b : ℝ => a ^ b) Real.sin Real.cos Real.sqrt) 48000) (fun _ => 5) 0 4 4).2 (4 + 2) ≤ 1) :=
  processStereo_output_bound (Equalizer.new (CMath.mk (fun a b : ℝ => a ^ b) Real.sin Real.cos Real.sqrt) 48000) (fun _ => 5) 0 4 4 rfl 2 (by norm_num)

/-- C4 (instance). An initialized processor after `setEQEnabled(false)` returns from
`processInterleavedStereo(buf, 4)` with processor and samples unchanged. -/
theorem bypass_transparent_witness :
    AudioProcessor.isEQEnabled (AudioProcessor.setEQEnabled ( AudioProcessor.initialize (CMath.mk (fun a b : ℝ => a ^ b) Real.sin Real.cos Real.sqrt) (AudioProcessor.new (CMath.mk (fun a b : ℝ => a ^ b) Real.sin Real.cos Real.sqrt)) 48000) false) = false ∧
      AudioProcessor.processInterleavedStereo (AudioProcessor.setEQEnabled ( AudioProcessor.initialize (CMath.mk (fun a b : ℝ => a ^ b) Real.sin Real.cos Real.sqrt) (AudioProcessor.new (CMath.mk (fun a b : ℝ => a ^ b) Real.sin Real.cos Real.sqrt)) 48000) false)
          (fun a => if a = 0 then 1 / 2 else -1 / 4) 0 4 =
        some (AudioProcessor.setEQEnabled ( AudioProcessor.initialize (CMath.mk (fun a b : ℝ => a ^ b) Real.sin Real.cos Real.sqrt) (AudioProcessor.new (CMath.mk (fun a b : ℝ => a ^ b) Real.sin Real.cos Real.sqrt)) 48000) false, fun a => if a = 0 then 1 / 2 else -1 / 4) :=
  ⟨congrArg Equalizer.enabled (setEnabled_false_eq _),
    (bypass_transparent (AudioProcessor.setEQEnabled ( AudioProcessor.initialize (CMath.mk (fun a b : ℝ => a ^ b) Real.sin Real.cos Real.sqrt) (AudioProcessor.new (CMath.mk (fun a b : ℝ => a ^ b) Real.sin Real.cos Real.sqrt)) 48000) false)
      (fun a => if a = 0 then 1 / 2 else -1 / 4)
      (congrArg Equalizer.enabled (setEnabled_false_eq _))).1 0 4⟩

/-- C5 (instance). 1024 frames in one call against two calls of 512 frames. -/
theorem processStereo_continuity_witness :
    Equalizer.processStereo (Equalizer.new (CMath.mk (fun a b : ℝ => a ^ b) Real.sin Real.cos Real.sqrt) 48000) (fun a => if a = 0 then 1 / 2 else -1 / 4) 0 1024 1024 =
      Equalizer.processStereo
        (Equalizer.processStereo (Equalizer.new (CMath.mk (fun a b : ℝ => a ^ b) Real.sin Real.cos Real.sqrt) 48000) (fun a => if a = 0 then 1 / 2 else -1 / 4) 0 1024 512).1
        (Equalizer.processStereo (Equalizer.new (CMath.mk (fun a b : ℝ => a ^ b) Real.sin Real.cos Real.sqrt) 48000) (fun a => if a = 0 then 1 / 2 else -1 / 4) 0 1024 512).2
        (0 + (512 : Int).toNat) (1024 + (512 : Int).toNat) (1024 - 512) :=
  processStereo_continuity (Equalizer.new (CMath.mk (fun a b : ℝ => a ^ b) Real.sin Real.cos Real.sqrt) 48000) (fun a => if a = 0 then 1 / 2 else -1 / 4) 0 1024 1024 512 rfl
    (by norm_num) (by norm_num)

/-- C6 (instance). After `applyEQPreset("treble_boost")` and `resetEQ`, band 9 reads 0 and
frame 7 of a 1024-frame zero buffer is 0 after `processSeparateChannels`. -/
theorem resetEQ_flushes_witness :
    AudioProcessor.getEQBandGain
        (AudioProcessor.resetEQ (CMath.mk (fun a b : ℝ => a ^ b) Real.sin Real.cos Real.sqrt) (AudioProcessor.applyEQPreset (CMath.mk (fun a b : ℝ => a ^ b) Real.sin Real.cos Real.sqrt) ( AudioProcessor.initialize (CMath.mk (fun a b : ℝ => a ^ b) Real.sin Real.cos Real.sqrt) (AudioProcessor.new (CMath.mk (fun a b : ℝ => a ^ b) Real.sin Real.cos Real.sqrt)) 48000) "treble_boost")) 9 = 0 ∧
      (AudioProcessor.processSeparateChannels
        (AudioProcessor.resetEQ (CMath.mk (fun a b : ℝ => a ^ b) Real.sin Real.cos Real.sqrt) (AudioProcessor.applyEQPreset (CMath.mk (fun a b : ℝ => a ^ b) Real.sin Real.cos Real.sqrt) ( AudioProcessor.initialize (CMath.mk (fun a b : ℝ => a ^ b) Real.sin Real.cos Real.sqrt) (AudioProcessor.new (CMath.mk (fun a b : ℝ => a ^ b) Real.sin Real.cos Real.sqrt)) 48000) "treble_boost"))
        (fun _ => 0) 0 1024 1024).2 (0 + 7) = 0 :=
  ⟨(resetEQ_flushes (CMath.mk (fun a b : ℝ => a ^ b) Real.sin Real.cos Real.sqrt) (AudioProcessor.applyEQPreset (CMath.mk (fun a b : ℝ => a ^ b) Real.sin Real.cos Real.sqrt) ( AudioProcessor.initialize (CMath.mk (fun a b : ℝ => a ^ b) Real.sin Real.cos Real.sqrt) (AudioProcessor.new (CMath.mk (fun a b : ℝ => a ^ b) Real.sin Real.cos Real.sqrt)) 48000) "treble_boost") (fun _ => 0)
      0 1024 0 1024 (by norm_num) (fun _ _ => ⟨rfl, rfl⟩) (fun _ _ => rfl)).1 9,
    ((resetEQ_flushes (CMath.mk (fun a b : ℝ => a ^ b) Real.sin Real.cos Real.sqrt) (AudioProcessor.applyEQPreset (CMath.mk (fun a b : ℝ => a ^ b) Real.sin Real.cos Real.sqrt) ( AudioProcessor.initialize (CMath.mk (fun a b : ℝ => a ^ b) Real.sin Real.cos Real.sqrt) (AudioProcessor.new (CMath.mk (fun a b : ℝ => a ^ b) Real.sin Real.cos Real.sqrt)) 48000) "treble_boost") (fun _ => 0)
      0 1024 0 1024 (by norm_num) (fun _ _ => ⟨rfl, rfl⟩) (fun _ _ => rfl)).2.1 7
      (by norm_num)).1⟩

/-- C7 (instance). After `setEnabled(false)` on a fresh Equalizer at 48000 Hz, `reset()`
gives the fresh state with the enabled flag still false. -/
theorem reset_eq_fresh_keeping_enabled_witness :
    Reachable (CMath.mk (fun a b : ℝ => a ^ b) Real.sin Real.cos Real.sqrt) 48000 (Equalizer.setEnabled (Equalizer.new (CMath.mk (fun a b : ℝ => a ^ b) Real.sin Real.cos Real.sqrt) 48000) false) ∧
      Equalizer.reset (CMath.mk (fun a b : ℝ => a ^ b) Real.sin Real.cos Real.sqrt) (Equalizer.setEnabled (Equalizer.new (CMath.mk (fun a b : ℝ => a ^ b) Real.sin Real.cos Real.sqrt) 48000) false) =
        { (Equalizer.new (CMath.mk (fun a b : ℝ => a ^ b) Real.sin Real.cos Real.sqrt) 48000) with enabled := (Equalizer.setEnabled (Equalizer.new (CMath.mk (fun a b : ℝ => a ^ b) Real.sin Real.cos Real.sqrt) 48000) false).enabled } :=
  ⟨Reachable.setEnabled _ false Reachable.init,
    reset_eq_fresh_keeping_enabled (CMath.mk (fun a b : ℝ => a ^ b) Real.sin Real.cos Real.sqrt) 48000 (Equalizer.setEnabled (Equalizer.new (CMath.mk (fun a b : ℝ => a ^ b) Real.sin Real.cos Real.sqrt) 48000) false)
      (Reachable.setEnabled _ false Reachable.init)⟩

/-- C8 (instance). With the real `pow`, `sin`, `cos`, `sqrt`, a fresh Equalizer at
48000 Hz returns the sample 1/2 unchanged and the sample 2 clipped to 1. -/
theorem flat_is_identity_witness :
    (Equalizer.processStereo (Equalizer.new (CMath.mk (fun a b : ℝ => a ^ b) Real.sin Real.cos Real.sqrt) 48000) (fun a => if a = 0 then 1 / 2 else 2) 0 2 2).2 (0 + 0) =
        1 / 2 ∧
      (Equalizer.processStereo (Equalizer.new (CMath.mk (fun a b : ℝ => a ^ b) Real.sin Real.cos Real.sqrt) 48000) (fun a => if a = 0 then 1 / 2 else 2) 0 2 2).2 (2 + 1) = 1 :=
  ⟨((flat_is_identity (CMath.mk (fun a b : ℝ => a ^ b) Real.sin Real.cos Real.sqrt) (Real.rpow_zero 10) Real.sqrt_one Real.neg_one_le_sin 48000
        (by norm_num) (Equalizer.new (CMath.mk (fun a b : ℝ => a ^ b) Real.sin Real.cos Real.sqrt) 48000) (Or.inl rfl) (fun a => if a = 0 then 1 / 2 else 2) 0 2 2).2.1 0
        (by norm_num)).1.trans (by norm_num [stdMax, stdMin]),
    ((flat_is_identity (CMath.mk (fun a b : ℝ => a ^ b) Real.sin Real.cos Real.sqrt) (Real.rpow_zero 10) Real.sqrt_one Real.neg_one_le_sin 48000
        (by norm_num) (Equalizer.new (CMath.mk (fun a b : ℝ => a ^ b) Real.sin Real.cos Real.sqrt) 48000) (Or.inl rfl) (fun a => if a = 0 then 1 / 2 else 2) 0 2 2).2.1 1
        (by norm_num)).2.trans (by norm_num [stdMax, stdMin])⟩

/-- C9 (instance). `setBandGain(10, 5.0)` and `setBandGain(-1, 5.0)` leave a fresh
Equalizer unchanged. -/
theorem setBandGain_out_of_range_noop_witness :
    Equalizer.setBandGain (CMath.mk (fun a b : ℝ => a ^ b) Real.sin Real.cos Real.sqrt) (Equalizer.new (CMath.mk (fun a b : ℝ => a ^ b) Real.sin Real.cos Real.sqrt) 48000) 10 5 = (Equalizer.new (CMath.mk (fun a b : ℝ => a ^ b) Real.sin Real.cos Real.sqrt) 48000) ∧ Equalizer.setBandGain (CMath.mk (fun a b : ℝ => a ^ b) Real.sin Real.cos Real.sqrt) (Equalizer.new (CMath.mk (fun a b : ℝ => a ^ b) Real.sin Real.cos Real.sqrt) 48000) (-1) 5 = (Equalizer.new (CMath.mk (fun a b : ℝ => a ^ b) Real.sin Real.cos Real.sqrt) 48000) :=
  ⟨(setBandGain_out_of_range_noop (CMath.mk (fun a b : ℝ => a ^ b) Real.sin Real.cos Real.sqrt) (Equalizer.new (CMath.mk (fun a b : ℝ => a ^ b) Real.sin Real.cos Real.sqrt) 48000) 10 5 (by norm_num)).1,
    (setBandGain_out_of_range_noop (CMath.mk (fun a b : ℝ => a ^ b) Real.sin Real.cos Real.sqrt) (Equalizer.new (CMath.mk (fun a b : ℝ => a ^ b) Real.sin Real.cos Real.sqrt) 48000) (-1) 5 (by norm_num)).1⟩

/-- C10 (instance). `applyPreset` with "Flat", "ROCK" and the empty string leaves a fresh
Equalizer unchanged. -/
theorem applyPreset_unknown_noop_witness :
    Equalizer.applyPreset (CMath.mk (fun a b : ℝ => a ^ b) Real.sin Real.cos Real.sqrt) (Equalizer.new (CMath.mk (fun a b : ℝ => a ^ b) Real.sin Real.cos Real.sqrt) 48000) "Flat" = (Equalizer.new (CMath.mk (fun a b : ℝ => a ^ b) Real.sin Real.cos Real.sqrt) 48000) ∧ Equalizer.applyPreset (CMath.mk (fun a b : ℝ => a ^ b) Real.sin Real.cos Real.sqrt) (Equalizer.new (CMath.mk (fun a b : ℝ => a ^ b) Real.sin Real.cos Real.sqrt) 48000) "ROCK" = (Equalizer.new (CMath.mk (fun a b : ℝ => a ^ b) Real.sin Real.cos Real.sqrt) 48000) ∧
      Equalizer.applyPreset (CMath.mk (fun a b : ℝ => a ^ b) Real.sin Real.cos Real.sqrt) (Equalizer.new (CMath.mk (fun a b : ℝ => a ^ b) Real.sin Real.cos Real.sqrt) 48000) "" = (Equalizer.new (CMath.mk (fun a b : ℝ => a ^ b) Real.sin Real.cos Real.sqrt) 48000) :=
  ⟨applyPreset_unknown_noop (CMath.mk (fun a b : ℝ => a ^ b) Real.sin Real.cos Real.sqrt) (Equalizer.new (CMath.mk (fun a b : ℝ => a ^ b) Real.sin Real.cos Real.sqrt) 48000) "Flat" (by decide),
    applyPreset_unknown_noop (CMath.mk (fun a b : ℝ => a ^ b) Real.sin Real.cos Real.sqrt) (Equalizer.new (CMath.mk (fun a b : ℝ => a ^ b) Real.sin Real.cos Real.sqrt) 48000) "ROCK" (by decide),
    applyPreset_unknown_noop (CMath.mk (fun a b : ℝ => a ^ b) Real.sin Real.cos Real.sqrt) (Equalizer.new (CMath.mk (fun a b : ℝ => a ^ b) Real.sin Real.cos Real.sqrt) 48000) "" (by decide)⟩

/-! ## The biquad section -/

/-- C12. Biquad recursion: for every filter state and input `x`, `process(x)` returns
`y = b0*x + b1*x1 + b2*x2 - a1*y1 - a2*y2` and leaves the state scalars
`(x1, x2, y1, y2) = (x, old x1, y, old y1)`, with the coefficients and the design
parameters unchanged. -/
theorem process_direct_form (f : BiquadFilter α) (x : α) :
    (BiquadFilter.process f x).2 =
        f.b0 * x + f.b1 * f.x1 + f.b2 * f.x2 - f.a1 * f.y1 - f.a2 * f.y2 ∧
      (BiquadFilter.process f x).1.x1 = x ∧
      (BiquadFilter.process f x).1.x2 = f.x1 ∧
      (BiquadFilter.process f x).1.y1 = (BiquadFilter.process f x).2 ∧
      (BiquadFilter.process f x).1.y2 = f.y1 ∧
      ((BiquadFilter.process f x).1.a0 = f.a0 ∧ (BiquadFilter.process f x).1.a1 = f.a1 ∧
        (BiquadFilter.process f x).1.a2 = f.a2 ∧ (BiquadFilter.process f x).1.b0 = f.b0 ∧
        (BiquadFilter.process f x).1.b1 = f.b1 ∧ (BiquadFilter.process f x).1.b2 = f.b2) ∧
      ((BiquadFilter.process f x).1.type = f.type ∧
        (BiquadFilter.process f x).1.frequency = f.frequency ∧
        (BiquadFilter.process f x).1.sampleRate = f.sampleRate ∧
        (BiquadFilter.process f x).1.gainDB = f.gainDB ∧
        (BiquadFilter.process f x).1.Q = f.Q) :=
  ⟨rfl, rfl, rfl, rfl, rfl, ⟨rfl, rfl, rfl, rfl, rfl, rfl⟩, ⟨rfl, rfl, rfl, rfl, rfl⟩⟩

theorem calc_normalized (M : CMath α) (f : BiquadFilter α) :
    NormalizedCookbook M (BiquadFilter.calculateCoefficients M f) := by
  obtain ⟨a0, a1, a2, b0, b1, b2, x1, x2, y1, y2, t, fr, sr, g, q⟩ := f
  cases t <;> exact ⟨rfl, rfl, rfl, rfl, rfl, rfl⟩

/-- C13. Normalized cookbook coefficients: after construction and after each of
`setType`, `setFrequency`, `setGain`, `setQ` (which record their argument), the stored
`a0` is 1 and `b0, b1, b2, a1, a2` are the cookbook raw coefficients of the filter's
current kind, frequency, sample rate, gain and Q, each divided by the raw `a0`; the
value of pi is the constant `M_PI`. -/
theorem coefficients_normalized (M : CMath α) (f : BiquadFilter α) (t : FilterType)
    (freq sr g q : α) :
    NormalizedCookbook M (BiquadFilter.new M) ∧
      (NormalizedCookbook M (BiquadFilter.setType M f t) ∧
        (BiquadFilter.setType M f t).type = t) ∧
      (NormalizedCookbook M (BiquadFilter.setFrequency M f freq sr) ∧
        (BiquadFilter.setFrequency M f freq sr).frequency = freq ∧
        (BiquadFilter.setFrequency M f freq sr).sampleRate = sr) ∧
      (NormalizedCookbook M (BiquadFilter.setGain M f g) ∧
        (BiquadFilter.setGain M f g).gainDB = g) ∧
      (NormalizedCookbook M (BiquadFilter.setQ M f q) ∧ (BiquadFilter.setQ M f q).Q = q) :=
  ⟨calc_normalized M _, ⟨calc_normalized M _, calc_type M _⟩,
    ⟨calc_normalized M _, calc_frequency M _, calc_sampleRate M _⟩,
    ⟨calc_normalized M _, calc_gainDB M _⟩, ⟨calc_normalized M _, calc_Q M _⟩⟩

/-! ## Flags, defaults and getters -/

/-- C14. Semantics of `setEnabled`: after `setEnabled(b)`, `isEnabled()` returns `b`;
`setEnabled(true)` changes nothing but the flag; `setEnabled(false)` sets the four
state scalars of all twenty filters to 0 and leaves the gains, the sample rate and
all coefficients and design parameters unchanged. -/
theorem setEnabled_semantics (e : Equalizer α) (b : Bool) :
    Equalizer.isEnabled (Equalizer.setEnabled e b) = b ∧
      Equalizer.setEnabled e true = { e with enabled := true } ∧
      (Equalizer.setEnabled e false).currentGains = e.currentGains ∧
      (Equalizer.setEnabled e false).sampleRate = e.sampleRate ∧
      ∀ i : Fin NUM_BANDS,
        (Equalizer.setEnabled e false).leftFilters i =
            { e.leftFilters i with x1 := 0, x2 := 0, y1 := 0, y2 := 0 } ∧
          (Equalizer.setEnabled e false).rightFilters i =
            { e.rightFilters i with x1 := 0, x2 := 0, y1 := 0, y2 := 0 } := by
  refine ⟨?_, setEnabled_true_eq e, ?_, ?_, fun i => ⟨?_, ?_⟩⟩
  · cases b with
    | true => rw [setEnabled_true_eq]; rfl
    | false => rw [setEnabled_false_eq]; rfl
  · rw [setEnabled_false_eq]
  · rw [setEnabled_false_eq]
  · rw [setEnabled_false_eq]; rfl
  · rw [setEnabled_false_eq]; rfl

/-- C15. Defaults: for every sample rate, a freshly constructed Equalizer reports the
band frequencies `[31, 62, 125, 250, 500, 1000, 2000, 4000, 8000, 16000]` (also through
`AudioProcessor::getBandFrequencies`), is enabled, and has gain 0 on every band. -/
theorem fresh_defaults (M : CMath α) (sr : α) :
    (Equalizer.getBandFrequencies : List α) =
        [31, 62, 125, 250, 500, 1000, 2000, 4000, 8000, 16000] ∧
      (AudioProcessor.getBandFrequencies : List α) =
        [31, 62, 125, 250, 500, 1000, 2000, 4000, 8000, 16000] ∧
      Equalizer.isEnabled (Equalizer.new M sr) = true ∧
      ∀ i : Int, Equalizer.getBandGain (Equalizer.new M sr) i = 0 := by
  refine ⟨rfl, rfl, rfl, fun i => ?_⟩
  unfold Equalizer.getBandGain
  split <;> rfl

/-- C16. Getter: for a band index `i < 0` or `i ≥ 10`, `getBandGain(i)` returns 0
whatever gains are stored; for a band `b` in `0..9` it returns the stored gain of
band `b`. -/
theorem getBandGain_semantics (e : Equalizer α) :
    (∀ i : Int, (i < 0 ∨ i ≥ 10) → Equalizer.getBandGain e i = 0) ∧
      ∀ b : Fin NUM_BANDS, Equalizer.getBandGain e ((b.val : Nat) : Int) = e.currentGains b := by
  constructor
  · intro i hi
    have hi2 : i < 0 ∨ i ≥ NUM_BANDS := hi
    unfold Equalizer.getBandGain
    rw [dif_pos hi2]
  · intro b
    rw [getBandGain_inRange e _ (natBand_inRange b), bandOfInt_val b (natBand_inRange b)]

theorem neverInitialized_flag (M : CMath α) (p : AudioProcessor α)
    (h : NeverInitialized M p) : p.initialized = false := by
  induction h with
  | init => rfl
  | setEQBandGain p i g _ ih => exact ih
  | applyEQPreset p name _ ih => exact ih
  | resetEQ p _ ih => exact ih
  | setEQEnabled p en _ ih => exact ih
  | processSeparateChannels p mem l r n _ ih =>
    unfold AudioProcessor.processSeparateChannels
    split
    · exact ih
    · exact ih
  | processInterleavedStereo p q mem out buffer n _ hq ih =>
    unfold AudioProcessor.processInterleavedStereo at hq
    simp only [ih, Bool.not_false, Bool.true_or, if_true, Option.some.injEq,
      Prod.mk.injEq] at hq
    rw [← hq.1]
    exact ih

/-- C17. Uninitialized use: on an AudioProcessor on which `initialize` has never been
called, whatever the EQ enabled flag and gains, `processInterleavedStereo` and
`processSeparateChannels` return with the sample memory and the processor (hence the
owned Equalizer) unchanged. -/
theorem uninitialized_noop (M : CMath α) (p : AudioProcessor α) (h : NeverInitialized M p)
    (mem : Mem α) (buffer leftChannel rightChannel : Nat) (n : Int) :
    AudioProcessor.processInterleavedStereo p mem buffer n = some (p, mem) ∧
      AudioProcessor.processSeparateChannels p mem leftChannel rightChannel n = (p, mem) := by
  have hf := neverInitialized_flag M p h
  constructor
  · unfold AudioProcessor.processInterleavedStereo
    simp [hf]
  · unfold AudioProcessor.processSeparateChannels
    simp [hf]

/-- C20. Re-initialization: for every AudioProcessor state and sample rate `sr`, after
`initialize(sr)` the processor is initialized and owns a freshly constructed
`Equalizer(sr)`: every `getEQBandGain(i)` is 0, `isEQEnabled()` is true and the state
scalars of all twenty filters are 0. -/
theorem initialize_fresh (M : CMath α) (p : AudioProcessor α) (sr : α) :
    ( AudioProcessor.initialize M p sr).initialized = true ∧
      ( AudioProcessor.initialize M p sr).equalizer = Equalizer.new M sr ∧
      ( AudioProcessor.initialize M p sr).sampleRate = sr ∧
      (∀ i : Int, AudioProcessor.getEQBandGain ( AudioProcessor.initialize M p sr) i = 0) ∧
      AudioProcessor.isEQEnabled ( AudioProcessor.initialize M p sr) = true ∧
      ∀ b : Fin NUM_BANDS,
        ZeroState (( AudioProcessor.initialize M p sr).equalizer.leftFilters b) ∧
          ZeroState (( AudioProcessor.initialize M p sr).equalizer.rightFilters b) := by
  refine ⟨rfl, rfl, rfl, fun i => ?_, rfl, fun b =>
    ⟨initialFilter_zeroState M sr b, initialFilter_zeroState M sr b⟩⟩
  show Equalizer.getBandGain (Equalizer.new M sr) i = 0
  unfold Equalizer.getBandGain
  split <;> rfl

/-! ## The frame loop against the reference cascade -/

theorem refBandInput_succ (fs : Fin NUM_BANDS → BiquadFilter α) (x : α) (b : Fin NUM_BANDS) :
    refBandInput fs x (b.val + 1) =
      (BiquadFilter.process (fs b) (refBandInput fs x b.val)).2 := by
  show (if h : b.val < NUM_BANDS then
      (BiquadFilter.process (fs ⟨b.val, h⟩) (refBandInput fs x b.val)).2
    else refBandInput fs x b.val) = _
  rw [dif_pos b.isLt]

theorem bands_ref_aux (lf rf : Fin NUM_BANDS → BiquadFilter α) (x y : α) :
    ∀ (bs : List (Fin NUM_BANDS)) (k : Nat)
      (st : (Fin NUM_BANDS → BiquadFilter α) × (Fin NUM_BANDS → BiquadFilter α) × α × α),
      bs.map Fin.val = List.range' k bs.length →
      (∀ b, st.1 b = if b.val < k then refCascadeState lf x b else lf b) →
      (∀ b, st.2.1 b = if b.val < k then refCascadeState rf y b else rf b) →
      st.2.2.1 = refBandInput lf x k → st.2.2.2 = refBandInput rf y k →
      (∀ b, (bs.foldl bandStep st).1 b =
          if b.val < k + bs.length then refCascadeState lf x b else lf b) ∧
        (∀ b, (bs.foldl bandStep st).2.1 b =
          if b.val < k + bs.length then refCascadeState rf y b else rf b) ∧
        (bs.foldl bandStep st).2.2.1 = refBandInput lf x (k + bs.length) ∧
        (bs.foldl bandStep st).2.2.2 = refBandInput rf y (k + bs.length) := by
  intro bs
  induction bs with
  | nil =>
    intro k st _ h1 h2 h3 h4
    exact ⟨h1, h2, h3, h4⟩
  | cons b rest ih =>
    intro k st hmap h1 h2 h3 h4
    rw [List.length_cons, List.range'_succ, List.map_cons, List.cons.injEq] at hmap
    obtain ⟨hbk, hrest⟩ := hmap
    have hl : st.1 b = lf b := by
      rw [h1 b, if_neg (by omega)]
    have hr : st.2.1 b = rf b := by
      rw [h2 b, if_neg (by omega)]
    have key := ih (k + 1) (bandStep st b) hrest
      (fun c => by
        show Function.update st.1 b (BiquadFilter.process (st.1 b) st.2.2.1).1 c = _
        by_cases hcb : c = b
        · subst hcb
          rw [Function.update_same, if_pos (by omega), hl, h3, ← hbk]
          rfl
        · rw [Function.update_noteq hcb, h1 c]
          have hne : c.val ≠ k := fun hv => hcb (Fin.ext (hv.trans hbk.symm))
          by_cases hlt : c.val < k
          · rw [if_pos hlt, if_pos (by omega)]
          · rw [if_neg hlt, if_neg (by omega)])
      (fun c => by
        show Function.update st.2.1 b (BiquadFilter.process (st.2.1 b) st.2.2.2).1 c = _
        by_cases hcb : c = b
        · subst hcb
          rw [Function.update_same, if_pos (by omega), hr, h4, ← hbk]
          rfl
        · rw [Function.update_noteq hcb, h2 c]
          have hne : c.val ≠ k := fun hv => hcb (Fin.ext (hv.trans hbk.symm))
          by_cases hlt : c.val < k
          · rw [if_pos hlt, if_pos (by omega)]
          · rw [if_neg hlt, if_neg (by omega)])
      (by
        show (BiquadFilter.process (st.1 b) st.2.2.1).2 = _
        rw [hl, h3, ← hbk, refBandInput_succ])
      (by
        show (BiquadFilter.process (st.2.1 b) st.2.2.2).2 = _
        rw [hr, h4, ← hbk, refBandInput_succ])
    have harith : k + 1 + rest.length = k + (rest.length + 1) := by omega
    rw [harith] at key
    exact key

theorem bands_ref (lf rf : Fin NUM_BANDS → BiquadFilter α) (x y : α) :
    (List.finRange NUM_BANDS).foldl bandStep (lf, rf, x, y) =
      (refCascadeState lf x, refCascadeState rf y, refCascadeOutput lf x,
        refCascadeOutput rf y) := by
  have h := bands_ref_aux lf rf x y (List.finRange NUM_BANDS) 0 (lf, rf, x, y)
    (by rw [List.map_coe_finRange, List.length_finRange, List.range_eq_range'])
    (fun b => by simp) (fun b => by simp) rfl rfl
  rw [List.length_finRange, Nat.zero_add] at h
  obtain ⟨h1, h2, h3, h4⟩ := h
  refine Prod.ext ?_ (Prod.ext ?_ (Prod.ext ?_ ?_))
  · funext b
    rw [h1 b, if_pos b.isLt]
  · funext b
    rw [h2 b, if_pos b.isLt]
  · exact h3
  · exact h4

theorem processFrame_ref (l r : Nat) (st : Equalizer α × Mem α) (i : Nat) :
    processFrame l r st i =
      ({ st.1 with
          leftFilters := refCascadeState st.1.leftFilters (st.2 (l + i))
          rightFilters := refCascadeState st.1.rightFilters (st.2 (r + i)) },
        Function.update
          (Function.update st.2 (l + i)
            (max (-1) (min 1 (refCascadeOutput st.1.leftFilters (st.2 (l + i))))))
          (r + i) (max (-1) (min 1 (refCascadeOutput st.1.rightFilters (st.2 (r + i)))))) := by
  unfold processFrame
  simp only [bands_ref, stdMax_eq_max, stdMin_eq_min]

theorem frames_ref (l r N : Nat) (hdis : ∀ i j, i < N → j < N → l + i ≠ r + j)
    (e : Equalizer α) (mem0 : Mem α) (k : Nat) (hk : k ≤ N) :
    ((List.range k).foldl (processFrame l r) (e, mem0)).1 =
        { e with
          leftFilters := refChannelState e.leftFilters (fun i => mem0 (l + i)) k
          rightFilters := refChannelState e.rightFilters (fun i => mem0 (r + i)) k } ∧
      (∀ i, i < k → ((List.range k).foldl (processFrame l r) (e, mem0)).2 (l + i) =
        refWritten e.leftFilters (fun i => mem0 (l + i)) i) ∧
      (∀ i, i < k → ((List.range k).foldl (processFrame l r) (e, mem0)).2 (r + i) =
        refWritten e.rightFilters (fun i => mem0 (r + i)) i) ∧
      ∀ a, (∀ i, i < k → a ≠ l + i ∧ a ≠ r + i) →
        ((List.range k).foldl (processFrame l r) (e, mem0)).2 a = mem0 a := by
  induction k with
  | zero =>
    refine ⟨rfl, fun i hi => absurd hi (Nat.not_lt_zero i),
      fun i hi => absurd hi (Nat.not_lt_zero i), fun a _ => rfl⟩
  | succ k ih =>
    obtain ⟨ih1, ih2, ih3, ih4⟩ := ih (Nat.le_of_succ_le hk)
    have hkN : k < N := hk
    rw [List.range_succ, List.foldl_append]
    simp only [List.foldl_cons, List.foldl_nil]
    rw [processFrame_ref]
    generalize (List.range k).foldl (processFrame l r) (e, mem0) = s at ih1 ih2 ih3 ih4
    obtain ⟨se, sm⟩ := s
    simp only at ih1 ih2 ih3 ih4
    subst ih1
    have hl : sm (l + k) = mem0 (l + k) :=
      ih4 _ (fun i hi => ⟨by omega, hdis k i hkN (by omega)⟩)
    have hr : sm (r + k) = mem0 (r + k) :=
      ih4 _ (fun i hi => ⟨fun h => hdis i k (by omega) hkN h.symm, by omega⟩)
    simp only [hl, hr]
    refine ⟨rfl, fun i hi => ?_, fun i hi => ?_, fun a ha => ?_⟩
    · rw [Function.update_noteq (hdis i k (by omega) hkN)]
      by_cases hik : i = k
      · subst hik
        rw [Function.update_same]
        rfl
      · rw [Function.update_noteq (by omega)]
        exact ih2 i (by omega)
    · by_cases hik : i = k
      · subst hik
        rw [Function.update_same]
        rfl
      · rw [Function.update_noteq (by omega),
          Function.update_noteq (fun h => hdis k i hkN (by omega) h.symm)]
        exact ih3 i (by omega)
    · rw [Function.update_noteq (ha k (Nat.lt_succ_self k)).2,
        Function.update_noteq (ha k (Nat.lt_succ_self k)).1]
      exact ih4 a (fun i hi => ha i (Nat.lt_succ_of_lt hi))

theorem processStereo_ref (e : Equalizer α) (mem : Mem α) (l r : Nat) (n : Int)
    (he : e.enabled = true)
    (hdis : ∀ i j : Nat, (i : Int) < n → (j : Int) < n → l + i ≠ r + j) :
    (Equalizer.processStereo e mem l r n).1 =
        { e with
          leftFilters := refChannelState e.leftFilters (fun i => mem (l + i)) n.toNat
          rightFilters := refChannelState e.rightFilters (fun i => mem (r + i)) n.toNat } ∧
      (∀ t : Nat, (t : Int) < n →
        (Equalizer.processStereo e mem l r n).2 (l + t) =
            refWritten e.leftFilters (fun i => mem (l + i)) t ∧
          (Equalizer.processStereo e mem l r n).2 (r + t) =
            refWritten e.rightFilters (fun i => mem (r + i)) t) ∧
      ∀ a, (∀ i : Nat, (i : Int) < n → a ≠ l + i ∧ a ≠ r + i) →
        (Equalizer.processStereo e mem l r n).2 a = mem a := by
  rw [processStereo_enabled e mem l r n he]
  obtain ⟨h1, h2, h3, h4⟩ := frames_ref l r n.toNat
    (fun i j hi hj => hdis i j (by omega) (by omega)) e mem n.toNat le_rfl
  exact ⟨h1, fun t ht => ⟨h2 t (by omega), h3 t (by omega)⟩,
    fun a ha => h4 a (fun i hi => ha i (by omega))⟩

/-- C11. Reference semantics of `processStereo`. Every frame writes to `left[i]` and
then to `right[i]` the clamped outputs of the two ten-band cascades, run in ascending
band order on the samples read from `left[i]`, `right[i]`, and stores the filters the
cascades leave. For an enabled Equalizer and two channel arrays that do not overlap,
after `processStereo(left, right, n)` the sample at `left[t]`, `t < n`, is
`clamp(F9(...F0(left_in[t])...), -1, 1)` computed on the filter state left by frame
`t - 1`, symmetrically for `right[t]`; the final cascades are those left by frame
`n - 1`, and the last left filter's `y1` is the unclamped output of that frame. A
disabled Equalizer returns with samples and Equalizer unchanged. -/
theorem processStereo_reference (e : Equalizer α) (mem : Mem α) (l r : Nat) (n : Int)
    (he : e.enabled = true)
    (hdis : ∀ i j : Nat, (i : Int) < n → (j : Int) < n → l + i ≠ r + j) :
    (∀ (st : Equalizer α × Mem α) (i : Nat),
        processFrame l r st i =
          ({ st.1 with
              leftFilters := refCascadeState st.1.leftFilters (st.2 (l + i))
              rightFilters := refCascadeState st.1.rightFilters (st.2 (r + i)) },
            Function.update
              (Function.update st.2 (l + i)
                (max (-1) (min 1 (refCascadeOutput st.1.leftFilters (st.2 (l + i))))))
              (r + i)
              (max (-1) (min 1 (refCascadeOutput st.1.rightFilters (st.2 (r + i))))))) ∧
      (∀ t : Nat, (t : Int) < n →
        (Equalizer.processStereo e mem l r n).2 (l + t) =
            max (-1) (min 1 (refCascadeOutput
              (refChannelState e.leftFilters (fun i => mem (l + i)) t) (mem (l + t)))) ∧
          (Equalizer.processStereo e mem l r n).2 (r + t) =
            max (-1) (min 1 (refCascadeOutput
              (refChannelState e.rightFilters (fun i => mem (r + i)) t) (mem (r + t))))) ∧
      (Equalizer.processStereo e mem l r n).1 =
        { e with
          leftFilters := refChannelState e.leftFilters (fun i => mem (l + i)) n.toNat
          rightFilters := refChannelState e.rightFilters (fun i => mem (r + i)) n.toNat } ∧
      (∀ m : Nat, n = (m : Int) + 1 →
        ((Equalizer.processStereo e mem l r n).1.leftFilters ⟨9, by decide⟩).y1 =
            refCascadeOutput (refChannelState e.leftFilters (fun i => mem (l + i)) m)
              (mem (l + m)) ∧
          ((Equalizer.processStereo e mem l r n).1.rightFilters ⟨9, by decide⟩).y1 =
            refCascadeOutput (refChannelState e.rightFilters (fun i => mem (r + i)) m)
              (mem (r + m))) ∧
      ∀ d : Equalizer α, d.enabled = false →
        Equalizer.processStereo d mem l r n = (d, mem) := by
  obtain ⟨h1, h2, _⟩ := processStereo_ref e mem l r n he hdis
  refine ⟨processFrame_ref l r, h2, h1, fun m hm => ?_,
    fun d hd => processStereo_disabled d mem l r n hd⟩
  rw [h1]
  have hn : n.toNat = m + 1 := by omega
  simp only [hn]
  exact ⟨rfl, rfl⟩

/-! ## The interleaved path -/

theorem refChannelState_congr (fs : Fin NUM_BANDS → BiquadFilter α) (in1 in2 : Nat → α)
    (t : Nat) (h : ∀ i, i < t → in1 i = in2 i) :
    refChannelState fs in1 t = refChannelState fs in2 t := by
  induction t with
  | zero => rfl
  | succ t ih =>
    show refCascadeState (refChannelState fs in1 t) (in1 t) =
      refCascadeState (refChannelState fs in2 t) (in2 t)
    rw [ih (fun i hi => h i (Nat.lt_succ_of_lt hi)), h t (Nat.lt_succ_self t)]

theorem refWritten_congr (fs : Fin NUM_BANDS → BiquadFilter α) (in1 in2 : Nat → α)
    (t : Nat) (h : ∀ i, i < t + 1 → in1 i = in2 i) :
    refWritten fs in1 t = refWritten fs in2 t := by
  unfold refWritten
  rw [refChannelState_congr fs in1 in2 t (fun i hi => h i (Nat.lt_succ_of_lt hi)),
    h t (Nat.lt_succ_self t)]

theorem getElem?_set_step {β : Type} (v : List β) (n k j : Nat) (f : Nat → β) (orig : List β)
    (hlen : v.length = n) (hk : k < n)
    (hv : v[j]? = if j < k then some (f j) else orig[j]?) :
    (v.set k (f k))[j]? = if j < k + 1 then some (f j) else orig[j]? := by
  rw [List.getElem?_set, hlen]
  by_cases hjk : k = j
  · rw [if_pos hjk, if_pos hk, ← hjk, if_pos (Nat.lt_succ_self k)]
  · rw [if_neg hjk, hv]
    by_cases hlt : j < k
    · rw [if_pos hlt, if_pos (by omega)]
    · rw [if_neg hlt, if_neg (by omega)]

theorem deinterleave_eq {β : Type} (mem : Nat → β) (buffer n : Nat) (sized : List β × List β)
    (h1 : sized.1.length = n) (h2 : sized.2.length = n) :
    (List.range n).foldl
        (fun (s : List β × List β) i =>
          (s.1.set i (mem (buffer + i * 2)), s.2.set i (mem (buffer + (i * 2 + 1)))))
        sized =
      ((List.range n).map (fun i => mem (buffer + i * 2)),
        (List.range n).map (fun i => mem (buffer + (i * 2 + 1)))) := by
  have key : ∀ k, k ≤ n →
      (((List.range k).foldl
        (fun (s : List β × List β) i =>
          (s.1.set i (mem (buffer + i * 2)), s.2.set i (mem (buffer + (i * 2 + 1)))))
        sized).1.length = n ∧
      ((List.range k).foldl
        (fun (s : List β × List β) i =>
          (s.1.set i (mem (buffer + i * 2)), s.2.set i (mem (buffer + (i * 2 + 1)))))
        sized).2.length = n) ∧
      ∀ j, ((List.range k).foldl
        (fun (s : List β × List β) i =>
          (s.1.set i (mem (buffer + i * 2)), s.2.set i (mem (buffer + (i * 2 + 1)))))
        sized).1[j]? = (if j < k then some (mem (buffer + j * 2)) else sized.1[j]?) ∧
      ((List.range k).foldl
        (fun (s : List β × List β) i =>
          (s.1.set i (mem (buffer + i * 2)), s.2.set i (mem (buffer + (i * 2 + 1)))))
        sized).2[j]? = (if j < k then some (mem (buffer + (j * 2 + 1))) else sized.2[j]?) := by
    intro k
    induction k with
    | zero =>
      intro _
      exact ⟨⟨h1, h2⟩, fun j => ⟨by simp, by simp⟩⟩
    | succ k ih =>
      intro hk
      obtain ⟨⟨l1, l2⟩, ihj⟩ := ih (Nat.le_of_succ_le hk)
      rw [List.range_succ, List.foldl_append]
      simp only [List.foldl_cons, List.foldl_nil, List.length_set]
      refine ⟨⟨l1, l2⟩, fun j => ?_⟩
      exact ⟨getElem?_set_step _ n k j (fun i => mem (buffer + i * 2)) sized.1 l1 hk (ihj j).1,
        getElem?_set_step _ n k j (fun i => mem (buffer + (i * 2 + 1))) sized.2 l2 hk
          (ihj j).2⟩
  obtain ⟨_, hj⟩ := key n le_rfl
  refine Prod.ext (List.ext_getElem? fun j => ?_) (List.ext_getElem? fun j => ?_)
  · rw [(hj j).1, List.getElem?_map]
    by_cases hlt : j < n
    · rw [if_pos hlt, List.getElem?_range hlt]
      rfl
    · rw [if_neg hlt, List.getElem?_eq_none (by rw [h1]; omega),
        List.getElem?_eq_none (by rw [List.length_range]; omega)]
      rfl
  · rw [(hj j).2, List.getElem?_map]
    by_cases hlt : j < n
    · rw [if_pos hlt, List.getElem?_range hlt]
      rfl
    · rw [if_neg hlt, List.getElem?_eq_none (by rw [h2]; omega),
        List.getElem?_eq_none (by rw [List.length_range]; omega)]
      rfl

theorem getD_map_range (n : Nat) (g : Nat → α) (i : Nat) (hi : i < n) :
    ((List.range n).map g).getD i 0 = g i := by
  rw [List.getD_eq_getElem?_getD, List.getElem?_map, List.getElem?_range hi]
  rfl

theorem scratchMem_left (n : Nat) (f g : Nat → α) (i : Nat) (hi : i < n) :
    scratchMem ((List.range n).map f) ((List.range n).map g) (0 + i) = f i := by
  unfold scratchMem
  rw [List.length_map, List.length_range, Nat.zero_add, if_pos hi, getD_map_range n f i hi]

theorem scratchMem_right (n : Nat) (f g : Nat → α) (i : Nat) (hi : i < n) :
    scratchMem ((List.range n).map f) ((List.range n).map g) (n + i) = g i := by
  unfold scratchMem
  rw [List.length_map, List.length_range, if_neg (by omega), Nat.add_sub_cancel_left,
    getD_map_range n g i hi]

theorem reinterleave_eq (mem : Mem α) (buffer : Nat) (L R : List α) (k : Nat) :
    (∀ i, i < k →
        (List.range k).foldl
            (fun (m : Mem α) i =>
              Function.update (Function.update m (buffer + i * 2) (L.getD i 0))
                (buffer + (i * 2 + 1)) (R.getD i 0))
            mem (buffer + i * 2) = L.getD i 0 ∧
          (List.range k).foldl
            (fun (m : Mem α) i =>
              Function.update (Function.update m (buffer + i * 2) (L.getD i 0))
                (buffer + (i * 2 + 1)) (R.getD i 0))
            mem (buffer + (i * 2 + 1)) = R.getD i 0) ∧
      ∀ a, (∀ j, j < 2 * k → a ≠ buffer + j) →
        (List.range k).foldl
            (fun (m : Mem α) i =>
              Function.update (Function.update m (buffer + i * 2) (L.getD i 0))
                (buffer + (i * 2 + 1)) (R.getD i 0))
            mem a = mem a := by
  induction k with
  | zero =>
    exact ⟨fun i hi => absurd hi (Nat.not_lt_zero i), fun a _ => rfl⟩
  | succ k ih =>
    obtain ⟨ih1, ih2⟩ := ih
    rw [List.range_succ, List.foldl_append]
    simp only [List.foldl_cons, List.foldl_nil]
    refine ⟨fun i hi => ?_, fun a ha => ?_⟩
    · by_cases hik : i = k
      · subst hik
        constructor
        · rw [Function.update_noteq (by omega), Function.update_same]
        · rw [Function.update_same]
      · constructor
        · rw [Function.update_noteq (by omega), Function.update_noteq (by omega)]
          exact (ih1 i (by omega)).1
        · rw [Function.update_noteq (by omega), Function.update_noteq (by omega)]
          exact (ih1 i (by omega)).2
    · rw [Function.update_noteq (ha (k * 2 + 1) (by omega)),
        Function.update_noteq (ha (k * 2) (by omega))]
      exact ih2 a (fun j hj => ha j (by omega))

theorem processInterleavedStereo_ref (p : AudioProcessor α) (mem : Mem α) (buffer : Nat)
    (n : Int) (hn : 0 ≤ n) (hi : p.initialized = true) (he : p.equalizer.enabled = true) :
    ∃ q out, AudioProcessor.processInterleavedStereo p mem buffer n = some (q, out) ∧
      q.equalizer =
        { p.equalizer with
          leftFilters := refChannelState p.equalizer.leftFilters
            (fun i => mem (buffer + i * 2)) (Int.tdiv n 2).toNat
          rightFilters := refChannelState p.equalizer.rightFilters
            (fun i => mem (buffer + (i * 2 + 1))) (Int.tdiv n 2).toNat } ∧
      (∀ i, i < (Int.tdiv n 2).toNat →
        out (buffer + i * 2) =
            refWritten p.equalizer.leftFilters (fun i => mem (buffer + i * 2)) i ∧
          out (buffer + (i * 2 + 1)) =
            refWritten p.equalizer.rightFilters (fun i => mem (buffer + (i * 2 + 1))) i) ∧
      (∀ a, (∀ j, j < 2 * (Int.tdiv n 2).toNat → a ≠ buffer + j) → out a = mem a) ∧
      q.leftBuffer.length = (Int.tdiv n 2).toNat ∧
      q.rightBuffer.length = (Int.tdiv n 2).toNat := by
  have hen : p.equalizer.isEnabled = true := he
  have hnf : ¬ Int.tdiv n 2 < 0 := by
    have := Int.tdiv_nonneg hn (by norm_num : (0 : Int) ≤ 2)
    omega
  unfold AudioProcessor.processInterleavedStereo
  simp only [hi, hen, Bool.not_true, Bool.or_self, Bool.false_eq_true, if_false, hnf]
  rw [deinterleave_eq mem buffer (Int.tdiv n 2).toNat _ (List.takeD_length _ _ _)
    (List.takeD_length _ _ _)]
  simp only [List.length_map, List.length_range]
  have hcast : ((Int.tdiv n 2).toNat : Int) = Int.tdiv n 2 := Int.toNat_of_nonneg (by omega)
  obtain ⟨r1, r2, _⟩ := processStereo_ref p.equalizer
    (scratchMem ((List.range (Int.tdiv n 2).toNat).map (fun i => mem (buffer + i * 2)))
      ((List.range (Int.tdiv n 2).toNat).map (fun i => mem (buffer + (i * 2 + 1)))))
    0 (Int.tdiv n 2).toNat (Int.tdiv n 2) he (fun i j hi _ => by omega)
  have hinL : ∀ t, ∀ i, i < t → t ≤ (Int.tdiv n 2).toNat →
      scratchMem ((List.range (Int.tdiv n 2).toNat).map (fun i => mem (buffer + i * 2)))
        ((List.range (Int.tdiv n 2).toNat).map (fun i => mem (buffer + (i * 2 + 1))))
        (0 + i) = mem (buffer + i * 2) :=
    fun t i hit ht => scratchMem_left _ _ _ i (by omega)
  have hinR : ∀ t, ∀ i, i < t → t ≤ (Int.tdiv n 2).toNat →
      scratchMem ((List.range (Int.tdiv n 2).toNat).map (fun i => mem (buffer + i * 2)))
        ((List.range (Int.tdiv n 2).toNat).map (fun i => mem (buffer + (i * 2 + 1))))
        ((Int.tdiv n 2).toNat + i) = mem (buffer + (i * 2 + 1)) :=
    fun t i hit ht => scratchMem_right _ _ _ i (by omega)
  obtain ⟨w1, w2⟩ := reinterleave_eq mem buffer
    ((List.range (Int.tdiv n 2).toNat).map
      (Equalizer.processStereo p.equalizer
        (scratchMem ((List.range (Int.tdiv n 2).toNat).map (fun i => mem (buffer + i * 2)))
          ((List.range (Int.tdiv n 2).toNat).map (fun i => mem (buffer + (i * 2 + 1)))))
        0 (Int.tdiv n 2).toNat (Int.tdiv n 2)).2)
    ((List.range (Int.tdiv n 2).toNat).map (fun i =>
      (Equalizer.processStereo p.equalizer
        (scratchMem ((List.range (Int.tdiv n 2).toNat).map (fun i => mem (buffer + i * 2)))
          ((List.range (Int.tdiv n 2).toNat).map (fun i => mem (buffer + (i * 2 + 1)))))
        0 (Int.tdiv n 2).toNat (Int.tdiv n 2)).2 ((Int.tdiv n 2).toNat + i)))
    (Int.tdiv n 2).toNat
  refine ⟨_, _, rfl, ?_, fun i hi => ⟨?_, ?_⟩, w2, ?_, ?_⟩
  · show (Equalizer.processStereo _ _ _ _ _).1 = _
    rw [r1]
    rw [refChannelState_congr p.equalizer.leftFilters _ (fun i => mem (buffer + i * 2)) _
        (fun i hi => hinL _ i hi le_rfl),
      refChannelState_congr p.equalizer.rightFilters _ (fun i => mem (buffer + (i * 2 + 1))) _
        (fun i hi => hinR _ i hi le_rfl)]
  · rw [(w1 i hi).1, getD_map_range _ _ i hi]
    have := (r2 i (by omega)).1
    rw [Nat.zero_add] at this
    rw [this]
    exact refWritten_congr _ _ _ i (fun j hj => hinL (i + 1) j hj (by omega))
  · rw [(w1 i hi).2, getD_map_range _ _ i hi, (r2 i (by omega)).2]
    exact refWritten_congr _ _ _ i (fun j hj => hinR (i + 1) j hj (by omega))
  · simp
  · simp

theorem tdiv_even (m : Nat) : Int.tdiv (2 * (m : Int)) 2 = (m : Int) := by
  rw [Int.tdiv_eq_ediv (by omega) (by norm_num)]
  omega

theorem tdiv_odd (m : Nat) : Int.tdiv (2 * (m : Int) + 1) 2 = (m : Int) := by
  rw [Int.tdiv_eq_ediv (by omega) (by norm_num)]
  omega

/-- C18. Interleaved path equals planar path: for an initialized, enabled processor and
an interleaved buffer `[L0, R0, L1, R1, ...]` of `2m` samples, `processInterleavedStereo`
returns, leaving in cells `2i` and `2i + 1` of the buffer the samples that
`processSeparateChannels` leaves in `left[i]` and `right[i]` when started from the same
processor on two non-overlapping channel arrays holding `L` and `R`, and leaving the
Equalizer in the same final state. -/
theorem interleaved_equals_planar (p : AudioProcessor α) (m : Nat) (mem1 mem2 : Mem α)
    (buffer l r : Nat) (hi : p.initialized = true)
    (he : AudioProcessor.isEQEnabled p = true)
    (hdis : ∀ i j, i < m → j < m → l + i ≠ r + j)
    (hL : ∀ i, i < m → mem2 (l + i) = mem1 (buffer + i * 2))
    (hR : ∀ i, i < m → mem2 (r + i) = mem1 (buffer + (i * 2 + 1))) :
    ∃ q out,
      AudioProcessor.processInterleavedStereo p mem1 buffer (2 * (m : Int)) = some (q, out) ∧
        q.equalizer =
          (AudioProcessor.processSeparateChannels p mem2 l r (m : Int)).1.equalizer ∧
        ∀ i, i < m →
          out (buffer + i * 2) =
              (AudioProcessor.processSeparateChannels p mem2 l r (m : Int)).2 (l + i) ∧
            out (buffer + (i * 2 + 1)) =
              (AudioProcessor.processSeparateChannels p mem2 l r (m : Int)).2 (r + i) := by
  have hen : p.equalizer.enabled = true := he
  have hen2 : p.equalizer.isEnabled = true := he
  obtain ⟨q, out, hq, hqe, hout, _⟩ :=
    processInterleavedStereo_ref p mem1 buffer (2 * (m : Int)) (by omega) hi hen
  have hm : (Int.tdiv (2 * (m : Int)) 2).toNat = m := by
    rw [tdiv_even]
    exact Int.toNat_ofNat m
  rw [hm] at hqe hout
  obtain ⟨s1, s2, _⟩ := processStereo_ref p.equalizer mem2 l r (m : Int) hen
    (fun i j hi hj => hdis i j (by omega) (by omega))
  have hsep : AudioProcessor.processSeparateChannels p mem2 l r (m : Int) =
      ({ p with equalizer := (Equalizer.processStereo p.equalizer mem2 l r (m : Int)).1 },
        (Equalizer.processStereo p.equalizer mem2 l r (m : Int)).2) := by
    unfold AudioProcessor.processSeparateChannels
    simp [hi, hen2]
  refine ⟨q, out, hq, ?_, fun i him => ?_⟩
  · rw [hqe, hsep]
    show _ = (Equalizer.processStereo p.equalizer mem2 l r (m : Int)).1
    rw [s1, Int.toNat_ofNat,
      refChannelState_congr p.equalizer.leftFilters (fun i => mem2 (l + i))
        (fun i => mem1 (buffer + i * 2)) m (fun i hi => hL i hi),
      refChannelState_congr p.equalizer.rightFilters (fun i => mem2 (r + i))
        (fun i => mem1 (buffer + (i * 2 + 1))) m (fun i hi => hR i hi)]
  · rw [hsep]
    show out (buffer + i * 2) = (Equalizer.processStereo p.equalizer mem2 l r (m : Int)).2 (l + i) ∧
      out (buffer + (i * 2 + 1)) =
        (Equalizer.processStereo p.equalizer mem2 l r (m : Int)).2 (r + i)
    rw [(hout i him).1, (hout i him).2, (s2 i (by omega)).1, (s2 i (by omega)).2]
    exact ⟨(refWritten_congr _ _ _ i (fun j hj => hL j (by omega))).symm,
      (refWritten_congr _ _ _ i (fun j hj => hR j (by omega))).symm⟩

/-- C19. Odd sample counts: for every processor and `m ≥ 0`,
`processInterleavedStereo(buf, 2m + 1)` returns the same processor state (Equalizer
included) and the same sample memory as `processInterleavedStereo(buf, 2m)`, and leaves
the last sample `buf[2m]` unchanged. -/
theorem odd_count_drops_last (p : AudioProcessor α) (mem : Mem α) (buffer m : Nat) :
    AudioProcessor.processInterleavedStereo p mem buffer (2 * (m : Int) + 1) =
        AudioProcessor.processInterleavedStereo p mem buffer (2 * (m : Int)) ∧
      ∃ q out,
        AudioProcessor.processInterleavedStereo p mem buffer (2 * (m : Int) + 1) =
            some (q, out) ∧
          out (buffer + 2 * m) = mem (buffer + 2 * m) := by
  constructor
  · unfold AudioProcessor.processInterleavedStereo
    simp only [tdiv_even, tdiv_odd]
  · by_cases hc : (!p.initialized || !p.equalizer.isEnabled) = true
    · refine ⟨p, mem, ?_, rfl⟩
      unfold AudioProcessor.processInterleavedStereo
      rw [if_pos hc]
    · have hi : p.initialized = true := by
        cases h : p.initialized with
        | true => rfl
        | false => simp [h] at hc
      have he : p.equalizer.enabled = true := by
        cases h : p.equalizer.enabled with
        | true => rfl
        | false => simp [Equalizer.isEnabled, h] at hc
      obtain ⟨q, out, hq, _, _, hframe, _⟩ :=
        processInterleavedStereo_ref p mem buffer (2 * (m : Int) + 1) (by omega) hi he
      refine ⟨q, out, hq, hframe _ (fun j hj => ?_)⟩
      rw [tdiv_odd, Int.toNat_ofNat] at hj
      omega

/-! ## Further instances at concrete inputs -/

/-- C11 (instance). Two frames on a fresh Equalizer at 48000 Hz, channels at addresses
0 and 2: the sample left in `left[1]` is the clamped cascade output of frame 1 on the
filters left by frame 0. -/
theorem processStereo_reference_witness :
    (Equalizer.processStereo (Equalizer.new (CMath.mk (fun a b : ℝ => a ^ b) Real.sin Real.cos Real.sqrt) 48000) (fun a => if a < 2 then 1 / 2 else -1 / 4) 0 2 2).2 (0 + 1) =
      max (-1) (min 1 (refCascadeOutput
        (refChannelState ((Equalizer.new (CMath.mk (fun a b : ℝ => a ^ b) Real.sin Real.cos Real.sqrt) 48000)).leftFilters
          (fun i => (fun a : Nat => if a < 2 then (1 / 2 : ℝ) else -1 / 4) (0 + i)) 1)
        ((fun a : Nat => if a < 2 then (1 / 2 : ℝ) else -1 / 4) (0 + 1)))) :=
  ((processStereo_reference (Equalizer.new (CMath.mk (fun a b : ℝ => a ^ b) Real.sin Real.cos Real.sqrt) 48000) (fun a => if a < 2 then 1 / 2 else -1 / 4) 0 2 2 rfl
    (fun i j hi _ => by omega)).2.1 1 (by norm_num)).1

/-- C17 (instance). A processor that was constructed, given the "rock" preset and
disabled, but never initialized, returns from `processInterleavedStereo(buf, 4)` with
processor and samples unchanged. -/
theorem uninitialized_noop_witness :
    NeverInitialized (CMath.mk (fun a b : ℝ => a ^ b) Real.sin Real.cos Real.sqrt)
        (AudioProcessor.setEQEnabled
          (AudioProcessor.applyEQPreset (CMath.mk (fun a b : ℝ => a ^ b) Real.sin Real.cos Real.sqrt) (AudioProcessor.new (CMath.mk (fun a b : ℝ => a ^ b) Real.sin Real.cos Real.sqrt)) "rock") false) ∧
      AudioProcessor.processInterleavedStereo
          (AudioProcessor.setEQEnabled
            (AudioProcessor.applyEQPreset (CMath.mk (fun a b : ℝ => a ^ b) Real.sin Real.cos Real.sqrt) (AudioProcessor.new (CMath.mk (fun a b : ℝ => a ^ b) Real.sin Real.cos Real.sqrt)) "rock") false)
          (fun a => if a < 2 then 1 / 2 else -1 / 4) 0 4 =
        some (AudioProcessor.setEQEnabled
            (AudioProcessor.applyEQPreset (CMath.mk (fun a b : ℝ => a ^ b) Real.sin Real.cos Real.sqrt) (AudioProcessor.new (CMath.mk (fun a b : ℝ => a ^ b) Real.sin Real.cos Real.sqrt)) "rock") false,
          fun a => if a < 2 then 1 / 2 else -1 / 4) :=
  ⟨NeverInitialized.setEQEnabled _ false
      (NeverInitialized.applyEQPreset _ "rock" NeverInitialized.init),
    (uninitialized_noop (CMath.mk (fun a b : ℝ => a ^ b) Real.sin Real.cos Real.sqrt) _
      (NeverInitialized.setEQEnabled _ false
        (NeverInitialized.applyEQPreset _ "rock" NeverInitialized.init))
      (fun a => if a < 2 then 1 / 2 else -1 / 4) 0 0 2 4).1⟩

/-- C18 (instance). A processor initialized at 48000 Hz, the interleaved buffer
`[1/2, -1/4, 1/2, -1/4]` at address 0 against the planar channels `[1/2, 1/2]` at
address 0 and `[-1/4, -1/4]` at address 2. -/
theorem interleaved_equals_planar_witness :
    ∃ q out,
      AudioProcessor.processInterleavedStereo ( AudioProcessor.initialize (CMath.mk (fun a b : ℝ => a ^ b) Real.sin Real.cos Real.sqrt) (AudioProcessor.new (CMath.mk (fun a b : ℝ => a ^ b) Real.sin Real.cos Real.sqrt)) 48000)
          (fun a => if a % 2 = 0 then 1 / 2 else -1 / 4) 0 (2 * ((2 : Nat) : Int)) =
          some (q, out) ∧
        q.equalizer =
          (AudioProcessor.processSeparateChannels ( AudioProcessor.initialize (CMath.mk (fun a b : ℝ => a ^ b) Real.sin Real.cos Real.sqrt) (AudioProcessor.new (CMath.mk (fun a b : ℝ => a ^ b) Real.sin Real.cos Real.sqrt)) 48000)
            (fun a => if a < 2 then 1 / 2 else -1 / 4) 0 2 ((2 : Nat) : Int)).1.equalizer ∧
        ∀ i, i < 2 →
          out (0 + i * 2) =
              (AudioProcessor.processSeparateChannels ( AudioProcessor.initialize (CMath.mk (fun a b : ℝ => a ^ b) Real.sin Real.cos Real.sqrt) (AudioProcessor.new (CMath.mk (fun a b : ℝ => a ^ b) Real.sin Real.cos Real.sqrt)) 48000)
                (fun a => if a < 2 then 1 / 2 else -1 / 4) 0 2 ((2 : Nat) : Int)).2 (0 + i) ∧
            out (0 + (i * 2 + 1)) =
              (AudioProcessor.processSeparateChannels ( AudioProcessor.initialize (CMath.mk (fun a b : ℝ => a ^ b) Real.sin Real.cos Real.sqrt) (AudioProcessor.new (CMath.mk (fun a b : ℝ => a ^ b) Real.sin Real.cos Real.sqrt)) 48000)
                (fun a => if a < 2 then 1 / 2 else -1 / 4) 0 2 ((2 : Nat) : Int)).2 (2 + i) :=
  interleaved_equals_planar ( AudioProcessor.initialize (CMath.mk (fun a b : ℝ => a ^ b) Real.sin Real.cos Real.sqrt) (AudioProcessor.new (CMath.mk (fun a b : ℝ => a ^ b) Real.sin Real.cos Real.sqrt)) 48000) 2 (fun a => if a % 2 = 0 then 1 / 2 else -1 / 4)
    (fun a => if a < 2 then 1 / 2 else -1 / 4) 0 0 2 rfl rfl
    (fun i j hi _ => by omega)
    (fun i hi => by
      have h1 : 0 + i < 2 := by omega
      have h2 : (0 + i * 2) % 2 = 0 := by omega
      simp only [h1, h2, if_true])
    (fun i hi => by
      have h1 : ¬ 2 + i < 2 := by omega
      have h2 : ¬ (0 + (i * 2 + 1)) % 2 = 0 := by omega
      simp only [h1, h2, if_false])

/-! ## Frames of the parameter setters -/

/-- C24. Parameter changes keep filter history: `setType`, `setFrequency`, `setGain` and
`setQ` leave the state scalars `x1, x2, y1, y2` unchanged for every filter state and
argument; `reset` sets the four scalars to 0 and leaves the coefficients and the design
parameters unchanged. -/
theorem setters_keep_history (M : CMath α) (f : BiquadFilter α) (t : FilterType)
    (freq sr g q : α) :
    ((BiquadFilter.setType M f t).x1 = f.x1 ∧ (BiquadFilter.setType M f t).x2 = f.x2 ∧
        (BiquadFilter.setType M f t).y1 = f.y1 ∧ (BiquadFilter.setType M f t).y2 = f.y2) ∧
      ((BiquadFilter.setFrequency M f freq sr).x1 = f.x1 ∧
        (BiquadFilter.setFrequency M f freq sr).x2 = f.x2 ∧
        (BiquadFilter.setFrequency M f freq sr).y1 = f.y1 ∧
        (BiquadFilter.setFrequency M f freq sr).y2 = f.y2) ∧
      ((BiquadFilter.setGain M f g).x1 = f.x1 ∧ (BiquadFilter.setGain M f g).x2 = f.x2 ∧
        (BiquadFilter.setGain M f g).y1 = f.y1 ∧ (BiquadFilter.setGain M f g).y2 = f.y2) ∧
      ((BiquadFilter.setQ M f q).x1 = f.x1 ∧ (BiquadFilter.setQ M f q).x2 = f.x2 ∧
        (BiquadFilter.setQ M f q).y1 = f.y1 ∧ (BiquadFilter.setQ M f q).y2 = f.y2) ∧
      BiquadFilter.reset f =
        { a0 := f.a0, a1 := f.a1, a2 := f.a2, b0 := f.b0, b1 := f.b1, b2 := f.b2
          x1 := 0, x2 := 0, y1 := 0, y2 := 0
          type := f.type, frequency := f.frequency, sampleRate := f.sampleRate
          gainDB := f.gainDB, Q := f.Q } :=
  ⟨⟨calc_x1 M _, calc_x2 M _, calc_y1 M _, calc_y2 M _⟩,
    ⟨calc_x1 M _, calc_x2 M _, calc_y1 M _, calc_y2 M _⟩,
    ⟨calc_x1 M _, calc_x2 M _, calc_y1 M _, calc_y2 M _⟩,
    ⟨calc_x1 M _, calc_x2 M _, calc_y1 M _, calc_y2 M _⟩, rfl⟩

theorem setGain_frame (M : CMath α) (f : BiquadFilter α) (g : α) :
    ((BiquadFilter.setGain M f g).x1 = f.x1 ∧ (BiquadFilter.setGain M f g).x2 = f.x2 ∧
        (BiquadFilter.setGain M f g).y1 = f.y1 ∧ (BiquadFilter.setGain M f g).y2 = f.y2) ∧
      (BiquadFilter.setGain M f g).type = f.type ∧
      (BiquadFilter.setGain M f g).frequency = f.frequency ∧
      (BiquadFilter.setGain M f g).sampleRate = f.sampleRate ∧
      (BiquadFilter.setGain M f g).Q = f.Q :=
  ⟨⟨calc_x1 M _, calc_x2 M _, calc_y1 M _, calc_y2 M _⟩, calc_type M _, calc_frequency M _,
    calc_sampleRate M _, calc_Q M _⟩

/-- C27. Frame of `setBandGain`: for a band `b` in `0..9` and any gain, the call leaves
unchanged the sample rate, the enabled flag, the stored gain and both filters of every
other band, and - in the two filters of band `b` - the state scalars, the kind, the
frequency, the sample rate and Q; what it writes is `currentGains[b]` and the gain and
coefficients of the two filters of band `b`. -/
theorem setBandGain_frame (M : CMath α) (e : Equalizer α) (b : Fin NUM_BANDS) (g : α) :
    (Equalizer.setBandGain M e ((b.val : Nat) : Int) g).sampleRate = e.sampleRate ∧
      (Equalizer.setBandGain M e ((b.val : Nat) : Int) g).enabled = e.enabled ∧
      (∀ j : Fin NUM_BANDS, j ≠ b →
        (Equalizer.setBandGain M e ((b.val : Nat) : Int) g).currentGains j =
            e.currentGains j ∧
          (Equalizer.setBandGain M e ((b.val : Nat) : Int) g).leftFilters j =
            e.leftFilters j ∧
          (Equalizer.setBandGain M e ((b.val : Nat) : Int) g).rightFilters j =
            e.rightFilters j) ∧
      (Equalizer.setBandGain M e ((b.val : Nat) : Int) g).currentGains b =
        max (-12) (min 12 g) ∧
      (Equalizer.setBandGain M e ((b.val : Nat) : Int) g).leftFilters b =
        BiquadFilter.setGain M (e.leftFilters b) (max (-12) (min 12 g)) ∧
      (Equalizer.setBandGain M e ((b.val : Nat) : Int) g).rightFilters b =
        BiquadFilter.setGain M (e.rightFilters b) (max (-12) (min 12 g)) ∧
      (∀ f : BiquadFilter α, ∀ x : α,
        ((BiquadFilter.setGain M f x).x1 = f.x1 ∧ (BiquadFilter.setGain M f x).x2 = f.x2 ∧
            (BiquadFilter.setGain M f x).y1 = f.y1 ∧ (BiquadFilter.setGain M f x).y2 = f.y2) ∧
          (BiquadFilter.setGain M f x).type = f.type ∧
          (BiquadFilter.setGain M f x).frequency = f.frequency ∧
          (BiquadFilter.setGain M f x).sampleRate = f.sampleRate ∧
          (BiquadFilter.setGain M f x).Q = f.Q) := by
  rw [setBandGain_band, stdMax_eq_max, stdMin_eq_min]
  refine ⟨rfl, rfl, fun j hj => ⟨?_, ?_, ?_⟩, ?_, ?_, ?_, fun f x => setGain_frame M f x⟩
  · exact Function.update_noteq hj _ _
  · exact Function.update_noteq hj _ _
  · exact Function.update_noteq hj _ _
  · exact Function.update_same _ _ _
  · exact Function.update_same _ _ _
  · exact Function.update_same _ _ _

/-! ## Scratch buffer sizes -/

theorem processInterleavedStereo_initialized (p q : AudioProcessor α) (mem out : Mem α)
    (buffer : Nat) (n : Int)
    (h : AudioProcessor.processInterleavedStereo p mem buffer n = some (q, out)) :
    q.initialized = p.initialized := by
  unfold AudioProcessor.processInterleavedStereo at h
  split at h
  · simp only [Option.some.injEq, Prod.mk.injEq] at h
    rw [← h.1]
  · by_cases hneg : Int.tdiv n 2 < 0
    · simp [hneg] at h
    · simp only [hneg, if_false, Option.some.injEq, Prod.mk.injEq] at h
      rw [← h.1]

theorem processInterleavedStereo_shape (p : AudioProcessor α) (mem : Mem α) (buffer : Nat)
    (n : Int) (hn : 0 ≤ n) (hi : p.initialized = true) (he : p.equalizer.enabled = true) :
    ∃ q out, AudioProcessor.processInterleavedStereo p mem buffer n = some (q, out) ∧
      q.leftBuffer.length = (Int.tdiv n 2).toNat ∧
      q.rightBuffer.length = (Int.tdiv n 2).toNat ∧
      q.initialized = true ∧ q.equalizer.enabled = true := by
  obtain ⟨q, out, hq, hqe, _, _, hl, hr⟩ := processInterleavedStereo_ref p mem buffer n hn hi he
  refine ⟨q, out, hq, hl, hr, ?_, ?_⟩
  · rw [processInterleavedStereo_initialized p q mem out buffer n hq]
    exact hi
  · rw [hqe]
    exact he

/-- C21 (as amended). For every `processInterleavedStereo` call with `numSamples ≥ 0` on
an initialized, enabled AudioProcessor, the call returns, leaves the processor
initialized and enabled, and the size of each scratch buffer after the call is the frame
count `numSamples / 2` of that call. -/
theorem scratch_size_is_frame_count (p : AudioProcessor α) (mem : Mem α) (buffer : Nat)
    (n : Int) (hn : 0 ≤ n) (hi : p.initialized = true)
    (he : AudioProcessor.isEQEnabled p = true) :
    ∃ q out, AudioProcessor.processInterleavedStereo p mem buffer n = some (q, out) ∧
      q.leftBuffer.length = (Int.tdiv n 2).toNat ∧
      q.rightBuffer.length = (Int.tdiv n 2).toNat ∧
      q.initialized = true ∧ AudioProcessor.isEQEnabled q = true :=
  processInterleavedStereo_shape p mem buffer n hn hi he

/-- C21 (counterexample). On a processor initialized at 48000 Hz, a call with 8 samples
(4 frames) followed by a call with 4 samples (2 frames): the scratch buffers have size 4
after the first call and size 2 after the second, below the largest frame count seen. -/
theorem scratch_buffers_shrink :
    ∃ q1 out1 q2 out2,
      AudioProcessor.processInterleavedStereo ( AudioProcessor.initialize (CMath.mk (fun a b : ℝ => a ^ b) Real.sin Real.cos Real.sqrt) (AudioProcessor.new (CMath.mk (fun a b : ℝ => a ^ b) Real.sin Real.cos Real.sqrt)) 48000) (fun _ => 0) 0 8 = some (q1, out1) ∧
        AudioProcessor.processInterleavedStereo q1 out1 0 4 = some (q2, out2) ∧
        q1.leftBuffer.length = 4 ∧ q1.rightBuffer.length = 4 ∧
        q2.leftBuffer.length = 2 ∧ q2.rightBuffer.length = 2 := by
  obtain ⟨q1, out1, h1, l1, r1, i1, e1⟩ :=
    processInterleavedStereo_shape ( AudioProcessor.initialize (CMath.mk (fun a b : ℝ => a ^ b) Real.sin Real.cos Real.sqrt) (AudioProcessor.new (CMath.mk (fun a b : ℝ => a ^ b) Real.sin Real.cos Real.sqrt)) 48000) (fun _ => 0) 0 8 (by norm_num) rfl rfl
  obtain ⟨q2, out2, h2, l2, r2, _, _⟩ :=
    processInterleavedStereo_shape q1 out1 0 4 (by norm_num) i1 e1
  exact ⟨q1, out1, q2, out2, h1, h2, l1, r1, l2, r2⟩

/-- C21 (instance). A call with 8 samples on a processor initialized at 48000 Hz leaves
scratch buffers of size 4. -/
theorem scratch_size_is_frame_count_witness :
    ∃ q out,
      AudioProcessor.processInterleavedStereo ( AudioProcessor.initialize (CMath.mk (fun a b : ℝ => a ^ b) Real.sin Real.cos Real.sqrt) (AudioProcessor.new (CMath.mk (fun a b : ℝ => a ^ b) Real.sin Real.cos Real.sqrt)) 48000) (fun _ => 0) 0 8 = some (q, out) ∧
        q.leftBuffer.length = (Int.tdiv 8 2).toNat ∧
        q.rightBuffer.length = (Int.tdiv 8 2).toNat ∧
        q.initialized = true ∧ AudioProcessor.isEQEnabled q = true :=
  scratch_size_is_frame_count ( AudioProcessor.initialize (CMath.mk (fun a b : ℝ => a ^ b) Real.sin Real.cos Real.sqrt) (AudioProcessor.new (CMath.mk (fun a b : ℝ => a ^ b) Real.sin Real.cos Real.sqrt)) 48000) (fun _ => 0) 0 8 (by norm_num) rfl rfl

/-! ## The design invariant over reachable states -/

theorem pred_update {β : Type} (P : Fin NUM_BANDS → β → Prop)
    (lf : Fin NUM_BANDS → β) (b : Fin NUM_BANDS) (f : β)
    (h : ∀ i, P i (lf i)) (hf : P b f) (i : Fin NUM_BANDS) :
    P i (Function.update lf b f i) := by
  by_cases hib : i = b
  · subst hib
    rw [Function.update_same]
    exact hf
  · rw [Function.update_noteq hib]
    exact h i

theorem bands_preserve (P : Fin NUM_BANDS → BiquadFilter α → Prop)
    (hP : ∀ i f x, P i f → P i (BiquadFilter.process f x).1) (bs : List (Fin NUM_BANDS))
    (st : (Fin NUM_BANDS → BiquadFilter α) × (Fin NUM_BANDS → BiquadFilter α) × α × α)
    (hl : ∀ i, P i (st.1 i)) (hr : ∀ i, P i (st.2.1 i)) :
    (∀ i, P i ((bs.foldl bandStep st).1 i)) ∧ (∀ i, P i ((bs.foldl bandStep st).2.1 i)) :=
  foldl_invariant bandStep (fun s => (∀ i, P i (s.1 i)) ∧ (∀ i, P i (s.2.1 i)))
    (fun _ b hs =>
      ⟨pred_update P _ b _ hs.1 (hP b _ _ (hs.1 b)),
        pred_update P _ b _ hs.2 (hP b _ _ (hs.2 b))⟩)
    bs st ⟨hl, hr⟩

theorem processStereo_preserve (P : Fin NUM_BANDS → BiquadFilter α → Prop)
    (hP : ∀ i f x, P i f → P i (BiquadFilter.process f x).1) (e : Equalizer α)
    (mem : Mem α) (l r : Nat) (n : Int)
    (hl : ∀ i, P i (e.leftFilters i)) (hr : ∀ i, P i (e.rightFilters i)) :
    (∀ i, P i ((Equalizer.processStereo e mem l r n).1.leftFilters i)) ∧
      (∀ i, P i ((Equalizer.processStereo e mem l r n).1.rightFilters i)) := by
  cases he : e.enabled with
  | false =>
    rw [processStereo_disabled e mem l r n he]
    exact ⟨hl, hr⟩
  | true =>
    rw [processStereo_enabled e mem l r n he]
    exact foldl_invariant (processFrame l r)
      (fun s => (∀ i, P i (s.1.leftFilters i)) ∧ (∀ i, P i (s.1.rightFilters i)))
      (fun s i hs => bands_preserve P hP (List.finRange NUM_BANDS)
        (s.1.leftFilters, s.1.rightFilters, s.2 (l + i), s.2 (r + i)) hs.1 hs.2)
      _ (e, mem) ⟨hl, hr⟩

theorem processStereo_gains (e : Equalizer α) (mem : Mem α) (l r : Nat) (n : Int) :
    (Equalizer.processStereo e mem l r n).1.currentGains = e.currentGains ∧
      (Equalizer.processStereo e mem l r n).1.sampleRate = e.sampleRate := by
  cases he : e.enabled with
  | false =>
    rw [processStereo_disabled e mem l r n he]
    exact ⟨rfl, rfl⟩
  | true =>
    rw [processStereo_enabled e mem l r n he]
    exact foldl_invariant (processFrame l r)
      (fun s => s.1.currentGains = e.currentGains ∧ s.1.sampleRate = e.sampleRate)
      (fun _ _ hs => hs) _ (e, mem) ⟨rfl, rfl⟩

theorem filterInvariant_setGain (M : CMath α) (sr : α) (i : Fin NUM_BANDS)
    (f : BiquadFilter α) (g : α) (h : BandDesign sr i f) :
    FilterInvariant M sr i g (BiquadFilter.setGain M f g) :=
  ⟨setGain_design M sr i f g h, calc_gainDB M _, calc_normalized M _⟩

theorem filterInvariant_reset (M : CMath α) (sr : α) (i : Fin NUM_BANDS) (g : α)
    (f : BiquadFilter α) (h : FilterInvariant M sr i g f) :
    FilterInvariant M sr i g (BiquadFilter.reset f) := h

theorem filterInvariant_process (M : CMath α) (sr : α) (i : Fin NUM_BANDS) (g : α)
    (f : BiquadFilter α) (x : α) (h : FilterInvariant M sr i g f) :
    FilterInvariant M sr i g (BiquadFilter.process f x).1 := h

theorem new_invariant (M : CMath α) (sr : α) : EqualizerInvariant M sr (Equalizer.new M sr) := by
  refine ⟨rfl, fun i => ⟨⟨?_, ?_⟩, ?_, ?_⟩⟩
  · show (-12 : α) ≤ 0
    norm_num
  · show (0 : α) ≤ 12
    norm_num
  · exact ⟨initialFilter_design M sr i, initialFilter_gainDB M sr i, calc_normalized M _⟩
  · exact ⟨initialFilter_design M sr i, initialFilter_gainDB M sr i, calc_normalized M _⟩

theorem setBandGain_invariant (M : CMath α) (sr : α) (e : Equalizer α) (i : Int) (g : α)
    (h : EqualizerInvariant M sr e) :
    EqualizerInvariant M sr (Equalizer.setBandGain M e i g) := by
  by_cases hi : i < 0 ∨ i ≥ NUM_BANDS
  · rw [setBandGain_outOfRange M e i g hi]
    exact h
  · rw [int_eq_band i hi, setBandGain_band]
    refine ⟨h.1, fun j => ?_⟩
    by_cases hjb : j = bandOfInt i hi
    · subst hjb
      simp only [Function.update_same]
      exact ⟨clamp_bounds 12 g (by norm_num),
        filterInvariant_setGain M sr _ _ _ (h.2 _).2.1.1,
        filterInvariant_setGain M sr _ _ _ (h.2 _).2.2.1⟩
    · simp only [Function.update_noteq hjb]
      exact h.2 j

theorem applyPreset_invariant (M : CMath α) (sr : α) (e : Equalizer α) (name : String)
    (h : EqualizerInvariant M sr e) :
    EqualizerInvariant M sr (Equalizer.applyPreset M e name) := by
  unfold Equalizer.applyPreset
  cases (PRESETS α).lookup name with
  | none => exact h
  | some gains =>
    exact foldl_invariant _ (EqualizerInvariant M sr)
      (fun s i hs => setBandGain_invariant M sr s _ _ hs) _ e h

theorem setEnabled_invariant (M : CMath α) (sr : α) (e : Equalizer α) (en : Bool)
    (h : EqualizerInvariant M sr e) : EqualizerInvariant M sr (Equalizer.setEnabled e en) := by
  cases en with
  | true =>
    rw [setEnabled_true_eq]
    exact h
  | false =>
    rw [setEnabled_false_eq]
    exact ⟨h.1, fun i => ⟨(h.2 i).1, filterInvariant_reset M sr i _ _ (h.2 i).2.1,
      filterInvariant_reset M sr i _ _ (h.2 i).2.2⟩⟩

theorem reset_invariant (M : CMath α) (sr : α) (e : Equalizer α)
    (h : EqualizerInvariant M sr e) : EqualizerInvariant M sr (Equalizer.reset M e) := by
  rw [reset_eq]
  refine ⟨h.1, fun i => ⟨⟨?_, ?_⟩, ?_, ?_⟩⟩
  · show (-12 : α) ≤ 0
    norm_num
  · show (0 : α) ≤ 12
    norm_num
  · exact filterInvariant_reset M sr i _ _
      (filterInvariant_setGain M sr i _ 0 (h.2 i).2.1.1)
  · exact filterInvariant_reset M sr i _ _
      (filterInvariant_setGain M sr i _ 0 (h.2 i).2.2.1)

theorem processStereo_invariant (M : CMath α) (sr : α) (e : Equalizer α) (mem : Mem α)
    (l r : Nat) (n : Int) (h : EqualizerInvariant M sr e) :
    EqualizerInvariant M sr (Equalizer.processStereo e mem l r n).1 := by
  obtain ⟨hg, hs⟩ := processStereo_gains e mem l r n
  obtain ⟨pl, pr⟩ := processStereo_preserve
    (fun i f => FilterInvariant M sr i (e.currentGains i) f)
    (fun i f x hf => filterInvariant_process M sr i _ f x hf) e mem l r n
    (fun i => (h.2 i).2.1) (fun i => (h.2 i).2.2)
  refine ⟨hs.trans h.1, fun i => ?_⟩
  rw [hg]
  exact ⟨(h.2 i).1, pl i, pr i⟩

theorem reachable_invariant (M : CMath α) (sr : α) (e : Equalizer α)
    (h : Reachable M sr e) : EqualizerInvariant M sr e := by
  induction h with
  | init => exact new_invariant M sr
  | setBandGain e i g _ ih => exact setBandGain_invariant M sr e i g ih
  | applyPreset e name _ ih => exact applyPreset_invariant M sr e name ih
  | setEnabled e en _ ih => exact setEnabled_invariant M sr e en ih
  | reset e _ ih => exact reset_invariant M sr e ih
  | processStereo e mem l r n _ ih => exact processStereo_invariant M sr e mem l r n ih

theorem normalized_coefficients_eq (M : CMath α) (f g : BiquadFilter α)
    (hf : NormalizedCookbook M f) (hg : NormalizedCookbook M g) (ht : f.type = g.type)
    (hfr : f.frequency = g.frequency) (hs : f.sampleRate = g.sampleRate)
    (hgn : f.gainDB = g.gainDB) (hq : f.Q = g.Q) :
    f.a0 = g.a0 ∧ f.a1 = g.a1 ∧ f.a2 = g.a2 ∧ f.b0 = g.b0 ∧ f.b1 = g.b1 ∧ f.b2 = g.b2 := by
  obtain ⟨f0, f1, f2, f3, f4, f5⟩ := hf
  obtain ⟨g0, g1, g2, g3, g4, g5⟩ := hg
  rw [ht, hfr, hs, hgn, hq] at f1 f2 f3 f4 f5
  exact ⟨f0.trans g0.symm, f4.trans g4.symm, f5.trans g5.symm, f1.trans g1.symm,
    f2.trans g2.symm, f3.trans g3.symm⟩

theorem bandType_cases (i : Fin NUM_BANDS) :
    (i.val = 0 → bandType i = FilterType.LOWSHELF) ∧
      (i.val = 9 → bandType i = FilterType.HIGHSHELF) ∧
      (1 ≤ i.val → i.val ≤ 8 → bandType i = FilterType.PEAKING) := by
  unfold bandType
  refine ⟨fun h => by simp [h], fun h => by simp [h], fun h1 h2 => ?_⟩
  have h9 : NUM_BANDS - 1 = 9 := rfl
  rw [if_neg (by omega), h9, if_neg (by omega)]

theorem band_frequency_getElem (i : Fin NUM_BANDS) :
    (BAND_FREQUENCIES α)[i.val]? = some ((BAND_FREQUENCIES α).getD i.val 0) := by
  rw [List.getD_eq_getElem?_getD]
  have hlen : i.val < (BAND_FREQUENCIES α).length := i.isLt
  rw [List.getElem?_eq_getElem hlen]
  rfl

/-- C23. Design invariant: in every state reachable from `Equalizer(sr)`, for every band
`i` the stored gain lies in `[-12, 12]`, and the left and the right filter of band `i`
both have that gain, the frequency `BAND_FREQUENCIES[i]`, the sample rate `sr`, Q = 1
and the kind low-shelf for `i = 0`, high-shelf for `i = 9`, peaking for `1 ≤ i ≤ 8`;
their six coefficients are equal. -/
theorem design_invariant (M : CMath α) (sr : α) (e : Equalizer α) (h : Reachable M sr e)
    (i : Fin NUM_BANDS) :
    (-12 ≤ e.currentGains i ∧ e.currentGains i ≤ 12) ∧
      ((e.leftFilters i).gainDB = e.currentGains i ∧
        (e.rightFilters i).gainDB = e.currentGains i) ∧
      ((BAND_FREQUENCIES α)[i.val]? = some (e.leftFilters i).frequency ∧
        (BAND_FREQUENCIES α)[i.val]? = some (e.rightFilters i).frequency) ∧
      ((e.leftFilters i).sampleRate = sr ∧ (e.rightFilters i).sampleRate = sr) ∧
      ((e.leftFilters i).Q = 1 ∧ (e.rightFilters i).Q = 1) ∧
      ((i.val = 0 → (e.leftFilters i).type = FilterType.LOWSHELF ∧
          (e.rightFilters i).type = FilterType.LOWSHELF) ∧
        (i.val = 9 → (e.leftFilters i).type = FilterType.HIGHSHELF ∧
          (e.rightFilters i).type = FilterType.HIGHSHELF) ∧
        (1 ≤ i.val → i.val ≤ 8 → (e.leftFilters i).type = FilterType.PEAKING ∧
          (e.rightFilters i).type = FilterType.PEAKING)) ∧
      ((e.leftFilters i).a0 = (e.rightFilters i).a0 ∧
        (e.leftFilters i).a1 = (e.rightFilters i).a1 ∧
        (e.leftFilters i).a2 = (e.rightFilters i).a2 ∧
        (e.leftFilters i).b0 = (e.rightFilters i).b0 ∧
        (e.leftFilters i).b1 = (e.rightFilters i).b1 ∧
        (e.leftFilters i).b2 = (e.rightFilters i).b2) := by
  obtain ⟨_, hinv⟩ := reachable_invariant M sr e h
  obtain ⟨hg, ⟨⟨lt, lf, ls, lq⟩, lg, ln⟩, ⟨⟨rt, rf, rs, rq⟩, rg, rn⟩⟩ := hinv i
  obtain ⟨b0, b9, bp⟩ := bandType_cases i
  refine ⟨hg, ⟨lg, rg⟩, ⟨?_, ?_⟩, ⟨ls, rs⟩, ⟨lq, rq⟩, ⟨?_, ?_, ?_⟩, ?_⟩
  · rw [lf]
    exact band_frequency_getElem i
  · rw [rf]
    exact band_frequency_getElem i
  · exact fun h0 => ⟨lt.trans (b0 h0), rt.trans (b0 h0)⟩
  · exact fun h9 => ⟨lt.trans (b9 h9), rt.trans (b9 h9)⟩
  · exact fun h1 h8 => ⟨lt.trans (bp h1 h8), rt.trans (bp h1 h8)⟩
  · exact normalized_coefficients_eq M _ _ ln rn (lt.trans rt.symm) (lf.trans rf.symm)
      (ls.trans rs.symm) (lg.trans rg.symm) (lq.trans rq.symm)

/-! ## Channel independence -/

/-- C25. Channel independence: for two runs of `processStereo` on enabled Equalizers, each
on two channel arrays that do not overlap, if the runs agree on the left cascade and on
the `n` left input samples, then they agree on the `n` left output samples and on the
final left cascade, whatever the right cascades and right inputs are; symmetrically for
the right channel. -/
theorem channel_independence (e1 e2 : Equalizer α) (mem1 mem2 : Mem α)
    (l1 r1 l2 r2 : Nat) (n : Int) (he1 : e1.enabled = true) (he2 : e2.enabled = true)
    (hdis1 : ∀ i j : Nat, (i : Int) < n → (j : Int) < n → l1 + i ≠ r1 + j)
    (hdis2 : ∀ i j : Nat, (i : Int) < n → (j : Int) < n → l2 + i ≠ r2 + j) :
    (e1.leftFilters = e2.leftFilters →
        (∀ i : Nat, (i : Int) < n → mem1 (l1 + i) = mem2 (l2 + i)) →
        (∀ t : Nat, (t : Int) < n →
          (Equalizer.processStereo e1 mem1 l1 r1 n).2 (l1 + t) =
            (Equalizer.processStereo e2 mem2 l2 r2 n).2 (l2 + t)) ∧
          (Equalizer.processStereo e1 mem1 l1 r1 n).1.leftFilters =
            (Equalizer.processStereo e2 mem2 l2 r2 n).1.leftFilters) ∧
      (e1.rightFilters = e2.rightFilters →
        (∀ i : Nat, (i : Int) < n → mem1 (r1 + i) = mem2 (r2 + i)) →
        (∀ t : Nat, (t : Int) < n →
          (Equalizer.processStereo e1 mem1 l1 r1 n).2 (r1 + t) =
            (Equalizer.processStereo e2 mem2 l2 r2 n).2 (r2 + t)) ∧
          (Equalizer.processStereo e1 mem1 l1 r1 n).1.rightFilters =
            (Equalizer.processStereo e2 mem2 l2 r2 n).1.rightFilters) := by
  obtain ⟨a1, a2, _⟩ := processStereo_ref e1 mem1 l1 r1 n he1 hdis1
  obtain ⟨b1, b2, _⟩ := processStereo_ref e2 mem2 l2 r2 n he2 hdis2
  constructor
  · intro hf hin
    refine ⟨fun t ht => ?_, ?_⟩
    · rw [(a2 t ht).1, (b2 t ht).1, hf]
      exact refWritten_congr _ _ _ t (fun i hi => hin i (by omega))
    · rw [a1, b1, hf]
      exact refChannelState_congr _ _ _ _ (fun i hi => hin i (by omega))
  · intro hf hin
    refine ⟨fun t ht => ?_, ?_⟩
    · rw [(a2 t ht).2, (b2 t ht).2, hf]
      exact refWritten_congr _ _ _ t (fun i hi => hin i (by omega))
    · rw [a1, b1, hf]
      exact refChannelState_congr _ _ _ _ (fun i hi => hin i (by omega))

/-! ## The mono capture path -/

theorem monoHookFrame_ref (buffer : Nat) (st : Equalizer α × Mem α) (i : Nat)
    (he : st.1.enabled = true) :
    monoHookFrame buffer st i =
      ({ st.1 with
          leftFilters := refCascadeState st.1.leftFilters (st.2 (buffer + i))
          rightFilters := refCascadeState st.1.rightFilters (st.2 (buffer + i)) },
        Function.update st.2 (buffer + i)
          (max (-1) (min 1 (refCascadeOutput st.1.rightFilters (st.2 (buffer + i)))))) := by
  show ((Equalizer.processStereo st.1 (fun _ => st.2 (buffer + i)) 0 0 1).1,
      Function.update st.2 (buffer + i)
        ((Equalizer.processStereo st.1 (fun _ => st.2 (buffer + i)) 0 0 1).2 0)) = _
  rw [processStereo_enabled _ _ _ _ _ he]
  have h1 : (1 : Int).toNat = 1 := rfl
  rw [h1, List.range_succ, List.range_zero, List.nil_append, List.foldl_cons, List.foldl_nil,
    processFrame_ref]
  simp only [Nat.add_zero, Function.update_same]

theorem monoFrames_ref (buffer : Nat) (e : Equalizer α) (mem0 : Mem α)
    (he : e.enabled = true) (k : Nat) :
    ((List.range k).foldl (monoHookFrame buffer) (e, mem0)).1 =
        { e with
          leftFilters := refChannelState e.leftFilters (fun i => mem0 (buffer + i)) k
          rightFilters := refChannelState e.rightFilters (fun i => mem0 (buffer + i)) k } ∧
      (∀ t, t < k → ((List.range k).foldl (monoHookFrame buffer) (e, mem0)).2 (buffer + t) =
        refWritten e.rightFilters (fun i => mem0 (buffer + i)) t) ∧
      ∀ a, (∀ t, t < k → a ≠ buffer + t) →
        ((List.range k).foldl (monoHookFrame buffer) (e, mem0)).2 a = mem0 a := by
  induction k with
  | zero =>
    exact ⟨rfl, fun t ht => absurd ht (Nat.not_lt_zero t), fun a _ => rfl⟩
  | succ k ih =>
    obtain ⟨ih1, ih2, ih3⟩ := ih
    rw [List.range_succ, List.foldl_append]
    simp only [List.foldl_cons, List.foldl_nil]
    have hen : ((List.range k).foldl (monoHookFrame buffer) (e, mem0)).1.enabled = true := by
      rw [ih1]
      exact he
    rw [monoHookFrame_ref buffer _ k hen]
    generalize (List.range k).foldl (monoHookFrame buffer) (e, mem0) = s at ih1 ih2 ih3
    obtain ⟨se, sm⟩ := s
    simp only at ih1 ih2 ih3
    subst ih1
    have hk : sm (buffer + k) = mem0 (buffer + k) := ih3 _ (fun t ht => by omega)
    simp only [hk]
    refine ⟨rfl, fun t ht => ?_, fun a ha => ?_⟩
    · by_cases htk : t = k
      · subst htk
        rw [Function.update_same]
        rfl
      · rw [Function.update_noteq (by omega)]
        exact ih2 t (by omega)
    · rw [Function.update_noteq (ha k (Nat.lt_succ_self k))]
      exact ih3 a (fun t ht => ha t (Nat.lt_succ_of_lt ht))

theorem processAudioBuffer_mono (h : SystemAudioHook α) (e : Equalizer α) (mem : Mem α)
    (buffer numFrames : Nat) (hq : h.equalizer = some e) (hen : h.enabled = true) :
    SystemAudioHook.processAudioBuffer h mem buffer numFrames 1 =
      (SystemAudioHook.mk
          (some ((List.range numFrames).foldl (monoHookFrame buffer) (e, mem)).1) h.enabled,
        ((List.range numFrames).foldl (monoHookFrame buffer) (e, mem)).2) := by
  unfold SystemAudioHook.processAudioBuffer
  rw [hq]
  simp [hen]

/-- C26 (as amended). Mono capture path: in `processAudioBuffer` with `channels == 1`, a
non-null enabled Equalizer and the hook enabled, every frame feeds the same sample
`buffer[i]` to both cascades, both cascades' states advance on it, and the value left in
`buffer[t]` is the clamped output of the right cascade (the left cascade's output,
stored first in the same cell, is overwritten); cells outside the buffer are unchanged. -/
theorem mono_path_semantics (h : SystemAudioHook α) (e : Equalizer α) (mem : Mem α)
    (buffer numFrames : Nat) (hq : h.equalizer = some e) (hen : h.enabled = true)
    (he : e.enabled = true) :
    (SystemAudioHook.processAudioBuffer h mem buffer numFrames 1).1.equalizer =
        some { e with
          leftFilters :=
            refChannelState e.leftFilters (fun i => mem (buffer + i)) numFrames
          rightFilters :=
            refChannelState e.rightFilters (fun i => mem (buffer + i)) numFrames } ∧
      (∀ t, t < numFrames →
        (SystemAudioHook.processAudioBuffer h mem buffer numFrames 1).2 (buffer + t) =
          max (-1) (min 1 (refCascadeOutput
            (refChannelState e.rightFilters (fun i => mem (buffer + i)) t)
            (mem (buffer + t))))) ∧
      ∀ a, (∀ t, t < numFrames → a ≠ buffer + t) →
        (SystemAudioHook.processAudioBuffer h mem buffer numFrames 1).2 a = mem a := by
  rw [processAudioBuffer_mono h e mem buffer numFrames hq hen]
  obtain ⟨h1, h2, h3⟩ := monoFrames_ref buffer e mem he numFrames
  exact ⟨congrArg some h1, h2, h3⟩

/-! ## A cascade with one active band -/

theorem refBandInput_single (fs : Fin NUM_BANDS → BiquadFilter α) (c : Fin NUM_BANDS)
    (x : α) (hp : ∀ b, b ≠ c → PassThrough (fs b)) (k : Nat) (hk : k ≤ NUM_BANDS) :
    refBandInput fs x k = if k ≤ c.val then x else (BiquadFilter.process (fs c) x).2 := by
  induction k with
  | zero => simp [refBandInput]
  | succ k ih =>
    have hk10 : k < NUM_BANDS := hk
    have ihk := ih (Nat.le_of_lt hk10)
    rw [refBandInput_succ fs x ⟨k, hk10⟩]
    show (BiquadFilter.process (fs ⟨k, hk10⟩) (refBandInput fs x k)).2 = _
    rw [ihk]
    by_cases h1 : k < c.val
    · have hne : (⟨k, hk10⟩ : Fin NUM_BANDS) ≠ c := fun h => by
        have := congrArg Fin.val h
        simp only at this
        omega
      rw [if_pos (by omega), if_pos (by omega), (process_passThrough _ _ (hp _ hne)).1]
    · by_cases h2 : k = c.val
      · have heq : (⟨k, hk10⟩ : Fin NUM_BANDS) = c := Fin.ext h2
        rw [if_pos (by omega), if_neg (by omega), heq]
      · have hne : (⟨k, hk10⟩ : Fin NUM_BANDS) ≠ c := fun h => h2 (congrArg Fin.val h)
        rw [if_neg (by omega), if_neg (by omega), (process_passThrough _ _ (hp _ hne)).1]

theorem refCascade_single (fs : Fin NUM_BANDS → BiquadFilter α) (c : Fin NUM_BANDS)
    (x : α) (hp : ∀ b, b ≠ c → PassThrough (fs b)) :
    refCascadeOutput fs x = (BiquadFilter.process (fs c) x).2 ∧
      refCascadeState fs x c = (BiquadFilter.process (fs c) x).1 ∧
      ∀ b, b ≠ c → PassThrough (refCascadeState fs x b) := by
  refine ⟨?_, ?_, fun b hb => ?_⟩
  · unfold refCascadeOutput
    rw [refBandInput_single fs c x hp NUM_BANDS le_rfl, if_neg (by have := c.isLt; omega)]
  · unfold refCascadeState
    rw [refBandInput_single fs c x hp c.val (Nat.le_of_lt c.isLt), if_pos le_rfl]
  · exact (process_passThrough _ _ (hp b hb)).2

theorem refCascade_zero (fs : Fin NUM_BANDS → BiquadFilter α)
    (hz : ∀ b, ZeroState (fs b)) :
    refCascadeOutput fs 0 = 0 ∧ refCascadeState fs 0 = fs := by
  have key : ∀ k, k ≤ NUM_BANDS → refBandInput fs 0 k = 0 := by
    intro k
    induction k with
    | zero => intro _; rfl
    | succ k ih =>
      intro hk
      have hk10 : k < NUM_BANDS := hk
      rw [refBandInput_succ fs 0 ⟨k, hk10⟩]
      show (BiquadFilter.process (fs ⟨k, hk10⟩) (refBandInput fs 0 k)).2 = 0
      rw [ih (Nat.le_of_lt hk10), process_zero _ (hz _)]
  refine ⟨key NUM_BANDS le_rfl, ?_⟩
  funext b
  unfold refCascadeState
  rw [key b.val (Nat.le_of_lt b.isLt), process_zero _ (hz b)]

theorem peaking_feedback_eq (M : CMath α) (f : BiquadFilter α)
    (hn : NormalizedCookbook M f) (ht : f.type = FilterType.PEAKING) : f.a1 = f.b1 := by
  obtain ⟨_, _, h1, _, h4, _⟩ := hn
  rw [h1, h4, ht]
  rfl

theorem second_output (f : BiquadFilter α) (hz : ZeroState f) (ha : f.a1 = f.b1) (x : α) :
    (BiquadFilter.process (BiquadFilter.process f x).1 0).2 = f.b1 * (1 - f.b0) * x := by
  obtain ⟨h1, h2, h3, h4⟩ := hz
  show f.b0 * 0 + f.b1 * x + f.b2 * f.x1 -
      f.a1 * (f.b0 * x + f.b1 * f.x1 + f.b2 * f.x2 - f.a1 * f.y1 - f.a2 * f.y2) -
      f.a2 * f.y1 = _
  rw [h1, h2, h3, h4, ha]
  ring

theorem clamp_ne_zero (x : α) (hx : x ≠ 0) : max (-1) (min 1 x) ≠ 0 := by
  intro h
  apply hx
  rcases le_total x 1 with h1 | h1
  · rw [min_eq_right h1] at h
    rcases le_total (-1) x with h2 | h2
    · rw [max_eq_right h2] at h
      exact h
    · rw [max_eq_left h2] at h
      norm_num at h
  · rw [min_eq_left h1] at h
    rw [max_eq_right (by norm_num)] at h
    norm_num at h

/-! ## The mono path when the cascades differ -/

theorem band5_angle_bounds : (0:ℝ) < 2 * (M_PI : ℝ) * 1000 / 48000 ∧ 2 * (M_PI : ℝ) * 1000 / 48000 < 1 := by
  unfold M_PI
  constructor <;> norm_num

theorem band5_coefficients (f : BiquadFilter ℝ)
    (hn : NormalizedCookbook (CMath.mk (fun a b : ℝ => a ^ b) Real.sin Real.cos Real.sqrt) f)
    (ht : f.type = FilterType.PEAKING) (hf : f.frequency = 1000) (hs : f.sampleRate = 48000)
    (hg : f.gainDB = 12) (hq : f.Q = 1) : f.b1 ≠ 0 ∧ f.b0 ≠ 1 := by
  obtain ⟨_, h0, h1, _, _, _⟩ := hn
  rw [ht, hf, hs, hg, hq] at h0 h1
  simp only [cookbook] at h0 h1
  obtain ⟨w0, w1⟩ := band5_angle_bounds
  have hsin : 0 < Real.sin (2 * (M_PI : ℝ) * 1000 / 48000) :=
    Real.sin_pos_of_pos_of_lt_pi w0 (by linarith [Real.pi_gt_three])
  have hcos : 0 < Real.cos (2 * (M_PI : ℝ) * 1000 / 48000) :=
    Real.cos_pos_of_mem_Ioo ⟨by linarith [Real.pi_gt_three], by linarith [Real.pi_gt_three]⟩
  have hA : (1:ℝ) < (10:ℝ) ^ ((12:ℝ) / 40) := Real.one_lt_rpow (by norm_num) (by norm_num)
  set A := (10:ℝ) ^ ((12:ℝ) / 40) with hAdef
  set sn := Real.sin (2 * (M_PI : ℝ) * 1000 / 48000) with hsn
  set cs := Real.cos (2 * (M_PI : ℝ) * 1000 / 48000) with hcs
  have hA0 : 0 < A := by linarith
  have ha0 : 0 < 1 + sn / (2 * 1) / A := by positivity
  constructor
  · rw [h1]
    exact div_ne_zero (by nlinarith) (ne_of_gt ha0)
  · rw [h0]
    intro h
    rw [div_eq_one_iff_eq (ne_of_gt ha0)] at h
    have h2 : sn / (2 * 1) * A = sn / (2 * 1) / A := by linarith
    have h3 : sn / (2 * 1) / A < sn / (2 * 1) * A := by
      have hs2 : 0 < sn / (2 * 1) := by positivity
      calc sn / (2 * 1) / A < sn / (2 * 1) := div_lt_self hs2 hA
        _ < sn / (2 * 1) * A := lt_mul_of_one_lt_right hs2 hA
    linarith

theorem bandType_five : bandType (⟨5, by decide⟩ : Fin NUM_BANDS) = FilterType.PEAKING := rfl

theorem gain_example_eq (M : CMath α) (sr : α) :
    Equalizer.setBandGain M (Equalizer.new M sr) 5 12 =
      { leftFilters := Function.update (fun i => initialFilter M sr i) ⟨5, by decide⟩
          (BiquadFilter.setGain M (initialFilter M sr ⟨5, by decide⟩) 12)
        rightFilters := Function.update (fun i => initialFilter M sr i) ⟨5, by decide⟩
          (BiquadFilter.setGain M (initialFilter M sr ⟨5, by decide⟩) 12)
        currentGains := Function.update (fun _ => 0) ⟨5, by decide⟩ 12
        sampleRate := sr
        enabled := true } := by
  have h := setBandGain_band M (Equalizer.new M sr) ⟨5, by decide⟩ 12
  rw [clamp_of_mem 12 12 (by norm_num) le_rfl, new_eq] at h
  exact h

theorem mono_left_output_discarded (M : CMath α) (hpow : M.pow 10 0 = 1) (hsqrt : M.sqrt 1 = 1)
    (hsin : ∀ x, -1 ≤ M.sin x) (sr : α)
    (hb1 : (BiquadFilter.setGain M (initialFilter M sr ⟨5, by decide⟩) 12).b1 ≠ 0)
    (hb0 : (BiquadFilter.setGain M (initialFilter M sr ⟨5, by decide⟩) 12).b0 ≠ 1) :
    (SystemAudioHook.processAudioBuffer
        (SystemAudioHook.mk
          (some (Equalizer.processStereo (Equalizer.setBandGain M (Equalizer.new M sr) 5 12)
            (fun a => if a = 0 then 1 / 2 else 0) 0 1 1).1) true)
        (fun _ => 0) 0 1 1).2 0 = 0 ∧
      max (-1) (min 1 (refCascadeOutput
        (Equalizer.processStereo (Equalizer.setBandGain M (Equalizer.new M sr) 5 12)
          (fun a => if a = 0 then 1 / 2 else 0) 0 1 1).1.leftFilters 0)) ≠ 0 := by
  have hzero5 : ZeroState (BiquadFilter.setGain M (initialFilter M sr ⟨5, by decide⟩) 12) := by
    obtain ⟨z1, z2, z3, z4⟩ := initialFilter_zeroState M sr ⟨5, by decide⟩
    obtain ⟨⟨s1, s2, s3, s4⟩, _⟩ := setGain_frame M (initialFilter M sr ⟨5, by decide⟩) 12
    exact ⟨s1.trans z1, s2.trans z2, s3.trans z3, s4.trans z4⟩
  have hen1 : (Equalizer.setBandGain M (Equalizer.new M sr) 5 12).enabled = true :=
    setBandGain_enabled M _ 5 12
  obtain ⟨p1, _, _⟩ := processStereo_ref (Equalizer.setBandGain M (Equalizer.new M sr) 5 12)
    (fun a => if a = 0 then (1 / 2 : α) else 0) 0 1 1 hen1
    (fun i j hi hj => by omega)
  have hen2 : (Equalizer.processStereo (Equalizer.setBandGain M (Equalizer.new M sr) 5 12)
      (fun a => if a = 0 then (1 / 2 : α) else 0) 0 1 1).1.enabled = true := by
    rw [processStereo_keeps_enabled]
    exact hen1
  have hL : (Equalizer.processStereo (Equalizer.setBandGain M (Equalizer.new M sr) 5 12)
      (fun a => if a = 0 then (1 / 2 : α) else 0) 0 1 1).1.leftFilters =
      refCascadeState (Function.update (fun i => initialFilter M sr i) ⟨5, by decide⟩
          (BiquadFilter.setGain M (initialFilter M sr ⟨5, by decide⟩) 12)) (1 / 2) := by
    rw [p1, gain_example_eq]
    rfl
  have hR : (Equalizer.processStereo (Equalizer.setBandGain M (Equalizer.new M sr) 5 12)
      (fun a => if a = 0 then (1 / 2 : α) else 0) 0 1 1).1.rightFilters =
      refCascadeState (Function.update (fun i => initialFilter M sr i) ⟨5, by decide⟩
          (BiquadFilter.setGain M (initialFilter M sr ⟨5, by decide⟩) 12)) 0 := by
    rw [p1, gain_example_eq]
    rfl
  have hzAll : ∀ b, ZeroState (Function.update (fun i => initialFilter M sr i) ⟨5, by decide⟩
      (BiquadFilter.setGain M (initialFilter M sr ⟨5, by decide⟩) 12) b) :=
    pred_update (fun _ f => ZeroState f) _ _ _ (fun i => initialFilter_zeroState M sr i) hzero5
  have hpAll : ∀ b, b ≠ (⟨5, by decide⟩ : Fin NUM_BANDS) →
      PassThrough (Function.update (fun i => initialFilter M sr i) ⟨5, by decide⟩
        (BiquadFilter.setGain M (initialFilter M sr ⟨5, by decide⟩) 12) b) := by
    intro b hb
    rw [Function.update_noteq hb]
    exact initialFilter_passThrough M hpow hsqrt hsin sr b
  generalize (Equalizer.processStereo (Equalizer.setBandGain M (Equalizer.new M sr) 5 12)
      (fun a => if a = 0 then (1 / 2 : α) else 0) 0 1 1).1 = e2 at hL hR hen2 ⊢
  constructor
  · rw [processAudioBuffer_mono _ e2 _ 0 1 rfl rfl]
    have hw := (monoFrames_ref 0 e2 (fun _ => (0 : α)) hen2 1).2.1 0 (by norm_num)
    rw [Nat.add_zero] at hw
    rw [hw]
    show max (-1) (min 1 (refCascadeOutput e2.rightFilters 0)) = 0
    rw [hR, (refCascade_zero _ hzAll).2, (refCascade_zero _ hzAll).1]
    norm_num
  · apply clamp_ne_zero
    rw [hL]
    obtain ⟨c1, c2, c3⟩ := refCascade_single _ ⟨5, by decide⟩ (1 / 2 : α) hpAll
    rw [(refCascade_single _ ⟨5, by decide⟩ (0 : α) c3).1, c2, Function.update_same]
    have hn5 : NormalizedCookbook M
        (BiquadFilter.setGain M (initialFilter M sr ⟨5, by decide⟩) 12) := by
      unfold BiquadFilter.setGain
      exact calc_normalized M _
    have ht5 : (BiquadFilter.setGain M (initialFilter M sr ⟨5, by decide⟩) 12).type =
        FilterType.PEAKING := by
      rw [(setGain_frame M (initialFilter M sr ⟨5, by decide⟩) 12).2.1]
      exact (initialFilter_design M sr ⟨5, by decide⟩).1.trans bandType_five
    have ha := peaking_feedback_eq M
      (BiquadFilter.setGain M (initialFilter M sr ⟨5, by decide⟩) 12) hn5 ht5
    rw [second_output (BiquadFilter.setGain M (initialFilter M sr ⟨5, by decide⟩) 12)
      hzero5 ha]
    refine mul_ne_zero (mul_ne_zero hb1 ?_) (by norm_num)
    intro h
    apply hb0
    linarith

theorem band5_filter_coefficients :
    (BiquadFilter.setGain (CMath.mk (fun a b : ℝ => a ^ b) Real.sin Real.cos Real.sqrt) (initialFilter (CMath.mk (fun a b : ℝ => a ^ b) Real.sin Real.cos Real.sqrt) 48000 ⟨5, by decide⟩) 12).b1 ≠ 0 ∧
      (BiquadFilter.setGain (CMath.mk (fun a b : ℝ => a ^ b) Real.sin Real.cos Real.sqrt) (initialFilter (CMath.mk (fun a b : ℝ => a ^ b) Real.sin Real.cos Real.sqrt) 48000 ⟨5, by decide⟩) 12).b0 ≠ 1 := by
  have hfr := setGain_frame (CMath.mk (fun a b : ℝ => a ^ b) Real.sin Real.cos Real.sqrt) (initialFilter (CMath.mk (fun a b : ℝ => a ^ b) Real.sin Real.cos Real.sqrt) 48000 ⟨5, by decide⟩) 12
  obtain ⟨d1, d2, d3, d4⟩ := initialFilter_design (CMath.mk (fun a b : ℝ => a ^ b) Real.sin Real.cos Real.sqrt) 48000 ⟨5, by decide⟩
  apply band5_coefficients
  · unfold BiquadFilter.setGain
    exact calc_normalized _ _
  · rw [hfr.2.1]
    exact d1.trans bandType_five
  · rw [hfr.2.2.1, d2]
    rfl
  · rw [hfr.2.2.2.1]
    exact d3
  · unfold BiquadFilter.setGain
    rw [calc_gainDB]
  · rw [hfr.2.2.2.2]
    exact d4

/-- C26 (counterexample). At 48000 Hz with the real `pow`, `sin`, `cos`, `sqrt`: after
`setBandGain(5, 12.0)` and one stereo frame with left sample 1/2 and right sample 0, the
mono path on the one-sample buffer `[0]` leaves 0 in `buffer[0]` - the right cascade's
output - while the left cascade's clamped output for that sample is not 0. -/
theorem mono_writes_right_output :
    (SystemAudioHook.processAudioBuffer
        (SystemAudioHook.mk
          (some (Equalizer.processStereo (Equalizer.setBandGain (CMath.mk (fun a b : ℝ => a ^ b) Real.sin Real.cos Real.sqrt) (Equalizer.new (CMath.mk (fun a b : ℝ => a ^ b) Real.sin Real.cos Real.sqrt) 48000) 5 12)
            (fun a => if a = 0 then 1 / 2 else 0) 0 1 1).1) true)
        (fun _ => 0) 0 1 1).2 0 = 0 ∧
      max (-1) (min 1 (refCascadeOutput
        (Equalizer.processStereo (Equalizer.setBandGain (CMath.mk (fun a b : ℝ => a ^ b) Real.sin Real.cos Real.sqrt) (Equalizer.new (CMath.mk (fun a b : ℝ => a ^ b) Real.sin Real.cos Real.sqrt) 48000) 5 12)
          (fun a => if a = 0 then 1 / 2 else 0) 0 1 1).1.leftFilters 0)) ≠ 0 :=
  mono_left_output_discarded (CMath.mk (fun a b : ℝ => a ^ b) Real.sin Real.cos Real.sqrt) (Real.rpow_zero 10) Real.sqrt_one Real.neg_one_le_sin 48000
    band5_filter_coefficients.1 band5_filter_coefficients.2

/-- C26 (instance). Two mono frames of the sample 1/2 through a fresh Equalizer at
48000 Hz. -/
theorem mono_path_semantics_witness :
    (SystemAudioHook.processAudioBuffer (SystemAudioHook.mk (some (Equalizer.new (CMath.mk (fun a b : ℝ => a ^ b) Real.sin Real.cos Real.sqrt) 48000)) true)
        (fun _ => 1 / 2) 0 2 1).1.equalizer =
        some { (Equalizer.new (CMath.mk (fun a b : ℝ => a ^ b) Real.sin Real.cos Real.sqrt) 48000) with
          leftFilters :=
            refChannelState ((Equalizer.new (CMath.mk (fun a b : ℝ => a ^ b) Real.sin Real.cos Real.sqrt) 48000)).leftFilters
              (fun i => (fun _ : Nat => (1 / 2 : ℝ)) (0 + i)) 2
          rightFilters :=
            refChannelState ((Equalizer.new (CMath.mk (fun a b : ℝ => a ^ b) Real.sin Real.cos Real.sqrt) 48000)).rightFilters
              (fun i => (fun _ : Nat => (1 / 2 : ℝ)) (0 + i)) 2 } ∧
      (SystemAudioHook.processAudioBuffer (SystemAudioHook.mk (some (Equalizer.new (CMath.mk (fun a b : ℝ => a ^ b) Real.sin Real.cos Real.sqrt) 48000)) true)
        (fun _ => 1 / 2) 0 2 1).2 (0 + 1) =
        max (-1) (min 1 (refCascadeOutput
          (refChannelState ((Equalizer.new (CMath.mk (fun a b : ℝ => a ^ b) Real.sin Real.cos Real.sqrt) 48000)).rightFilters
            (fun i => (fun _ : Nat => (1 / 2 : ℝ)) (0 + i)) 1)
          ((fun _ : Nat => (1 / 2 : ℝ)) (0 + 1)))) :=
  ⟨(mono_path_semantics (SystemAudioHook.mk (some (Equalizer.new (CMath.mk (fun a b : ℝ => a ^ b) Real.sin Real.cos Real.sqrt) 48000)) true) (Equalizer.new (CMath.mk (fun a b : ℝ => a ^ b) Real.sin Real.cos Real.sqrt) 48000) (fun _ => 1 / 2) 0 2
      rfl rfl rfl).1,
    (mono_path_semantics (SystemAudioHook.mk (some (Equalizer.new (CMath.mk (fun a b : ℝ => a ^ b) Real.sin Real.cos Real.sqrt) 48000)) true) (Equalizer.new (CMath.mk (fun a b : ℝ => a ^ b) Real.sin Real.cos Real.sqrt) 48000) (fun _ => 1 / 2) 0 2
      rfl rfl rfl).2.1 1 (by norm_num)⟩

/-- C23 (instance). The state after `applyPreset("rock")` and `setEnabled(false)` on a
fresh Equalizer at 48000 Hz, band 0. -/
theorem design_invariant_witness :
    (-12 ≤ (Equalizer.setEnabled (Equalizer.applyPreset (CMath.mk (fun a b : ℝ => a ^ b) Real.sin Real.cos Real.sqrt) (Equalizer.new (CMath.mk (fun a b : ℝ => a ^ b) Real.sin Real.cos Real.sqrt) 48000) "rock")
          false).currentGains ⟨0, by decide⟩ ∧
        (Equalizer.setEnabled (Equalizer.applyPreset (CMath.mk (fun a b : ℝ => a ^ b) Real.sin Real.cos Real.sqrt) (Equalizer.new (CMath.mk (fun a b : ℝ => a ^ b) Real.sin Real.cos Real.sqrt) 48000) "rock")
          false).currentGains ⟨0, by decide⟩ ≤ 12) ∧
      ((Equalizer.setEnabled (Equalizer.applyPreset (CMath.mk (fun a b : ℝ => a ^ b) Real.sin Real.cos Real.sqrt) (Equalizer.new (CMath.mk (fun a b : ℝ => a ^ b) Real.sin Real.cos Real.sqrt) 48000) "rock")
          false).leftFilters ⟨0, by decide⟩).gainDB =
        (Equalizer.setEnabled (Equalizer.applyPreset (CMath.mk (fun a b : ℝ => a ^ b) Real.sin Real.cos Real.sqrt) (Equalizer.new (CMath.mk (fun a b : ℝ => a ^ b) Real.sin Real.cos Real.sqrt) 48000) "rock")
          false).currentGains ⟨0, by decide⟩ :=
  ⟨(design_invariant (CMath.mk (fun a b : ℝ => a ^ b) Real.sin Real.cos Real.sqrt) 48000 _
      (Reachable.setEnabled _ false (Reachable.applyPreset _ "rock" Reachable.init))
      ⟨0, by decide⟩).1,
    (design_invariant (CMath.mk (fun a b : ℝ => a ^ b) Real.sin Real.cos Real.sqrt) 48000 _
      (Reachable.setEnabled _ false (Reachable.applyPreset _ "rock" Reachable.init))
      ⟨0, by decide⟩).2.1.1⟩

/-- C25 (instance). Two runs of one frame on a fresh Equalizer at 48000 Hz with the same
left sample 1/2 and right samples 0 and 1: the left output is the same. -/
theorem channel_independence_witness :
    (Equalizer.processStereo (Equalizer.new (CMath.mk (fun a b : ℝ => a ^ b) Real.sin Real.cos Real.sqrt) 48000) (fun a => if a = 0 then 1 / 2 else 0) 0 1 1).2 (0 + 0) =
      (Equalizer.processStereo (Equalizer.new (CMath.mk (fun a b : ℝ => a ^ b) Real.sin Real.cos Real.sqrt) 48000) (fun a => if a = 0 then 1 / 2 else 1) 0 1 1).2 (0 + 0) :=
  ((channel_independence (Equalizer.new (CMath.mk (fun a b : ℝ => a ^ b) Real.sin Real.cos Real.sqrt) 48000) (Equalizer.new (CMath.mk (fun a b : ℝ => a ^ b) Real.sin Real.cos Real.sqrt) 48000) (fun a => if a = 0 then 1 / 2 else 0)
      (fun a => if a = 0 then 1 / 2 else 1) 0 1 0 1 1 rfl rfl
      (fun i j hi hj => by omega) (fun i j hi hj => by omega)).1 rfl
    (fun i hi => by
      have h0 : 0 + i = 0 := by omega
      simp only [h0, if_true])).1 0 (by norm_num)

end Lemmas

end EQ
